import Mathlib

/-!
# Ondes Framboise: verification of `ondes_server_M.c`

A shallow embedding of the parts of `src/Ondes/ondes_server_M.c` that the
specification talks about, followed by theorems about them.

Conventions of the embedding

* `char` is unsigned on the target (the program compares `**ptr` with `0xff`,
  which only works there), so a byte is a `Nat` below 256.
* The mapped MIDI file is a list of bytes `mem` and a `char *` into it is an
  offset; a read outside the mapping has no defined result and gives `none`.
* `int` / `unsigned int` are 32 bits wide.  A machine word is kept as its bit
  pattern in `Nat` with explicit `% 2 ^ 32`; `toInt32` reads the pattern as a
  two's complement `int`.
* Outbound `lo_send` calls and GPIO writes are recorded in traces.
-/

namespace Ondes

/-! ## Machine arithmetic -/

/-- Two's complement reading of a 32-bit pattern as an `int`. -/
def toInt32 (n : Nat) : Int :=
  if n % 2 ^ 32 < 2 ^ 31 then ((n % 2 ^ 32 : Nat) : Int)
  else ((n % 2 ^ 32 : Nat) : Int) - 2 ^ 32

/-- The 32-bit pattern of an `int` value (conversion to `unsigned int`). -/
def ofInt32 (z : Int) : Nat := (z % 2 ^ 32).toNat

/-! ## `readVarLen` (source lines 1388-1403) -/

/-- The `while (*ptr[0] & 0x80)` loop of `readVarLen` together with the two
statements after it, run over the bytes from the pointer onwards; `data` is
the bit pattern of the `int data` and `k` counts the `++*ptr` done so far.
The result is the final pattern and the number of bytes stepped over. -/
def readVarLenLoop (data k : Nat) : List Nat → Option (Nat × Nat)
  | [] => none
  | b :: rest =>
    if b &&& 0x80 ≠ 0 then
      -- data |= *ptr[0] & 0x7f; ++*ptr; data <<= 7;
      readVarLenLoop (((data ||| (b &&& 0x7f)) <<< 7) % 2 ^ 32) (k + 1) rest
    else
      -- data |= *ptr[0]; ++*ptr; return data;
      some (data ||| b, k + 1)

/-- `int readVarLen(char **ptr)` with `*ptr = mem + pos`: the value returned
and the updated offset. -/
def readVarLen (mem : List Nat) (pos : Nat) : Option (Int × Nat) :=
  match readVarLenLoop 0 0 (mem.drop pos) with
  | none => none
  | some (d, k) => some (toInt32 d, pos + k)

/-- Standard MIDI variable-length encoding of `n`, as the specification words
it: 7 bits per byte, most significant group first, the high bit set on every
byte except the last; one to four bytes cover `0 .. 2^28 - 1`. -/
def encodeVarLen (n : Nat) : List Nat :=
  if n < 2 ^ 7 then [n]
  else if n < 2 ^ 14 then [0x80 + n / 2 ^ 7, n % 2 ^ 7]
  else if n < 2 ^ 21 then [0x80 + n / 2 ^ 14, 0x80 + n / 2 ^ 7 % 2 ^ 7, n % 2 ^ 7]
  else [0x80 + n / 2 ^ 21 % 2 ^ 7, 0x80 + n / 2 ^ 14 % 2 ^ 7,
        0x80 + n / 2 ^ 7 % 2 ^ 7, n % 2 ^ 7]

/-! ## Program state -/

/-- An outbound `lo_send` message (path and integer arguments).  The float
argument of `/midiRbn` is computed from `pitch` and `octaveShift`; the message
records these two integers. -/
inductive Msg where
  | anlg (vals : List Int)
  | vib (v : Int)
  | sw (s0 s1 s2 : Int)
  | oct (shift : Int)
  | key (note play : Int)
  | midiRbn (pitch octaveShift : Int)
  deriving DecidableEq, Repr

/-- The global variables of `ondes_server_M.c` that the modelled code reads or
writes, with the initial values of their declarations (lines 145-183 and
322-340), and the two traces: `out` lists the `lo_send` calls and `gpio` the
writes `gpioReg[reg] = val` in program order.  `analogueVal` is declared
`int16_t analogueVal[7]` but the program indexes cells 0..7; the embedding
keeps the eight cells the code uses. -/
structure Globals where
  analogueLast : List Nat := [9999, 9999, 9999, 9999, 9999, 9999, 9999, 9999]
  analogueVal : List Int := [0, 0, 0, 0, 0, 0, 0, 0]
  vib : Int := 0
  octUpPressed : Nat := 0
  octDnPressed : Nat := 0
  octaveShift : Int := 0
  rgb_led : Nat := 0
  oct_led : Nat := 0x0565
  ledMask : Nat := 0xffff
  recMask : Nat := 0x0000
  shiftreg_count : Nat := 0
  prevSws : List Nat := [0, 0, 0]
  lastKey : Int := 60
  keyBits : List Nat := [0, 0, 0, 0, 0, 0, 0, 0, 0, 0, 0, 0, 0, 0, 0, 0]
  toucheLED : Nat := 1
  octaveLED : Nat := 1
  recording : Nat := 0
  ticksPerQtr : Int := 0
  qtrMicros : Nat := 500000
  eoTrk : List Nat := [0, 0]
  delta : List Int := [0, 0]
  track : Nat := 0
  octaveOffset : Int := 0
  midiSws : List Nat := [0, 0, 0]
  claquement : Nat := 1
  ruban : Nat := 0
  out : List Msg := []
  gpio : List (Nat × Nat) := []
  deriving DecidableEq, Repr

/-- The state at program start. -/
def initGlobals : Globals := {}

/-- The state while recording with the octave markers switched off: the menu
has set `octaveLED = 0` and called `setOctaveLEDs`, then started a recording. -/
def recordingMarkersOff : Globals :=
  { initGlobals with octaveLED := 0, ledMask := 0xf000, recording := 1, recMask := 0x0fff }

/-! ## GPIO and the 74hc595 shift registers (lines 1159-1178, 1663-1668) -/

def SER : Nat := 27
def RCLK : Nat := 22
def SRCLK : Nat := 23
def SW_1 : Nat := 19
def SW_2 : Nat := 20
def SW_3 : Nat := 21
def GPSET0 : Nat := 7
def GPCLR0 : Nat := 10

/-- The register write `*(gpioReg + GPCLR0 + PI_BANK) = PI_BIT`, which drives
the pin low. -/
def pinLow (pin : Nat) : Nat × Nat := (GPCLR0 + pin >>> 5, 1 <<< (pin &&& 0x1F))

/-- The register write `*(gpioReg + GPSET0 + PI_BANK) = PI_BIT`, which drives
the pin high. -/
def pinHigh (pin : Nat) : Nat × Nat := (GPSET0 + pin >>> 5, 1 <<< (pin &&& 0x1F))

/-- `gpioWrite(gpio, level)`: one write of `PI_BIT` to the clear register
(level 0) or the set register (any other level) of the pin's bank. -/
def gpioWrite (pin level : Nat) (g : Globals) : Globals :=
  if level = 0 then { g with gpio := g.gpio ++ [pinLow pin] }
  else { g with gpio := g.gpio ++ [pinHigh pin] }

/-- `srPulse(pin)`: low, then high. -/
def srPulse (pin : Nat) (g : Globals) : Globals :=
  gpioWrite pin 1 (gpioWrite pin 0 g)

/-- The `for (i = 0; i < 15; i++)` loop of `srSend`; the body does not use
`i`, so the loop is indexed by the number of iterations still to run. -/
def srSendLoop (data : Nat) : Nat → Nat → Globals → Globals
  | 0, _, g => g
  | n + 1, mask, g =>
    srSendLoop data n (mask >>> 1)
      (srPulse SRCLK (gpioWrite SER (if data &&& mask = 0 then 1 else 0) g))

/-- The value of the parameter `data` of `srSend` after `data ^= recMask`. -/
def srData (data : Nat) (g : Globals) : Nat :=
  ((data % 2 ^ 16) ^^^ g.recMask) % 2 ^ 16

/-- `void srSend(uint16_t data)`. -/
def srSend (data : Nat) (g : Globals) : Globals :=
  srPulse RCLK (srSendLoop (srData data g) 15 0x4000 g)

/-- The table `colour[8]`. -/
def colour : List Nat := [0, 1, 3, 2, 6, 4, 5, 7]

/-- The argument `((colour[rgb_led] << 12) | oct_led) & ledMask` that every
LED refresh passes to `srSend` (lines 576, 594, 646, 1042). -/
def ledWord (g : Globals) : Nat :=
  ((colour.getD g.rgb_led 0 <<< 12) ||| g.oct_led) &&& g.ledMask

/-- The periodic refresh of lines 644-648 (also the body of `led_handler`
after `rgb_led` is stored). -/
def ledRefresh (g : Globals) : Globals :=
  { srSend (ledWord g) g with shiftreg_count := 0 }

/-- The wire sequence for the low `n` bits of `d`, as the specification words
it: most significant bit first, each bit inverted on the data line (a set bit
drives the line low) and followed by one low-then-high pulse of the shift
clock. -/
def srBits (d : Nat) : Nat → List (Nat × Nat)
  | 0 => []
  | n + 1 =>
    [if d.testBit n then pinLow SER else pinHigh SER, pinLow SRCLK, pinHigh SRCLK] ++ srBits d n

/-- The wire sequence of one render of the 16-bit value `d`: its low 15 bits,
then one pulse of the latch clock. -/
def srTrace (d : Nat) : List (Nat × Nat) :=
  srBits d 15 ++ [pinLow RCLK, pinHigh RCLK]

/-- `void setOctaveLEDs(void)`, lines 1228-1246. -/
def setOctaveLEDs (g : Globals) : Globals :=
  if g.octaveLED = 0 then { g with ledMask := (g.ledMask &&& 0xf000) % 2 ^ 16 }
  else if g.octaveLED = 1 then { g with ledMask := (g.ledMask ||| 0x0fff) % 2 ^ 16 }
  else if g.octaveLED = 2 then
    { g with ledMask := (((g.ledMask ||| 0x0fff) % 2 ^ 16) &&& 0xfaaa) % 2 ^ 16 }
  else if g.octaveLED = 3 then
    { g with ledMask := (((g.ledMask ||| 0x0fff) % 2 ^ 16) &&& 0xfa8a) % 2 ^ 16 }
  else g

/-- `void setToucheLED(void)`, lines 1248-1254. -/
def setToucheLED (g : Globals) : Globals :=
  if g.toucheLED ≠ 0 then { g with ledMask := (g.ledMask ||| 0x3c00) % 2 ^ 16 }
  else { g with ledMask := (g.ledMask &&& 0x03ff) % 2 ^ 16 }

/-- Recording is switched on by the menu (lines 723-725). -/
def recordStart (g : Globals) : Globals :=
  { g with recording := 1, recMask := 0x0fff }

/-- Recording is switched off (lines 716-717 and 749-753). -/
def recordStop (g : Globals) : Globals :=
  { g with recording := 0, recMask := 0x0000 }

/-! ## Lowest-note scan of the keyboard (lines 620-629) -/

/-- The inner `for (j = 0; (j < 8) && (255 == lowest); j++)` loop for byte
`kb = keyBits[i]`; `n = 8 - j` iterations remain, so `j = 7 - n` in the body. -/
def scanByte (kb i : Nat) : Nat → Nat → Nat → Nat
  | 0, _, lowest => lowest
  | n + 1, keyMask, lowest =>
    if lowest = 255 then
      scanByte kb i n ((keyMask <<< 1) % 256)
        (if kb &&& keyMask ≠ 0 then (i * 8 + (7 - n)) % 256 else lowest)
    else lowest

/-- The outer `for (i = 0; (i < 16) && (255 == lowest); i++)` loop; `m = 16 - i`
iterations remain, so `i = 15 - m` in the body. -/
def scanKeys (keyBits : List Nat) : Nat → Nat → Nat
  | 0, lowest => lowest
  | m + 1, lowest =>
    if lowest = 255 then
      scanKeys keyBits m (scanByte (keyBits.getD (15 - m) 0) (15 - m) 8 1 lowest)
    else lowest

/-- The value of `lowest` after the scan, which starts from `lowest = 255`. -/
def lowestKey (keyBits : List Nat) : Nat :=
  scanKeys keyBits 16 255

/-- Bit `n mod 8` of `keyBits[n div 8]`: key `n` is held. -/
def keyHeld (keyBits : List Nat) (n : Nat) : Bool :=
  (keyBits.getD (n / 8) 0).testBit (n % 8)

/-! ## Analogue cycle (lines 476-506) -/

/-- The result that `read_mcp3008` assembles from the bytes in `buf` after the
SPI transaction (lines 1130-1134). -/
def read_mcp3008 (buf : List Nat) : Int :=
  ((((buf.getD 1 0 % 256) &&& 3) <<< 8) + buf.getD 2 0 % 256 : Nat)

/-- Conversion of an `int` to `uint16_t`. -/
def toUInt16 (z : Int) : Nat := (z % 65536).toNat

/-- The noise filter loop of lines 486-493; `n = 8 - i` iterations remain.
The second component is the local `changed`. -/
def hystLoop : Nat → Globals × Nat → Globals × Nat
  | 0, s => s
  | n + 1, (g, changed) =>
    let i := 7 - n
    if Int.natAbs (g.analogueVal.getD i 0 - (g.analogueLast.getD i 0 : Int)) > 1 then
      hystLoop n
        ({ g with analogueLast := g.analogueLast.set i (toUInt16 (g.analogueVal.getD i 0)) }, 1)
    else hystLoop n (g, changed)

/-- The range setting of the touche channel, lines 483-485. -/
def toucheRange (v : Int) : Int :=
  let v1 := if v > 920 then 920 else v
  let v2 := if v1 < 100 then 100 else v1
  920 - v2

/-- The analogue values after sampling the 8 channels and setting the touche
range (lines 478-485); `bufs i` is the content of `buf` after the transaction
for channel `i`. -/
def sampleAnalogue (bufs : Nat → List Nat) : List Int :=
  let vals := (List.range 8).map fun i => read_mcp3008 (bufs i)
  vals.set 0 (toucheRange (vals.getD 0 0))

/-- One analogue cycle: the body of `if ((myMillis() - analogueMillis) >= 5)`.
`accel` is the value returned by `adxl632(0x0B, 0x08, 0x00)`. -/
def analogCycle (bufs : Nat → List Nat) (accel : Int) (g : Globals) : Globals :=
  let g1 := { g with analogueVal := sampleAnalogue bufs }
  let (g2, changed) := hystLoop 8 (g1, 0)
  let g3 := if changed ≠ 0 then { g2 with out := g2.out ++ [Msg.anlg g2.analogueVal] } else g2
  { g3 with vib := accel, out := g3.out ++ [Msg.vib accel] }

/-! ## Switch cycle (lines 512-600) -/

/-- The octave marker pattern `0x0555 ^ (3 << 4 + (octaveShift / 6))` stored
in the `uint16_t oct_led`; `+` binds tighter than `<<` and `/` truncates. -/
def octLedPattern (octaveShift : Int) : Nat :=
  (0x0555 ^^^ (3 <<< (4 + octaveShift.tdiv 6).toNat)) % 2 ^ 16

/-- The domain of `octaveShift` named by the specification. -/
def OctDomain (s : Int) : Prop := s = -24 ∨ s = -12 ∨ s = 0 ∨ s = 12

instance (s : Int) : Decidable (OctDomain s) := by
  unfold OctDomain
  infer_instance

/-- The body of `if (!octDnPressed)`, lines 567-577. -/
def octDownPress (g : Globals) : Globals :=
  let g1 := if g.octaveShift > -24 then { g with octaveShift := g.octaveShift - 12 } else g
  let g2 := { g1 with octDnPressed := 1, out := g1.out ++ [Msg.oct g1.octaveShift] }
  let g3 := { g2 with oct_led := octLedPattern g2.octaveShift }
  { srSend (ledWord g3) g3 with shiftreg_count := 0 }

/-- The body of `if (!octUpPressed)`, lines 585-595. -/
def octUpPress (g : Globals) : Globals :=
  let g1 := if g.octaveShift < 12 then { g with octaveShift := g.octaveShift + 12 } else g
  let g2 := { g1 with octUpPressed := 1, out := g1.out ++ [Msg.oct g1.octaveShift] }
  let g3 := { g2 with oct_led := octLedPattern g2.octaveShift }
  { srSend (ledWord g3) g3 with shiftreg_count := 0 }

/-- The bank select lines `gpio[] = {SW_1, SW_2, SW_3}`. -/
def swGpio : List Nat := [SW_1, SW_2, SW_3]

/-- The bank scan loop `for (i = 0; i <= 2; i++)` of lines 516-528; `n = 3 - i`
iterations remain.  `rd i` is the byte that `mcp23s08_read_reg` returns for
bank `i`; the state carries the locals `switches` and `changed`. -/
def scanBanks (rd : Nat → Nat) : Nat → List Nat × Nat × Globals → List Nat × Nat × Globals
  | 0, s => s
  | n + 1, (switches, changed, g) =>
    let i := 2 - n
    let g1 := gpioWrite (swGpio.getD i 0) 0 g
    let sw := 255 - rd i % 256
    if sw ≠ g1.prevSws.getD i 0 then
      scanBanks rd n (switches.set i sw, 1,
        gpioWrite (swGpio.getD i 0) 1 { g1 with prevSws := g1.prevSws.set i sw })
    else
      scanBanks rd n (switches.set i sw, changed, gpioWrite (swGpio.getD i 0) 1 g1)

/-- The octave shift buttons, lines 564-599, for the value `s2 = switches[2]`. -/
def octaveButtons (s2 : Nat) (g : Globals) : Globals :=
  let g1 :=
    if s2 &&& 64 ≠ 0 then (if g.octDnPressed = 0 then octDownPress g else g)
    else { g with octDnPressed := 0 }
  if s2 &&& 128 ≠ 0 then (if g1.octUpPressed = 0 then octUpPress g1 else g1)
  else { g1 with octUpPressed := 0 }

/-- The switch part of one switch cycle: the bank scan and the body of
`if (changed)`, lines 513-600. -/
def switchCycle (rd : Nat → Nat) (g : Globals) : Globals :=
  match scanBanks rd 3 ([0, 0, 0], 0, g) with
  | (switches, changed, g1) =>
    if changed ≠ 0 then
      let s0 := switches.getD 0 0
      let s1 := switches.getD 1 0
      let s2 := switches.getD 2 0
      let e0 := if s0 &&& 4 ≠ 0 then s0 ||| 248 else s0
      let e1 := if s0 &&& 4 ≠ 0 then s1 ||| 1 else s1
      let g2 := { g1 with out := g1.out ++ [Msg.sw (Int.ofNat e0) (Int.ofNat e1) (Int.ofNat (s2 &&& 63))] }
      octaveButtons s2 g2
    else g1

/-- The state after a sequence of switch cycles, one reading per cycle. -/
def runSwitchCycles : List (Nat → Nat) → Globals → Globals
  | [], g => g
  | rd :: rds, g => runSwitchCycles rds (switchCycle rd g)

/-! ## MIDI playback: `parseEvent` (lines 1405-1546) -/

/-- The `/sw` message built from `midiSws`. -/
def midiSwMsg (g : Globals) : Msg :=
  Msg.sw (Int.ofNat (g.midiSws.getD 0 0)) (Int.ofNat (g.midiSws.getD 1 0))
    (Int.ofNat (g.midiSws.getD 2 0))

/-- The set-tempo loop, lines 1424-1429: `qtrMicros <<= 8; qtrMicros |= **ptr`
for each of the three bytes, in an `unsigned int`. -/
def tempoValue (c0 c1 c2 : Nat) : Nat :=
  let q1 := ((0 <<< 8) % 2 ^ 32) ||| c0
  let q2 := ((q1 <<< 8) % 2 ^ 32) ||| c1
  ((q2 <<< 8) % 2 ^ 32) ||| c2

/-- The `switch (*(*ptr + 1))` of a control change, lines 1475-1529, for
controller `ctl`; the value byte `*(*ptr + 2)` is read only in the cases that
use it. -/
def controlChange (mem : List Nat) (pos ctl : Nat) (g : Globals) : Option Globals :=
  if ctl = 0x0B then
    match mem[pos + 2]? with
    | none => none
    | some v =>
      let g1 := { g with analogueVal := g.analogueVal.set 6 (Int.ofNat (((v &&& 0x7f) * 992) / 383)) }
      some { g1 with out := g1.out ++ [Msg.anlg g1.analogueVal] }
  else if ctl = 0x10 ∨ ctl = 0x11 ∨ ctl = 0x12 ∨ ctl = 0x13 then
    match mem[pos + 2]? with
    | none => none
    | some v =>
      let g1 := { g with analogueVal := g.analogueVal.set (ctl - 14) (Int.ofNat ((v &&& 0x7f) <<< 3)) }
      some { g1 with out := g1.out ++ [Msg.anlg g1.analogueVal] }
  else if ctl = 0x50 then
    match mem[pos + 2]? with
    | none => none
    | some v =>
      let m1 := ((g.midiSws.getD 1 0 &&& 0x0f) ||| ((v &&& 0x7f) <<< 4)) % 256
      let g1 := { g with midiSws := g.midiSws.set 1 m1 }
      some { g1 with out := g1.out ++ [midiSwMsg g1] }
  else if ctl = 0x51 then
    match mem[pos + 2]? with
    | none => none
    | some v =>
      let r := if v &&& 0x7f < 64 then 0 else 1
      let m0 := g.midiSws.getD 1 0 &&& 0xfb
      let m1 := if r ≠ 0 then m0 ||| 4 else m0
      let g1 := { g with ruban := r, midiSws := g.midiSws.set 1 m1 }
      some { g1 with out := g1.out ++ [midiSwMsg g1] }
  else if ctl = 0x52 then
    match mem[pos + 2]? with
    | none => none
    | some v =>
      let c := if v &&& 0x7f < 64 then 0 else 1
      let m0 := g.midiSws.getD 1 0 &&& 0xf7
      let m1 := if c ≠ 0 then m0 ||| 8 else m0
      let g1 := { g with claquement := c, midiSws := g.midiSws.set 1 m1 }
      some { g1 with out := g1.out ++ [midiSwMsg g1] }
  else if ctl = 0x53 then
    match mem[pos + 2]? with
    | none => none
    | some v =>
      let g1 := { g with analogueVal := g.analogueVal.set 7 (Int.ofNat ((v &&& 0x7f) <<< 3)) }
      some { g1 with out := g1.out ++ [Msg.anlg g1.analogueVal] }
  else some g

/-- The program change of lines 1465-1469 for data byte `d`. -/
def programChange (d : Nat) (g : Globals) : Globals :=
  let a0 := g.midiSws.getD 0 0 &&& 0x03
  let a1 := (a0 ||| ((d &&& 0x1f) <<< 3)) % 256
  let b0 := g.midiSws.getD 1 0 &&& 0xfc
  let b1 := (b0 ||| ((d &&& 0x60) >>> 5)) % 256
  let g1 := { g with midiSws := (g.midiSws.set 0 a1).set 1 b1 }
  { g1 with out := g1.out ++ [midiSwMsg g1] }

/-- `void parseEvent(char **ptr)` with `*ptr = mem + pos`: the updated offset
and globals, or `none` when a byte outside the mapping is read or the pointer
leaves the mapping at its start. -/
def parseEvent (mem : List Nat) (pos : Nat) (g : Globals) : Option (Nat × Globals) :=
  match mem[pos]? with
  | none => none
  | some b0 =>
    if b0 = 0xff then
      match mem[pos + 1]? with
      | none => none
      | some b1 =>
        if b1 = 0x2f then
          -- eoTrk[track] = 1; ++*ptr; readVarLen(ptr);
          match readVarLen mem (pos + 2) with
          | none => none
          | some (_, pos1) => some (pos1, { g with eoTrk := g.eoTrk.set g.track 1 })
        else if b1 = 0x51 then
          -- *ptr += 2; then three bytes of tempo
          match mem[pos + 3]?, mem[pos + 4]?, mem[pos + 5]? with
          | some c0, some c1, some c2 =>
            some (pos + 6, { g with qtrMicros := tempoValue c0 c1 c2 })
          | _, _, _ => none
        else
          -- ++*ptr; len = readVarLen(ptr); *ptr += len;
          match readVarLen mem (pos + 2) with
          | none => none
          | some (len, pos1) =>
            if 0 ≤ (pos1 : Int) + len then some (((pos1 : Int) + len).toNat, g) else none
    else if b0 &&& 0xf0 = 0xE0 then
      match mem[pos + 2]?, mem[pos + 1]? with
      | some msb, some lsb =>
        let pitch := ((msb &&& 0x7f) <<< 7) ||| (lsb &&& 0x7f)
        if g.ruban ≠ 0 then
          some (pos + 3, { g with out := g.out ++ [Msg.midiRbn (Int.ofNat pitch) g.octaveShift] })
        else
          some (pos + 3, { g with out := g.out ++ [Msg.vib (Int.ofNat pitch - 8193)] })
      | _, _ => none
    else if b0 &&& 0xf0 = 0xC0 then
      match mem[pos + 1]? with
      | none => none
      | some d => some (pos + 2, programChange d g)
    else if b0 &&& 0xf0 = 0xB0 then
      match mem[pos + 1]? with
      | none => none
      | some ctl =>
        match controlChange mem pos ctl g with
        | none => none
        | some g1 => some (pos + 3, g1)
    else if b0 &&& 0xf0 = 0x90 then
      match mem[pos + 1]? with
      | none => none
      | some n =>
        some (pos + 3,
          { g with out := g.out ++ [Msg.key (Int.ofNat (n &&& 0x7f) - g.octaveOffset) 1] })
    else if b0 &&& 0xf0 = 0x80 then
      if g.claquement ≠ 0 then
        match mem[pos + 1]? with
        | none => none
        | some n =>
          some (pos + 3,
            { g with out := g.out ++ [Msg.key (Int.ofNat (n &&& 0x7f) - g.octaveOffset) 0] })
      else some (pos + 3, g)
    else some (pos, g)

/-! ## MIDI playback: `playMidiFile` (lines 1256-1386) -/

/-- How a loop of the player ends: it runs to completion, it reads outside
the mapping (or divides by a zero `ticksPerQtr`), or the iteration budget of
the model is used up. -/
inductive Outcome (α : Type) where
  | done (a : α)
  | fault
  | outOfFuel
  deriving DecidableEq, Repr

/-- The search of `memmem` over `count` candidate offsets from `pos` on:
`some (some p)` for the first offset where the needle stands, `some none` for
`NULL`, and `none` when the search comes to a candidate offset whose bytes
do not all lie inside the mapping, so that the comparison reads outside it. -/
def memmemFrom (mem needle : List Nat) : Nat → Nat → Option (Option Nat)
  | 0, _ => some none
  | count + 1, pos =>
    if mem.length < pos + needle.length then none
    else if (mem.drop pos).take needle.length = needle then some (some pos)
    else memmemFrom mem needle count (pos + 1)

/-- `memmem(mem + start, len, needle, needle.length)`: the offset into `mem`
of the first occurrence wholly inside the window of `len` bytes, `some none`
for `NULL`, and `none` for a read outside the mapping. -/
def memmem (mem : List Nat) (start len : Nat) (needle : List Nat) : Option (Option Nat) :=
  if len < needle.length then some none
  else memmemFrom mem needle (len - needle.length + 1) start

/-- The bytes of "MThd". -/
def MThd : List Nat := [0x4D, 0x54, 0x68, 0x64]

/-- The bytes of "MTrk". -/
def MTrk : List Nat := [0x4D, 0x54, 0x72, 0x6B]

/-- The locals of `playMidiFile` that the scheduling loop uses, with the
globals.  `waits` lists the bound `diffMicros` of every busy-wait run. -/
structure Player where
  g : Globals
  trk_p : List Nat
  nextEventMicros : Nat
  lastEventMicros : Nat
  diffMicros : Int
  waits : List Int
  deriving DecidableEq, Repr

/-- The increment `nextEventTicks * qtrMicros / ticksPerQtr` of line 1373:
`qtrMicros` is `unsigned int`, so both `int` operands are converted and the
product and quotient are taken in 32-bit unsigned arithmetic. -/
def waitMicros (nextEventTicks : Int) (qtrMicros : Nat) (ticksPerQtr : Int) : Nat :=
  ((ofInt32 nextEventTicks * (qtrMicros % 2 ^ 32)) % 2 ^ 32) / ofInt32 ticksPerQtr

/-- The drain loop `while ((delta[track] <= 0) && !eoTrk[track])` of lines
1362-1365 for the track in the global `track`. -/
def drainTrack (mem : List Nat) : Nat → Player → Outcome Player
  | 0, _ => Outcome.outOfFuel
  | fuel + 1, p =>
    let t := p.g.track
    if p.g.delta.getD t 0 ≤ 0 ∧ p.g.eoTrk.getD t 0 = 0 then
      match parseEvent mem (p.trk_p.getD t 0) p.g with
      | none => Outcome.fault
      | some (pos1, g1) =>
        match readVarLen mem pos1 with
        | none => Outcome.fault
        | some (d, pos2) =>
          drainTrack mem fuel
            { p with g := { g1 with delta := g1.delta.set t d }, trk_p := p.trk_p.set t pos2 }
    else Outcome.done p

/-- The `for (track = 0; track < 2; track++)` loop of lines 1360-1366. -/
def drainBoth (mem : List Nat) (fuel : Nat) (p : Player) : Outcome Player :=
  match drainTrack mem fuel { p with g := { p.g with track := 0 } } with
  | Outcome.done p1 =>
    match drainTrack mem fuel { p1 with g := { p1.g with track := 1 } } with
    | Outcome.done p2 => Outcome.done { p2 with g := { p2.g with track := 2 } }
    | Outcome.fault => Outcome.fault
    | Outcome.outOfFuel => Outcome.outOfFuel
  | Outcome.fault => Outcome.fault
  | Outcome.outOfFuel => Outcome.outOfFuel

/-- Lines 1370-1378: the tick count to the next event, the schedule update,
the busy-wait (which changes no program variable and is recorded in `waits`)
and the subtraction of the ticks from both deltas. -/
def scheduleNext (p : Player) : Player :=
  let d0 := p.g.delta.getD 0 0
  let d1 := p.g.delta.getD 1 0
  let nextEventTicks := if d0 < d1 then d0 else d1
  let last := p.nextEventMicros
  let next := (last + waitMicros nextEventTicks p.g.qtrMicros p.g.ticksPerQtr) % 2 ^ 32
  let diff := toInt32 ((next + 2 ^ 32 - last) % 2 ^ 32)
  { p with
    g := { p.g with delta := [toInt32 (ofInt32 (d0 - nextEventTicks)),
                              toInt32 (ofInt32 (d1 - nextEventTicks))] }
    lastEventMicros := last
    nextEventMicros := next
    diffMicros := diff
    waits := p.waits ++ [diff] }

/-- The scheduling loop `while (!eoTrk[0] || !eoTrk[1])` of lines 1359-1380.
`inner` is the budget of each drain loop, the third argument that of this
loop. -/
def playLoop (mem : List Nat) (inner : Nat) : Nat → Player → Outcome Player
  | 0, _ => Outcome.outOfFuel
  | fuel + 1, p =>
    if p.g.eoTrk.getD 0 0 = 0 ∨ p.g.eoTrk.getD 1 0 = 0 then
      match drainBoth mem inner p with
      | Outcome.done p1 =>
        if p1.g.eoTrk.getD 0 0 ≠ 0 ∧ p1.g.eoTrk.getD 1 0 ≠ 0 then Outcome.done p1
        else if ofInt32 p1.g.ticksPerQtr = 0 then Outcome.fault
        else playLoop mem inner fuel (scheduleNext p1)
      | Outcome.fault => Outcome.fault
      | Outcome.outOfFuel => Outcome.outOfFuel
    else Outcome.done p

/-- The length argument `sb.st_size - 20` of line 1328 as a `size_t`, which
has 32 bits on the target (the program stores pointers in `unsigned int`): a
file shorter than 20 bytes gives a length near `2 ^ 32`. -/
def trackWindow (fileSize : Nat) : Nat := ofInt32 ((fileSize : Int) - 20)

/-- Lines 1326-1342 for one track: find "MTrk" in the `trackWindow fileSize`
bytes from `from_`, step over the marker and the four length bytes, and read
the first delta time.  The result is `none` when the marker is not found
(`return -1`), otherwise the outcome of the reads, which is `some none` when
the search or a later read leaves the mapping. -/
def findTrack (mem : List Nat) (fileSize from_ : Nat) : Option (Option (Int × Nat)) :=
  match memmem mem from_ (trackWindow fileSize) MTrk with
  | none => some none
  | some none => none
  | some (some at_) =>
    if at_ + 8 ≤ mem.length then some (readVarLen mem (at_ + 8)) else some none

/-- The statements of `playMidiFile` up to the scheduling loop, lines
1297-1358.  `mem` is the mapping, whose first `fileSize` bytes are the file;
`now` is the value of `myMicros()` and `w0` the value of the floating point
expression of lines 1356-1357.  The result is `done (none, _)` for `return -1`,
`done (some p, _)` with the player state on entry to the loop, and `fault`
when a search or a read leaves the mapping. -/
def playSetup (mem : List Nat) (fileSize now : Nat) (w0 : Int) (g : Globals) :
    Outcome (Option Player × Globals) :=
  let g1 := { g with qtrMicros := 500000, eoTrk := [0, 0], delta := [0, 0],
                     midiSws := [g.prevSws.getD 0 0, g.prevSws.getD 1 0, g.prevSws.getD 2 0] }
  match memmem mem 0 200 MThd with
  | none => Outcome.fault
  | some none => Outcome.done (none, g1)
  | some (some h) =>
    match mem[h + 9]?, mem[h + 11]?, mem[h + 12]?, mem[h + 13]? with
    | some _, some _, some hi, some lo =>
      let g2 := { g1 with ticksPerQtr := Int.ofNat ((hi <<< 8) ||| lo) }
      match findTrack mem fileSize 0 with
      | none => Outcome.done (none, { g2 with track := 0 })
      | some none => Outcome.fault
      | some (some (d0, p0)) =>
        let g3 := { g2 with delta := g2.delta.set 0 d0 }
        match findTrack mem fileSize p0 with
        | none => Outcome.done (none, { g3 with track := 1 })
        | some none => Outcome.fault
        | some (some (d1, p1)) =>
          let g4 := { g3 with delta := g3.delta.set 1 d1, track := 2,
                              octaveOffset := 36 + g3.octaveShift }
          let next := ofInt32 ((now % 2 ^ 32 : Nat) + w0)
          Outcome.done (some { g := g4, trk_p := [p0, p1], nextEventMicros := next,
                               lastEventMicros := now % 2 ^ 32,
                               diffMicros := toInt32 ((next + 2 ^ 32 - now % 2 ^ 32) % 2 ^ 32),
                               waits := [] }, g4)
    | _, _, _, _ => Outcome.fault

/-- `int playMidiFile(void)`: `done (some (-1), g)` for the early returns and
`done (none, g)` when the loop ends and control reaches the end of the
function (which returns no value), with the final globals and busy-waits. -/
def playMidiFile (mem : List Nat) (fileSize now : Nat) (w0 : Int) (fuel : Nat) (g : Globals) :
    Outcome (Option Int × Globals × List Int) :=
  match playSetup mem fileSize now w0 g with
  | Outcome.done (none, g1) => Outcome.done (some (-1), g1, [])
  | Outcome.done (some p, _) =>
    match playLoop mem fuel fuel p with
    | Outcome.done p1 =>
      -- prevSws[2] ^= 0xff;
      Outcome.done (none,
        { p1.g with prevSws := p1.g.prevSws.set 2 ((p1.g.prevSws.getD 2 0 ^^^ 0xff) % 256) },
        p1.waits)
    | Outcome.fault => Outcome.fault
    | Outcome.outOfFuel => Outcome.outOfFuel
  | Outcome.fault => Outcome.fault
  | Outcome.outOfFuel => Outcome.outOfFuel

/-! ## The two-track example file of the end-to-end property -/

/-- Header chunk: "MThd", length 6, format 1, two tracks, 96 ticks per
quarter note. -/
def exHeader : List Nat := MThd ++ [0, 0, 0, 6, 0, 1, 0, 2, 0, 96]

/-- Track A: a single end-of-track at tick 0. -/
def exTrackA : List Nat := MTrk ++ [0, 0, 0, 4] ++ [0x00, 0xFF, 0x2F, 0x00]

/-- The events of track B: note-on (note 60) at tick 0, set-tempo (1000000)
after `d1` ticks, note-off after `d2` more ticks, end-of-track. -/
def exEventsB (d1 d2 : Nat) : List Nat :=
  [0x00, 0x90, 60, 100] ++ encodeVarLen d1 ++ [0xFF, 0x51, 0x03, 0x0F, 0x42, 0x40] ++
    encodeVarLen d2 ++ [0x80, 60, 0] ++ [0x00, 0xFF, 0x2F, 0x00]

/-- Track B with its chunk header. -/
def exTrackB (d1 d2 : Nat) : List Nat :=
  MTrk ++ [0, 0, 0, (exEventsB d1 d2).length] ++ exEventsB d1 d2

/-- The whole file. -/
def exFile (d1 d2 : Nat) : List Nat := exHeader ++ exTrackA ++ exTrackB d1 d2

/-- The mapping of the file: the bytes of the file, then the zero bytes that
fill the last page. -/
def exMem (d1 d2 : Nat) : List Nat := exFile d1 d2 ++ List.replicate 64 0

/-- A player state in which track 0 has ended with a remaining delta of 0
while track 1 still waits for a positive number of ticks. -/
def Stalled (p : Player) : Prop :=
  p.g.eoTrk.getD 0 0 ≠ 0 ∧ p.g.eoTrk.getD 1 0 = 0 ∧ p.g.delta.getD 0 0 = 0 ∧
    0 < p.g.delta.getD 1 0 ∧ p.g.delta.getD 1 0 < 2 ^ 31 ∧ ofInt32 p.g.ticksPerQtr ≠ 0

instance (p : Player) : Decidable (Stalled p) := by
  unfold Stalled
  infer_instance

/-! ## Edge detection of the octave buttons -/

/-- The inverted reading `switches[i]` of bank `i` for the bytes `rd` returned
by the port expander. -/
def invBank (rd : Nat → Nat) (i : Nat) : Nat := 255 - rd i % 256

/-- The adjustment `if (octaveShift > -24) octaveShift -= 12` of a down press. -/
def downStep (s : Int) : Int := if s > -24 then s - 12 else s

/-- The adjustment `if (octaveShift < 12) octaveShift += 12` of an up press. -/
def upStep (s : Int) : Int := if s < 12 then s + 12 else s

/-- The press flags agree with the octave-button bits of the last reading
kept in `prevSws[2]`. -/
def SwInv (g : Globals) : Prop :=
  g.prevSws.length = 3 ∧
    (g.octDnPressed = 0 ↔ g.prevSws.getD 2 0 &&& 64 = 0) ∧
    (g.octUpPressed = 0 ↔ g.prevSws.getD 2 0 &&& 128 = 0)

instance (g : Globals) : Decidable (SwInv g) := by
  unfold SwInv
  infer_instance

/-- The register writes of one bank scan: each select line low, then high. -/
def swTrace : List (Nat × Nat) :=
  [pinLow SW_1, pinHigh SW_1, pinLow SW_2, pinHigh SW_2, pinLow SW_3, pinHigh SW_3]

/-- An octave press: `false` for the down button, `true` for the up button. -/
def press (up : Bool) (g : Globals) : Globals :=
  if up then octUpPress g else octDownPress g

/-- The state after a sequence of octave-button presses. -/
def runPresses : List Bool → Globals → Globals
  | [], g => g
  | b :: bs, g => runPresses bs (press b g)

/-! ## Keyboard read (lines 608-638) -/

/-- The keyboard read.  `pkt` is the content of `inPacket` after the `read`
(its first byte is 0 when nothing was read) and `s1` the value of the local
`switches[1]`.  A note number of 128 or more indexes `keyBits` past its 16
bytes; the embedding leaves the array as it is there. -/
def keyboardRead (pkt : List Nat) (s1 : Nat) (g : Globals) : Globals :=
  let p0 := pkt.getD 0 0
  let p1 := pkt.getD 1 0
  if p0 = 144 ∨ p0 = 128 then
    let cell := g.keyBits.getD (p1 / 8) 0
    let g1 :=
      if p0 = 144 then
        { g with keyBits := g.keyBits.set (p1 / 8) ((cell ||| (1 <<< (p1 % 8))) % 256) }
      else
        { g with keyBits := g.keyBits.set (p1 / 8) ((cell &&& (255 - (1 <<< (p1 % 8)))) % 256) }
    let lowest := lowestKey g1.keyBits
    if lowest = 255 ∧ s1 &&& 8 ≠ 0 then
      { g1 with out := g1.out ++ [Msg.key (g1.lastKey - 36) 0] }
    else if lowest ≠ 255 then
      { g1 with lastKey := Int.ofNat lowest,
                out := g1.out ++ [Msg.key (Int.ofNat lowest - 36) 1] }
    else g1
  else g

/-! ## The ADC transaction (lines 1109-1135) -/

/-- The request frame in `buf` before the transaction: `{0x01, 0x80, 0x00}`
with `buf[1] |= (channel << 4)`. -/
def mcp3008Request (channel : Nat) : List Nat :=
  [0x01, (0x80 ||| (channel <<< 4)) % 256, 0x00]

/-- `int16_t read_mcp3008(uint8_t channel)`: the frame transmitted and the
value returned.  `reply` is the content the transaction leaves in `buf`, or
`none` when the `ioctl` fails and `buf` keeps the request. -/
def mcp3008Transfer (channel : Nat) (reply : Option (List Nat)) : List Nat × Int :=
  let tx := mcp3008Request channel
  match reply with
  | some r => (tx, read_mcp3008 r)
  | none => (tx, read_mcp3008 tx)

/-! ## Markers in the mapped file -/

/-- The bytes of `needle` stand at offset `i` of `mem`. -/
def occursAt (mem needle : List Nat) (i : Nat) : Prop :=
  (mem.drop i).take needle.length = needle

instance (mem needle : List Nat) (i : Nat) : Decidable (occursAt mem needle i) := by
  unfold occursAt
  infer_instance

/-! ## The port expander (lines 1775-1825) -/

def WRITE_CMD : Nat := 0
def READ_CMD : Nat := 1

/-- The register address `GPIO` (0x09) of the port. -/
def GPIO : Nat := 0x09

/-- `static uint8_t get_spi_control_byte(uint8_t rw_cmd, uint8_t hw_addr)`. -/
def get_spi_control_byte (rw_cmd hw_addr : Nat) : Nat :=
  let hw := (((hw_addr % 256) <<< 1) &&& 0xE) % 256
  let rw := (rw_cmd % 256) &&& 1
  (0x40 ||| hw ||| rw) % 256

/-- `uint8_t mcp23s08_read_reg(uint8_t reg, uint8_t hw_addr, int fd)`: the
frame in `tx_buf` and the value returned.  `reply` is the content of `rx_buf`
after the transaction, or `none` when the `ioctl` fails and the function
executes `return -1`, which is 0xFF in `uint8_t`. -/
def mcp23s08_read_reg (reg hw_addr : Nat) (reply : Option (List Nat)) : List Nat × Nat :=
  let tx := [get_spi_control_byte READ_CMD hw_addr, reg % 256, 0]
  match reply with
  | some rx => (tx, rx.getD 2 0 % 256)
  | none => (tx, 255)

/-- `void mcp23s08_write_reg(uint8_t data, uint8_t reg, uint8_t hw_addr, int fd)`:
the frame in `tx_buf`. -/
def mcp23s08_write_reg (data reg hw_addr : Nat) : List Nat :=
  [get_spi_control_byte WRITE_CMD hw_addr, reg % 256, data % 256]

/-- The bytes that the bank scan gets from `mcp23s08_read_reg(GPIO, 0, fd)`
for the three transactions `replies`. -/
def bankReads (replies : Nat → Option (List Nat)) (i : Nat) : Nat :=
  (mcp23s08_read_reg GPIO 0 (replies i)).2

/-! ## The busy-wait of the player (line 1376) -/

/-- The test `(myMicros() - lastEventMicros) < diffMicros` for the clock value
`t`: the left side is `unsigned int`, so `diffMicros` is converted and both
sides are compared as 32-bit unsigned numbers. -/
def busyWaitContinues (t : Nat) (p : Player) : Bool :=
  decide ((t % 2 ^ 32 + 2 ^ 32 - p.lastEventMicros % 2 ^ 32) % 2 ^ 32 < ofInt32 p.diffMicros)

/-- A two-track file whose first events both come after a rest of 48 ticks:
track A is `30 FF 2F 00`, track B is `30 90 3C 64 00 FF 2F 00`. -/
def restFile : List Nat :=
  exHeader ++ (MTrk ++ [0, 0, 0, 4] ++ [0x30, 0xFF, 0x2F, 0x00]) ++
    (MTrk ++ [0, 0, 0, 8] ++ [0x30, 0x90, 60, 100, 0x00, 0xFF, 0x2F, 0x00])

/-- The mapping of `restFile`. -/
def restMem : List Nat := restFile ++ List.replicate 64 0

/-! ## Invariants of the player -/

/-- `ruban` equals bit 2 of `midiSws[1]`. -/
def RubanMirror (g : Globals) : Prop :=
  g.ruban = ((g.midiSws.getD 1 0).testBit 2).toNat

/-- `claquement` equals bit 3 of `midiSws[1]`. -/
def ClaquementMirror (g : Globals) : Prop :=
  g.claquement = ((g.midiSws.getD 1 0).testBit 3).toNat

instance (g : Globals) : Decidable (RubanMirror g) := by
  unfold RubanMirror
  infer_instance

instance (g : Globals) : Decidable (ClaquementMirror g) := by
  unfold ClaquementMirror
  infer_instance

/-- Both remaining deltas are non-negative `int` values. -/
def DeltaInv (p : Player) : Prop :=
  p.g.delta.length = 2 ∧
    0 ≤ p.g.delta.getD 0 0 ∧ p.g.delta.getD 0 0 < 2 ^ 31 ∧
    0 ≤ p.g.delta.getD 1 0 ∧ p.g.delta.getD 1 0 < 2 ^ 31

instance (p : Player) : Decidable (DeltaInv p) := by
  unfold DeltaInv
  infer_instance

/-! ## The delta times that a playback reads -/

/-- The drain loop `drainTrack` together with the delta times that its calls
of `readVarLen` return, in the order of the calls. -/
def drainTrackReads (mem : List Nat) : Nat → Player → Outcome Player × List Int
  | 0, _ => (Outcome.outOfFuel, [])
  | fuel + 1, p =>
    let t := p.g.track
    if p.g.delta.getD t 0 ≤ 0 ∧ p.g.eoTrk.getD t 0 = 0 then
      match parseEvent mem (p.trk_p.getD t 0) p.g with
      | none => (Outcome.fault, [])
      | some (pos1, g1) =>
        match readVarLen mem pos1 with
        | none => (Outcome.fault, [])
        | some (d, pos2) =>
          let r := drainTrackReads mem fuel
            { p with g := { g1 with delta := g1.delta.set t d }, trk_p := p.trk_p.set t pos2 }
          (r.1, d :: r.2)
    else (Outcome.done p, [])

/-- The loop `drainBoth` over the two tracks together with the delta times
read. -/
def drainBothReads (mem : List Nat) (fuel : Nat) (p : Player) : Outcome Player × List Int :=
  match drainTrackReads mem fuel { p with g := { p.g with track := 0 } } with
  | (Outcome.done p1, r1) =>
    match drainTrackReads mem fuel { p1 with g := { p1.g with track := 1 } } with
    | (Outcome.done p2, r2) => (Outcome.done { p2 with g := { p2.g with track := 2 } }, r1 ++ r2)
    | (Outcome.fault, r2) => (Outcome.fault, r1 ++ r2)
    | (Outcome.outOfFuel, r2) => (Outcome.outOfFuel, r1 ++ r2)
  | (Outcome.fault, r1) => (Outcome.fault, r1)
  | (Outcome.outOfFuel, r1) => (Outcome.outOfFuel, r1)

/-- The scheduling loop `playLoop` together with the delta times read and the
states at the iteration boundaries: the state at the head of every pass,
before the drain step, which from the second pass on is the state after the
ticks have been subtracted from both deltas. -/
def playLoopTrace (mem : List Nat) (inner : Nat) :
    Nat → Player → Outcome Player × List Int × List Player
  | 0, p => (Outcome.outOfFuel, [], [p])
  | fuel + 1, p =>
    if p.g.eoTrk.getD 0 0 = 0 ∨ p.g.eoTrk.getD 1 0 = 0 then
      match drainBothReads mem inner p with
      | (Outcome.done p1, r) =>
        if p1.g.eoTrk.getD 0 0 ≠ 0 ∧ p1.g.eoTrk.getD 1 0 ≠ 0 then (Outcome.done p1, r, [p])
        else if ofInt32 p1.g.ticksPerQtr = 0 then (Outcome.fault, r, [p])
        else
          let t := playLoopTrace mem inner fuel (scheduleNext p1)
          (t.1, r ++ t.2.1, p :: t.2.2)
      | (Outcome.fault, r) => (Outcome.fault, r, [p])
      | (Outcome.outOfFuel, r) => (Outcome.outOfFuel, r, [p])
    else (Outcome.done p, [], [p])

/-- A two-track file whose second track starts with the text meta event
`FF 01 05 E9 E9 E9 E9 41`: track A is `00 FF 2F 00`, track B is the text
event at tick 0, a note-on at tick 0, the note-off 10 ticks later and the end
of track. -/
def textFile : List Nat :=
  exHeader ++ exTrackA ++
    (MTrk ++ [0, 0, 0, 21] ++
      [0x00, 0xFF, 0x01, 0x05, 0xE9, 0xE9, 0xE9, 0xE9, 0x41,
       0x00, 0x90, 60, 100, 0x0A, 0x80, 60, 0, 0x00, 0xFF, 0x2F, 0x00])

/-- The mapping of `textFile`. -/
def textMem : List Nat := textFile ++ List.replicate 64 0

/-! ## The declaration of `analogueVal` (line 178) -/

/-- The length in the declaration `int16_t analogueVal[7]`. -/
def analogueValDeclLen : Nat := 7

/-- The index `*(*ptr + 1) - 14` that a control change with controller
0x10..0x13 writes, 6 for controller 0x0B and 7 for controller 0x53. -/
def controllerIndex (ctl : Nat) : Option Nat :=
  if ctl = 0x0B then some 6
  else if ctl = 0x10 ∨ ctl = 0x11 ∨ ctl = 0x12 ∨ ctl = 0x13 then some (ctl - 14)
  else if ctl = 0x53 then some 7
  else none

/-! # Theorems -/

/-! ## Bit-level facts about bytes -/

theorem byte_high_set (x : Nat) (hx : x < 128) : (0x80 + x) &&& 0x80 ≠ 0 := by
  have h : ∀ y : Fin 128, (0x80 + y.val) &&& 0x80 ≠ 0 := by decide
  exact h ⟨x, hx⟩

theorem byte_high_clear (x : Nat) (hx : x < 128) : x &&& 0x80 = 0 := by
  have h : ∀ y : Fin 128, y.val &&& 0x80 = 0 := by decide
  exact h ⟨x, hx⟩

theorem byte_low7 (x : Nat) (hx : x < 128) : (0x80 + x) &&& 0x7f = x := by
  have h : ∀ y : Fin 128, (0x80 + y.val) &&& 0x7f = y.val := by decide
  exact h ⟨x, hx⟩

theorem mul128_or (a x : Nat) (hx : x < 128) : (a * 128) ||| x = a * 128 + x := by
  have h := Nat.mul_add_lt_is_or (show x < 2 ^ 7 by norm_num; exact hx) a
  rw [Nat.mul_comm (2 ^ 7) a] at h
  exact h.symm

theorem acc_step (a x : Nat) (hx : x < 128) (ha : a < 2 ^ 14) :
    (((a * 128) ||| x) <<< 7) % 2 ^ 32 = (a * 128 + x) * 128 := by
  rw [mul128_or a x hx, Nat.shiftLeft_eq]
  exact Nat.mod_eq_of_lt (by omega)

theorem toInt32_of_lt (n : Nat) (h : n < 2 ^ 31) : toInt32 n = (n : Int) := by
  have h1 : n % 2 ^ 32 = n := Nat.mod_eq_of_lt (by omega)
  simp only [toInt32, h1]
  rw [if_pos h]

theorem readVarLenLoop_cont (data k x : Nat) (hx : x < 128) (rest : List Nat) :
    readVarLenLoop data k ((0x80 + x) :: rest)
      = readVarLenLoop (((data ||| x) <<< 7) % 2 ^ 32) (k + 1) rest := by
  rw [readVarLenLoop, if_pos (byte_high_set x hx), byte_low7 x hx]

theorem readVarLenLoop_last (data k x : Nat) (hx : x < 128) (rest : List Nat) :
    readVarLenLoop data k (x :: rest) = some (data ||| x, k + 1) := by
  rw [readVarLenLoop, if_neg (by rw [byte_high_clear x hx]; simp)]

/-- The decoder loop run on the encoding of `n` yields the pattern `n` after
stepping over exactly the bytes of the encoding. -/
theorem readVarLenLoop_encodeVarLen (n : Nat) (hn : n < 2 ^ 28) (rest : List Nat) :
    readVarLenLoop 0 0 (encodeVarLen n ++ rest) = some (n, (encodeVarLen n).length) := by
  unfold encodeVarLen
  split_ifs with h1 h2 h3
  · rw [List.singleton_append, readVarLenLoop_last 0 0 n (by omega)]; simp
  · simp only [List.cons_append, List.nil_append]
    rw [readVarLenLoop_cont 0 _ _ (by omega)]
    have e := acc_step 0 (n / 2 ^ 7) (by omega) (by norm_num)
    rw [Nat.zero_mul] at e
    rw [e, readVarLenLoop_last _ _ _ (by omega), mul128_or _ _ (by omega)]
    simp only [List.length_cons, List.length_nil, Option.some.injEq, Prod.mk.injEq, and_true]
    omega
  · simp only [List.cons_append, List.nil_append]
    rw [readVarLenLoop_cont 0 _ _ (by omega)]
    have e := acc_step 0 (n / 2 ^ 14) (by omega) (by norm_num)
    rw [Nat.zero_mul] at e
    rw [e, readVarLenLoop_cont _ _ _ (by omega), acc_step _ _ (by omega) (by omega),
      readVarLenLoop_last _ _ _ (by omega), mul128_or _ _ (by omega)]
    simp only [List.length_cons, List.length_nil, Option.some.injEq, Prod.mk.injEq, and_true]
    omega
  · simp only [List.cons_append, List.nil_append]
    rw [readVarLenLoop_cont 0 _ _ (by omega)]
    have e := acc_step 0 (n / 2 ^ 21 % 2 ^ 7) (by omega) (by norm_num)
    rw [Nat.zero_mul] at e
    rw [e, readVarLenLoop_cont _ _ _ (by omega), acc_step _ _ (by omega) (by omega),
      readVarLenLoop_cont _ _ _ (by omega), acc_step _ _ (by omega) (by omega),
      readVarLenLoop_last _ _ _ (by omega), mul128_or _ _ (by omega)]
    simp only [List.length_cons, List.length_nil, Option.some.injEq, Prod.mk.injEq, and_true]
    omega

/-- Reading a delta time at the encoding of `n` inside any mapping. -/
theorem readVarLen_at_encoding (n : Nat) (hn : n < 2 ^ 28) (pre rest : List Nat) :
    readVarLen (pre ++ encodeVarLen n ++ rest) pre.length
      = some ((n : Int), pre.length + (encodeVarLen n).length) := by
  rw [readVarLen, List.append_assoc, List.drop_left, readVarLenLoop_encodeVarLen n hn rest]
  simp only
  rw [toInt32_of_lt n (by omega)]

/-- C1: for every `n` in `0 .. 2^28 - 1`, `readVarLen` with the pointer at the
standard variable-length encoding of `n` (anywhere in the mapping) returns
exactly `n` and advances the pointer by exactly the number of bytes of the
encoding; the encoding has one to four bytes, all below 256, carries `n` as
big-endian groups of 7 bits, and its only byte with a clear high bit is the
last one, which is where the decoder stops. -/
theorem readVarLen_encodeVarLen (n : Nat) (hn : n < 2 ^ 28) (pre rest : List Nat) :
    readVarLen (pre ++ encodeVarLen n ++ rest) pre.length
        = some ((n : Int), pre.length + (encodeVarLen n).length) ∧
      1 ≤ (encodeVarLen n).length ∧ (encodeVarLen n).length ≤ 4 ∧
      (∀ b ∈ encodeVarLen n, b < 256) ∧
      (encodeVarLen n).foldl (fun acc b => acc * 128 + b % 128) 0 = n ∧
      (∀ i, i < (encodeVarLen n).length →
        ((encodeVarLen n).getD i 0 &&& 0x80 = 0 ↔ i + 1 = (encodeVarLen n).length)) := by
  refine ⟨readVarLen_at_encoding n hn pre rest, ?_, ?_, ?_, ?_, ?_⟩
  · unfold encodeVarLen; split_ifs <;> simp
  · unfold encodeVarLen; split_ifs <;> simp
  · unfold encodeVarLen
    split_ifs <;> simp only [List.mem_cons, List.mem_singleton, List.not_mem_nil, or_false] <;>
      intro b hb <;> omega
  · unfold encodeVarLen
    split_ifs <;> simp only [List.foldl_cons, List.foldl_nil] <;> omega
  · have hc : ∀ x, x < 128 → ¬ ((0x80 + x) &&& 0x80 = 0) := fun x hx => byte_high_set x hx
    have hl : ∀ x, x < 128 → x &&& 0x80 = 0 := byte_high_clear
    unfold encodeVarLen
    split_ifs <;> intro i hi <;> simp only [List.length_cons, List.length_nil] at hi ⊢ <;>
      interval_cases i <;>
      simp only [List.getD_cons_zero, List.getD_cons_succ, zero_add, Nat.reduceAdd,
        Nat.reduceEqDiff, OfNat.ofNat_ne_one, OfNat.one_ne_ofNat, iff_false, iff_true,
        Nat.succ_ne_self, reduceCtorEq] <;>
      first
        | exact hl _ (by omega)
        | exact hc _ (by omega)

/-- C1 witness: 200000 is encoded as `8C 9A 40` and read back after a prefix. -/
theorem readVarLen_encodeVarLen_witness :
    (200000 : Nat) < 2 ^ 28 ∧
      readVarLen ([0x90, 0x3C, 0x40] ++ encodeVarLen 200000 ++ [0x80, 0x3C, 0x00])
          ([0x90, 0x3C, 0x40] : List Nat).length
        = some ((200000 : Int), ([0x90, 0x3C, 0x40] : List Nat).length + (encodeVarLen 200000).length) :=
  ⟨by norm_num, (readVarLen_encodeVarLen 200000 (by norm_num) [0x90, 0x3C, 0x40] [0x80, 0x3C, 0x00]).1⟩

/-! ## C2: the lowest-note scan -/

theorem and_two_pow_ne_zero (kb j : Nat) : kb &&& 2 ^ j ≠ 0 ↔ kb.testBit j = true := by
  constructor
  · intro h
    by_contra hb
    apply h
    apply Nat.eq_of_testBit_eq
    intro i
    simp only [Nat.testBit_and, Nat.testBit_two_pow, Nat.zero_testBit, Bool.and_eq_false_imp,
      decide_eq_false_iff_not]
    intro hi hji
    subst hji
    exact hb hi
  · intro hb h0
    have h1 : (kb &&& 2 ^ j).testBit j = true := by
      simp [Nat.testBit_and, Nat.testBit_two_pow_self, hb]
    rw [h0] at h1
    simp at h1

theorem scanByte_of_ne (kb i n km l : Nat) (h : l ≠ 255) : scanByte kb i n km l = l := by
  cases n <;> simp [scanByte, h]

theorem scanKeys_of_ne (keyBits : List Nat) (m l : Nat) (h : l ≠ 255) :
    scanKeys keyBits m l = l := by
  cases m <;> simp [scanKeys, h]

/-- The inner loop started at bit `8 - n` with `lowest = 255` stops at the
first set bit of the byte from there on, or leaves 255 if there is none. -/
theorem scanByte_spec (kb i : Nat) (hi : i < 16) : ∀ n, n ≤ 8 →
    (scanByte kb i n (2 ^ (8 - n) % 256) 255 = 255 ∧
        ∀ j, 8 - n ≤ j → j < 8 → kb.testBit j = false) ∨
      (∃ j, 8 - n ≤ j ∧ j < 8 ∧ scanByte kb i n (2 ^ (8 - n) % 256) 255 = i * 8 + j ∧
        kb.testBit j = true ∧ ∀ j', 8 - n ≤ j' → j' < j → kb.testBit j' = false) := by
  intro n
  induction n with
  | zero =>
    intro _
    left
    refine ⟨by simp [scanByte], ?_⟩
    intro j h1 h2
    omega
  | succ n ih =>
    intro hn
    have ih1 := ih (by omega)
    have hmask : 2 ^ (8 - (n + 1)) % 256 = 2 ^ (7 - n) := by
      have : 8 - (n + 1) = 7 - n := by omega
      rw [this]
      apply Nat.mod_eq_of_lt
      calc 2 ^ (7 - n) ≤ 2 ^ 7 := Nat.pow_le_pow_right (by norm_num) (by omega)
        _ < 256 := by norm_num
    have hnext : (2 ^ (7 - n) <<< 1) % 256 = 2 ^ (8 - n) % 256 := by
      rw [Nat.shiftLeft_eq, ← Nat.pow_succ]
      congr 2
      omega
    rw [hmask, scanByte, if_pos rfl, hnext]
    by_cases hb : kb.testBit (7 - n) = true
    · rw [if_pos ((and_two_pow_ne_zero kb (7 - n)).mpr hb)]
      have hlt : (i * 8 + (7 - n)) % 256 = i * 8 + (7 - n) := Nat.mod_eq_of_lt (by omega)
      rw [hlt, scanByte_of_ne _ _ _ _ _ (by omega)]
      right
      refine ⟨7 - n, by omega, by omega, rfl, hb, ?_⟩
      intro j' h1 h2
      omega
    · rw [if_neg (fun h => hb ((and_two_pow_ne_zero kb (7 - n)).mp h))]
      have hb' : kb.testBit (7 - n) = false := by simpa using hb
      rcases ih1 with ⟨h255, hclear⟩ | ⟨j, hj1, hj2, hr, hset, hclear⟩
      · left
        refine ⟨h255, ?_⟩
        intro j h1 h2
        by_cases hj : j = 7 - n
        · rw [hj]; exact hb'
        · exact hclear j (by omega) h2
      · right
        refine ⟨j, by omega, hj2, hr, hset, ?_⟩
        intro j' h1 h2
        by_cases hj : j' = 7 - n
        · rw [hj]; exact hb'
        · exact hclear j' (by omega) h2

theorem keyHeld_byte (keyBits : List Nat) (i j : Nat) (hj : j < 8) :
    keyHeld keyBits (i * 8 + j) = (keyBits.getD i 0).testBit j := by
  have h1 : (i * 8 + j) / 8 = i := by omega
  have h2 : (i * 8 + j) % 8 = j := by omega
  rw [keyHeld, h1, h2]

/-- The outer loop started at byte `16 - m` with `lowest = 255` stops at the
first held key from note `(16 - m) * 8` on, or leaves 255 if there is none. -/
theorem scanKeys_spec (keyBits : List Nat) : ∀ m, m ≤ 16 →
    (scanKeys keyBits m 255 = 255 ∧
        ∀ k, (16 - m) * 8 ≤ k → k < 128 → keyHeld keyBits k = false) ∨
      (scanKeys keyBits m 255 < 128 ∧ (16 - m) * 8 ≤ scanKeys keyBits m 255 ∧
        keyHeld keyBits (scanKeys keyBits m 255) = true ∧
        ∀ k, (16 - m) * 8 ≤ k → k < scanKeys keyBits m 255 → keyHeld keyBits k = false) := by
  intro m
  induction m with
  | zero =>
    intro _
    left
    refine ⟨by simp [scanKeys], ?_⟩
    intro k h1 h2
    omega
  | succ m ih =>
    intro hm
    have ih1 := ih (by omega)
    rw [scanKeys, if_pos rfl]
    have hb := scanByte_spec (keyBits.getD (15 - m) 0) (15 - m) (by omega) 8 (le_refl 8)
    have h80 : 2 ^ (8 - 8) % 256 = 1 := by norm_num
    rw [h80] at hb
    rcases hb with ⟨h255, hclear⟩ | ⟨j, _, hj2, hr, hset, hclear⟩
    · rw [h255]
      have hbyte : ∀ k, (16 - (m + 1)) * 8 ≤ k → k < (16 - m) * 8 → keyHeld keyBits k = false := by
        intro k h1 h2
        have hk : k = (15 - m) * 8 + k % 8 := by omega
        rw [hk, keyHeld_byte _ _ _ (by omega)]
        exact hclear (k % 8) (by omega) (by omega)
      rcases ih1 with ⟨h1, h2⟩ | ⟨h1, h2, h3, h4⟩
      · left
        refine ⟨h1, ?_⟩
        intro k hk1 hk2
        by_cases hlt : k < (16 - m) * 8
        · exact hbyte k hk1 hlt
        · exact h2 k (by omega) hk2
      · right
        refine ⟨h1, by omega, h3, ?_⟩
        intro k hk1 hk2
        by_cases hlt : k < (16 - m) * 8
        · exact hbyte k hk1 hlt
        · exact h4 k (by omega) hk2
    · rw [hr, scanKeys_of_ne _ _ _ (by omega)]
      right
      refine ⟨by omega, by omega, ?_, ?_⟩
      · rw [keyHeld_byte _ _ _ hj2]; exact hset
      · intro k hk1 hk2
        have hk : k = (15 - m) * 8 + k % 8 := by omega
        rw [hk, keyHeld_byte _ _ _ (by omega)]
        exact hclear (k % 8) (by omega) (by omega)

/-- C2: for every key state, the ascending scan yields the sentinel 255
exactly when none of the 128 key bits is set, and otherwise yields the smallest
note number in 0..127 whose bit (bit `n mod 8` of `keyBits[n div 8]`) is set. -/
theorem lowestKey_spec (keyBits : List Nat) :
    (lowestKey keyBits = 255 ↔ ∀ n, n < 128 → keyHeld keyBits n = false) ∧
      (lowestKey keyBits ≠ 255 →
        lowestKey keyBits < 128 ∧ keyHeld keyBits (lowestKey keyBits) = true ∧
          ∀ m, m < lowestKey keyBits → keyHeld keyBits m = false) := by
  have h := scanKeys_spec keyBits 16 (le_refl 16)
  simp only [Nat.sub_self, Nat.zero_mul, Nat.zero_le, true_implies] at h
  unfold lowestKey
  rcases h with ⟨h1, h2⟩ | ⟨h1, _, h3, h4⟩
  · refine ⟨⟨fun _ => h2, fun _ => h1⟩, fun hne => absurd h1 hne⟩
  · refine ⟨⟨fun h => by omega, fun hall => ?_⟩, fun _ => ⟨h1, h3, h4⟩⟩
    rw [hall _ h1] at h3
    exact absurd h3 (by simp)

/-! ## C3: the end-to-end example -/

theorem toInt32_ofInt32 (z : Int) (h1 : -2 ^ 31 ≤ z) (h2 : z < 2 ^ 31) :
    toInt32 (ofInt32 z) = z := by
  unfold toInt32 ofInt32
  have hnn : 0 ≤ z % 2 ^ 32 := Int.emod_nonneg _ (by norm_num)
  have hlt : z % 2 ^ 32 < 2 ^ 32 := Int.emod_lt_of_pos _ (by norm_num)
  have hmod : (z % 2 ^ 32).toNat % 2 ^ 32 = (z % 2 ^ 32).toNat := Nat.mod_eq_of_lt (by omega)
  rw [hmod]
  split_ifs with h <;> omega

/-- More fuel does not change a drain loop that has run to completion. -/
theorem drainTrack_mono (mem : List Nat) : ∀ (fuel : Nat) (p r : Player),
    drainTrack mem fuel p = Outcome.done r → ∀ k, drainTrack mem (fuel + k) p = Outcome.done r := by
  intro fuel
  induction fuel with
  | zero => intro p r h; simp [drainTrack] at h
  | succ f ih =>
    intro p r h k
    have hk : f + 1 + k = (f + k) + 1 := by omega
    rw [hk]
    rw [drainTrack] at h ⊢
    split_ifs at h ⊢ with hc
    · cases hpe : parseEvent mem (p.trk_p.getD p.g.track 0) p.g with
      | none => rw [hpe] at h; simp at h
      | some res =>
        obtain ⟨pos1, g1⟩ := res
        rw [hpe] at h
        simp only at h ⊢
        cases hrv : readVarLen mem pos1 with
        | none => rw [hrv] at h; simp at h
        | some res2 =>
          obtain ⟨d, pos2⟩ := res2
          rw [hrv] at h
          simp only at h ⊢
          exact ih _ _ h k
    · exact h

theorem drainBoth_mono (mem : List Nat) (fuel : Nat) (p r : Player)
    (h : drainBoth mem fuel p = Outcome.done r) (k : Nat) :
    drainBoth mem (fuel + k) p = Outcome.done r := by
  unfold drainBoth at h ⊢
  cases h1 : drainTrack mem fuel { p with g := { p.g with track := 0 } } with
  | done p1 =>
    rw [h1] at h
    simp only at h
    rw [drainTrack_mono mem fuel _ _ h1 k]
    simp only
    cases h2 : drainTrack mem fuel { p1 with g := { p1.g with track := 1 } } with
    | done p2 =>
      rw [h2] at h
      rw [drainTrack_mono mem fuel _ _ h2 k]
      exact h
    | fault => rw [h2] at h; simp at h
    | outOfFuel => rw [h2] at h; simp at h
  | fault => rw [h1] at h; simp at h
  | outOfFuel => rw [h1] at h; simp at h

/-- From a stalled state the scheduling loop never ends: every pass drains
nothing, waits for `min(0, delta[1]) = 0` ticks and leaves both deltas as they
are. -/
theorem playLoop_stalled (mem : List Nat) (inner : Nat) : ∀ (outer : Nat) (p : Player),
    Stalled p → playLoop mem inner outer p = Outcome.outOfFuel := by
  intro outer
  induction outer with
  | zero => intro p _; rfl
  | succ n ih =>
    intro p hp
    obtain ⟨h0, h1, hd0, hd1, hd1', ht⟩ := hp
    rw [playLoop, if_pos (Or.inr h1)]
    cases inner with
    | zero => simp [drainBoth, drainTrack]
    | succ k =>
      have e1 : drainTrack mem (k + 1) { p with g := { p.g with track := 0 } }
          = Outcome.done { p with g := { p.g with track := 0 } } := by
        rw [drainTrack, if_neg]
        simp only
        intro hc
        exact h0 hc.2
      have e2 : drainTrack mem (k + 1) { p with g := { p.g with track := 1 } }
          = Outcome.done { p with g := { p.g with track := 1 } } := by
        rw [drainTrack, if_neg]
        simp only
        intro hc
        have := hc.1
        omega
      have e3 : drainBoth mem (k + 1) p = Outcome.done { p with g := { p.g with track := 2 } } := by
        rw [drainBoth, e1]
        simp only
        rw [e2]
      rw [e3]
      simp only
      rw [if_neg (fun hc => hc.2 h1), if_neg ht]
      apply ih
      have hmin : (if (0 : Int) < p.g.delta.getD 1 0 then (0 : Int) else p.g.delta.getD 1 0) = 0 :=
        if_pos hd1
      refine ⟨h0, h1, ?_, ?_, ?_, ht⟩
      · simp only [scheduleNext, hd0, hmin, List.getD_cons_zero]
        exact toInt32_ofInt32 _ (by norm_num) (by norm_num)
      · simp only [scheduleNext, hd0, hmin, List.getD_cons_succ, List.getD_cons_zero, sub_zero]
        rw [toInt32_ofInt32 _ (by omega) hd1']
        exact hd1
      · simp only [scheduleNext, hd0, hmin, List.getD_cons_succ, List.getD_cons_zero, sub_zero]
        rw [toInt32_ofInt32 _ (by omega) hd1']
        exact hd1'


set_option maxRecDepth 100000 in
/-- The first pass of the loop on the example file with `d1 = 100`, `d2 = 0`:
track A ends and is left with the delta 77 read from the `M` of the next
"MTrk", track B sends its note-on and waits for 100 ticks; after the wait of
77 ticks the player is stalled. -/
theorem example_first_pass :
    ∃ P0 G0, playSetup (exMem 100 0) (exFile 100 0).length 0 0 initGlobals
        = Outcome.done (some P0, G0) ∧
      drainBoth (exMem 100 0) 1 P0 = Outcome.outOfFuel ∧
      (P0.g.eoTrk.getD 0 0 = 0 ∨ P0.g.eoTrk.getD 1 0 = 0) ∧
      ∃ P1, drainBoth (exMem 100 0) 2 P0 = Outcome.done P1 ∧
        P1.g.delta = [77, 100] ∧
        ¬ (P1.g.eoTrk.getD 0 0 ≠ 0 ∧ P1.g.eoTrk.getD 1 0 ≠ 0) ∧
        ofInt32 P1.g.ticksPerQtr ≠ 0 ∧
        Stalled (scheduleNext P1) ∧ (scheduleNext P1).g.out = [Msg.key 24 1] := by
  refine ⟨_, _, rfl, by decide, by decide, _, rfl, by decide, by decide, by decide, by decide,
    by decide⟩

set_option maxRecDepth 100000 in
/-- With `d1 = 10` and `d2 = 20` the same file plays to the end: track B is
done within the 77 ticks left on track A. -/
theorem example_short_plays :
    ∃ g waits, playMidiFile (exMem 10 20) (exFile 10 20).length 0 0 8 initGlobals
        = Outcome.done (none, g, waits) ∧
      g.out = [Msg.key 24 1, Msg.key 24 0] ∧ g.eoTrk = [1, 1] ∧
      waits = [52083, 208333] := by
  refine ⟨_, _, rfl, by decide, by decide, by decide⟩

/-- C3 (the code at the failing input): on the well-formed two-track example
file with 100 ticks before the tempo event, played from the initial state
(claquement active), `playMidiFile` sends the note-on and then never ends,
whatever the iteration budget: no note-off is sent and the end-of-track flag
of track B is never set. -/
theorem playMidiFile_example_stalls :
    (∀ fuel, playMidiFile (exMem 100 0) (exFile 100 0).length 0 0 fuel initGlobals
        = Outcome.outOfFuel) ∧
      initGlobals.claquement = 1 ∧
      ∃ P0 G0 P1, playSetup (exMem 100 0) (exFile 100 0).length 0 0 initGlobals
          = Outcome.done (some P0, G0) ∧
        drainBoth (exMem 100 0) 2 P0 = Outcome.done P1 ∧
        Stalled (scheduleNext P1) ∧ (scheduleNext P1).g.out = [Msg.key 24 1] := by
  obtain ⟨P0, G0, hsetup, hone, hcond, P1, htwo, _, hnot, ht, hst, hout⟩ := example_first_pass
  refine ⟨?_, rfl, P0, G0, P1, hsetup, htwo, hst, hout⟩
  intro fuel
  rw [playMidiFile, hsetup]
  simp only
  cases fuel with
  | zero => rfl
  | succ n =>
    rw [playLoop, if_pos hcond]
    cases n with
    | zero => rw [hone]
    | succ m =>
      have hk : m + 1 + 1 = 2 + m := by omega
      rw [hk, drainBoth_mono _ 2 P0 P1 htwo m]
      simp only
      rw [if_neg hnot, if_neg ht, playLoop_stalled _ _ _ _ hst]

/-! ## C4: the tick to microsecond conversion -/

/-- While the product of ticks and tempo fits in 32 bits, the increment of
the schedule is the exact quotient. -/
theorem waitMicros_exact (d q t : Nat) (hq : d * q < 2 ^ 32) (hd : d < 2 ^ 31)
    (ht : t < 2 ^ 31) (hq32 : q < 2 ^ 32) :
    waitMicros (d : Int) q (t : Int) = d * q / t := by
  have ofNat : ∀ x : Nat, x < 2 ^ 31 → ofInt32 (x : Int) = x := by
    intro x hx
    unfold ofInt32
    have : ((x : Int) % 2 ^ 32) = (x : Int) := Int.emod_eq_of_lt (by omega) (by omega)
    rw [this]
    simp
  unfold waitMicros
  rw [ofNat d hd, ofNat t ht, Nat.mod_eq_of_lt hq32, Nat.mod_eq_of_lt hq]

/-- C4 (the code at the failing input): for 9000 ticks at the default tempo
500000 and 480 ticks per quarter note the product overflows 32 bits, and the
loop adds 427151 microseconds to its schedule where the exact quotient is
9375000; for the 48 ticks of the specification's example it adds 250000. -/
theorem waitMicros_overflow :
    waitMicros 9000 500000 480 = 427151 ∧ (9000 * 500000 / 480 : Nat) = 9375000 ∧
      waitMicros 48 500000 96 = 250000 ∧
      (scheduleNext { g := { initGlobals with delta := [9000, 9000], ticksPerQtr := 480 },
                      trk_p := [0, 0], nextEventMicros := 0, lastEventMicros := 0,
                      diffMicros := 0, waits := [] }).waits = [427151] := by
  decide

/-! ## C5: the noise filter of the analogue cycle -/

theorem getD_set_nat (l : List Nat) (i j v : Nat) (h : i < l.length) :
    (l.set i v).getD j 0 = if i = j then v else l.getD j 0 := by
  simp only [List.getD_eq_getElem?_getD, List.getElem?_set, h, if_true]
  split_ifs <;> simp

theorem getD_set_int (l : List Int) (i j : Nat) (v : Int) (h : i < l.length) :
    (l.set i v).getD j 0 = if i = j then v else l.getD j 0 := by
  simp only [List.getD_eq_getElem?_getD, List.getElem?_set, h, if_true]
  split_ifs <;> simp

/-- The filter loop over channels `8 - n .. 7`: only `analogueLast` changes;
a channel in that range whose value differs from the last one sent by more
than 1 takes the value, every other cell is kept; `changed` becomes nonzero
exactly when it was or such a channel exists. -/
theorem hystLoop_spec : ∀ (n : Nat), n ≤ 8 → ∀ (g : Globals) (c : Nat),
    g.analogueLast.length = 8 →
    (hystLoop n (g, c)).1 = { g with analogueLast := (hystLoop n (g, c)).1.analogueLast } ∧
    (hystLoop n (g, c)).1.analogueLast.length = 8 ∧
    (∀ i, (hystLoop n (g, c)).1.analogueLast.getD i 0 =
      if 8 - n ≤ i ∧ i < 8 ∧
          1 < Int.natAbs (g.analogueVal.getD i 0 - (g.analogueLast.getD i 0 : Int))
      then toUInt16 (g.analogueVal.getD i 0) else g.analogueLast.getD i 0) ∧
    ((hystLoop n (g, c)).2 ≠ 0 ↔
      (c ≠ 0 ∨ ∃ i, 8 - n ≤ i ∧ i < 8 ∧
          1 < Int.natAbs (g.analogueVal.getD i 0 - (g.analogueLast.getD i 0 : Int)))) := by
  intro n
  induction n with
  | zero =>
    intro _ g c _
    refine ⟨rfl, by simpa [hystLoop], ?_, ?_⟩
    · intro i
      rw [if_neg (by omega)]
      rfl
    · simp only [hystLoop]
      constructor
      · intro h; exact Or.inl h
      · rintro (h | ⟨i, h1, h2, _⟩)
        · exact h
        · omega
  | succ n ih =>
    intro hn g c hlen
    rw [hystLoop]
    by_cases hd : 1 < Int.natAbs (g.analogueVal.getD (7 - n) 0 - (g.analogueLast.getD (7 - n) 0 : Int))
    · rw [if_pos hd]
      have hlen1 : (g.analogueLast.set (7 - n) (toUInt16 (g.analogueVal.getD (7 - n) 0))).length = 8 := by
        rw [List.length_set]; exact hlen
      obtain ⟨h1, h2, h3, h4⟩ := ih (by omega)
        { g with analogueLast := g.analogueLast.set (7 - n) (toUInt16 (g.analogueVal.getD (7 - n) 0)) }
        1 hlen1
      refine ⟨?_, h2, ?_, ?_⟩
      · rw [h1]
      · intro i
        rw [h3 i]
        simp only [getD_set_nat _ _ _ _ (show 7 - n < g.analogueLast.length by omega)]
        by_cases hi : 7 - n = i
        · subst hi
          rw [if_neg (by omega), if_pos rfl, if_pos ⟨by omega, by omega, hd⟩]
        · rw [if_neg hi]
          by_cases hc : 8 - n ≤ i ∧ i < 8 ∧
              1 < Int.natAbs (g.analogueVal.getD i 0 - (g.analogueLast.getD i 0 : Int))
          · rw [if_pos hc, if_pos ⟨by omega, hc.2.1, hc.2.2⟩]
          · rw [if_neg hc, if_neg]
            intro hc'
            exact hc ⟨by omega, hc'.2.1, hc'.2.2⟩
      · constructor
        · intro _
          exact Or.inr ⟨7 - n, by omega, by omega, hd⟩
        · intro _
          exact h4.mpr (Or.inl (by norm_num))
    · rw [if_neg hd]
      obtain ⟨h1, h2, h3, h4⟩ := ih (by omega) g c hlen
      refine ⟨h1, h2, ?_, ?_⟩
      · intro i
        rw [h3 i]
        by_cases hc : 8 - n ≤ i ∧ i < 8 ∧
            1 < Int.natAbs (g.analogueVal.getD i 0 - (g.analogueLast.getD i 0 : Int))
        · rw [if_pos hc, if_pos ⟨by omega, hc.2.1, hc.2.2⟩]
        · rw [if_neg hc, if_neg]
          intro hc'
          by_cases hi : i = 7 - n
          · subst hi; exact hd hc'.2.2
          · exact hc ⟨by omega, hc'.2.1, hc'.2.2⟩
      · rw [h4]
        constructor
        · rintro (h | ⟨i, hi1, hi2, hi3⟩)
          · exact Or.inl h
          · exact Or.inr ⟨i, by omega, hi2, hi3⟩
        · rintro (h | ⟨i, hi1, hi2, hi3⟩)
          · exact Or.inl h
          · by_cases hi : i = 7 - n
            · subst hi; exact absurd hi3 hd
            · exact Or.inr ⟨i, by omega, hi2, hi3⟩

theorem read_mcp3008_range (buf : List Nat) :
    0 ≤ read_mcp3008 buf ∧ read_mcp3008 buf < 1024 := by
  unfold read_mcp3008
  have h3 : (buf.getD 1 0 % 256) &&& 3 ≤ 3 := Nat.and_le_right
  have hb : buf.getD 2 0 % 256 < 256 := Nat.mod_lt _ (by norm_num)
  rw [Nat.shiftLeft_eq]
  constructor
  · exact Int.ofNat_nonneg _
  · have : ((buf.getD 1 0 % 256) &&& 3) * 2 ^ 8 + buf.getD 2 0 % 256 < 1024 := by omega
    exact_mod_cast this

theorem toucheRange_range (v : Int) : 0 ≤ toucheRange v ∧ toucheRange v ≤ 820 := by
  unfold toucheRange
  simp only
  split_ifs <;> omega

theorem sampleAnalogue_getD (bufs : Nat → List Nat) (i : Nat) (hi : i < 8) :
    (sampleAnalogue bufs).getD i 0 =
      if i = 0 then toucheRange (read_mcp3008 (bufs 0)) else read_mcp3008 (bufs i) := by
  have hr : List.range 8 = [0, 1, 2, 3, 4, 5, 6, 7] := by decide
  unfold sampleAnalogue
  rw [hr]
  interval_cases i <;> simp

/-- Every sampled value fits the `uint16_t` cell it is copied to. -/
theorem sampleAnalogue_range (bufs : Nat → List Nat) (i : Nat) (hi : i < 8) :
    0 ≤ (sampleAnalogue bufs).getD i 0 ∧ (sampleAnalogue bufs).getD i 0 < 1024 := by
  rw [sampleAnalogue_getD bufs i hi]
  split_ifs
  · have := toucheRange_range (read_mcp3008 (bufs 0)); omega
  · exact read_mcp3008_range _

theorem toUInt16_of_range (v : Int) (h0 : 0 ≤ v) (h1 : v < 65536) : (toUInt16 v : Int) = v := by
  unfold toUInt16
  rw [Int.emod_eq_of_lt h0 h1]
  exact Int.toNat_of_nonneg h0

/-- C5: in an analogue cycle, a channel whose current value is within 1 of the
value last sent keeps its last-sent value, and a channel that differs by 2 or
more takes the current value; the composite `/anlg` message (with the current
values) is sent in the cycle exactly when at least one of the 8 channels
differs by more than 1, before the unfiltered accelerometer message. -/
theorem analogCycle_hysteresis (bufs : Nat → List Nat) (accel : Int) (g : Globals)
    (hlen : g.analogueLast.length = 8) :
    (∀ i, i < 8 →
      (Int.natAbs ((sampleAnalogue bufs).getD i 0 - (g.analogueLast.getD i 0 : Int)) ≤ 1 →
        (analogCycle bufs accel g).analogueLast.getD i 0 = g.analogueLast.getD i 0) ∧
      (2 ≤ Int.natAbs ((sampleAnalogue bufs).getD i 0 - (g.analogueLast.getD i 0 : Int)) →
        ((analogCycle bufs accel g).analogueLast.getD i 0 : Int)
          = (sampleAnalogue bufs).getD i 0)) ∧
    ((∃ i, i < 8 ∧
        1 < Int.natAbs ((sampleAnalogue bufs).getD i 0 - (g.analogueLast.getD i 0 : Int))) →
      (analogCycle bufs accel g).out
        = g.out ++ [Msg.anlg (sampleAnalogue bufs), Msg.vib accel]) ∧
    ((¬ ∃ i, i < 8 ∧
        1 < Int.natAbs ((sampleAnalogue bufs).getD i 0 - (g.analogueLast.getD i 0 : Int))) →
      (analogCycle bufs accel g).out = g.out ++ [Msg.vib accel]) := by
  obtain ⟨h1, _, h3, h4⟩ :=
    hystLoop_spec 8 (le_refl 8) { g with analogueVal := sampleAnalogue bufs } 0 hlen
  simp only [Nat.sub_self, Nat.zero_le, true_and, ne_eq, not_true_eq_false, false_or] at h3 h4
  unfold analogCycle
  simp only [ne_eq]
  refine ⟨?_, ?_, ?_⟩
  · intro i hi
    constructor
    · intro hle
      split_ifs <;> rw [h3 i, if_neg (by omega)]
    · intro hge
      have hr := sampleAnalogue_range bufs i hi
      split_ifs <;> rw [h3 i, if_pos ⟨hi, by omega⟩] <;>
        exact toUInt16_of_range _ hr.1 (by omega)
  · intro hex
    rw [if_pos (h4.mpr hex)]
    simp only [List.append_assoc, List.singleton_append]
    rw [h1]
  · intro hex
    rw [if_neg (fun hc => hex (h4.mp hc))]
    rw [h1]

/-- C5 witness: in the first cycle after program start, with every channel
sampled as 0, channel 1 is at 0 against a last-sent value of 9999, so the
composite message is sent. -/
theorem analogCycle_hysteresis_witness :
    initGlobals.analogueLast.length = 8 ∧
      (analogCycle (fun _ => [0, 0, 0]) 0 initGlobals).out
        = initGlobals.out ++ [Msg.anlg (sampleAnalogue fun _ => [0, 0, 0]), Msg.vib 0] :=
  ⟨rfl, (analogCycle_hysteresis (fun _ => [0, 0, 0]) 0 initGlobals rfl).2.1
    ⟨1, by decide, by decide⟩⟩

/-! ## Frame of the shift register driver -/

theorem srSendLoop_eq (d : Nat) : ∀ (n : Nat) (g : Globals),
    srSendLoop d n (2 ^ n / 2) g = { g with gpio := g.gpio ++ srBits d n } := by
  intro n
  induction n with
  | zero => intro g; simp [srSendLoop, srBits]
  | succ n ih =>
    intro g
    have hm : 2 ^ (n + 1) / 2 = 2 ^ n := by rw [Nat.pow_succ]; omega
    have hs : 2 ^ n >>> 1 = 2 ^ n / 2 := by rw [Nat.shiftRight_eq_div_pow, Nat.pow_one]
    rw [hm, srSendLoop, hs, ih]
    by_cases hb : d.testBit n = true
    · have hne : ¬ (d &&& 2 ^ n = 0) := (and_two_pow_ne_zero d n).mpr hb
      simp [srPulse, gpioWrite, srBits, hne, hb]
    · have he : d &&& 2 ^ n = 0 := by
        by_contra hne
        exact hb ((and_two_pow_ne_zero d n).mp hne)
      simp [srPulse, gpioWrite, srBits, he, hb]

theorem srBits_congr (d e : Nat) : ∀ n, (∀ j, j < n → d.testBit j = e.testBit j) →
    srBits d n = srBits e n := by
  intro n
  induction n with
  | zero => intro _; rfl
  | succ n ih =>
    intro h
    rw [srBits, srBits, h n (by omega), ih (fun j hj => h j (by omega))]

theorem srData_testBit (data : Nat) (g : Globals) (j : Nat) (hj : j < 16) :
    (srData data g).testBit j = (data ^^^ g.recMask).testBit j := by
  unfold srData
  rw [Nat.testBit_mod_two_pow, Nat.testBit_xor, Nat.testBit_mod_two_pow, Nat.testBit_xor]
  simp [hj]

/-- `srSend` changes nothing but the GPIO trace, to which it appends the wire
sequence of `data ^ recMask`. -/
theorem srSend_eq (data : Nat) (g : Globals) :
    srSend data g = { g with gpio := g.gpio ++ srTrace (data ^^^ g.recMask) } := by
  have h := srSendLoop_eq (srData data g) 15 g
  have hm : (2 : Nat) ^ 15 / 2 = 0x4000 := by norm_num
  rw [hm] at h
  rw [srSend, h, srBits_congr (srData data g) (data ^^^ g.recMask) 15
    (fun j hj => srData_testBit data g j (by omega))]
  simp [srPulse, gpioWrite, srTrace]

/-! ## C6: the octave marker pattern -/

/-- C6 (counterexample): an octave-up press that brings the shift from -12 to
0 stores the pattern 0x0565, not 0x0525, and one that brings it from 0 to 12
stores 0x0595, not 0x0495. -/
theorem octLed_counterexample :
    (octUpPress { initGlobals with octaveShift := -12 }).octaveShift = 0 ∧
      (octUpPress { initGlobals with octaveShift := -12 }).oct_led ≠ 0x0525 ∧
      (octUpPress initGlobals).octaveShift = 12 ∧
      (octUpPress initGlobals).oct_led ≠ 0x0495 := by
  decide

/-- C6 (amended): after an octave-button press `oct_led` is the pattern
`0x0555 XOR (3 << (4 + shift/6))` of the resulting shift, which is 0x0565 for
shift 0 and 0x0595 for shift 12. -/
theorem octLed_after_press (g : Globals) :
    (octDownPress g).oct_led = octLedPattern (octDownPress g).octaveShift ∧
      (octUpPress g).oct_led = octLedPattern (octUpPress g).octaveShift ∧
      octLedPattern 0 = 0x0555 ^^^ (3 <<< 4) ∧ octLedPattern 0 = 0x0565 ∧
      octLedPattern 12 = 0x0555 ^^^ (3 <<< 6) ∧ octLedPattern 12 = 0x0595 := by
  refine ⟨?_, ?_, by decide, by decide, by decide, by decide⟩
  · unfold octDownPress
    simp only [srSend_eq]
  · unfold octUpPress
    simp only [srSend_eq]

/-! ## C7: program change -/

set_option maxRecDepth 100000 in
/-- C7 (counterexample): a program change with data byte 0x27 leaves the
voice-enable field (bits 3-7 of bank 0) at 0x38, not 0xF8. -/
theorem programChange_counterexample :
    parseEvent [0xC0, 0x27] 0 initGlobals = some (2, programChange 0x27 initGlobals) ∧
      (programChange 0x27 initGlobals).midiSws.getD 0 0 &&& 0xF8 = 0x38 ∧
      (programChange 0x27 initGlobals).midiSws.getD 0 0 &&& 0xF8 ≠ 0xF8 := by
  decide

set_option maxRecDepth 100000 in
theorem voice_field (a d : Nat) :
    ((a &&& 0x03 ||| (d &&& 0x1f) <<< 3) % 256) &&& 0xF8 = (d &&& 0x1f) <<< 3 := by
  have h : ∀ x : Fin 4, ∀ y : Fin 32,
      ((x.val ||| y.val <<< 3) % 256) &&& 0xF8 = y.val <<< 3 := by decide
  have ha : a &&& 0x03 < 4 := Nat.lt_succ_of_le Nat.and_le_right
  have hd : d &&& 0x1f < 32 := Nat.lt_succ_of_le Nat.and_le_right
  exact h ⟨_, ha⟩ ⟨_, hd⟩

set_option maxRecDepth 100000 in
theorem secondary_field (a d : Nat) :
    ((a &&& 0xfc ||| (d &&& 0x60) >>> 5) % 256) &&& 0x03 = (d &&& 0x60) >>> 5 := by
  have h : ∀ u : Fin 253, u.val &&& 3 = 0 → ∀ y : Fin 4,
      ((u.val ||| y.val) % 256) &&& 0x03 = y.val := by decide
  have ha : a &&& 0xfc < 253 := Nat.lt_succ_of_le Nat.and_le_right
  have ha0 : (a &&& 0xfc) &&& 3 = 0 := by
    rw [Nat.and_assoc]
    have : (0xfc : Nat) &&& 3 = 0 := by decide
    rw [this, Nat.and_zero]
  have hd : (d &&& 0x60) >>> 5 < 4 := by
    have h1 : d &&& 0x60 ≤ 0x60 := Nat.and_le_right
    rw [Nat.shiftRight_eq_div_pow]
    omega
  exact h ⟨_, ha⟩ ha0 ⟨_, hd⟩

/-- C7 (amended): a program change event with data byte `d` sets the
voice-enable field (bits 3-7 of switch bank 0, as a byte value) to
`(d & 0x1F) << 3` and the secondary field (bits 0-1 of bank 1) to
`(d & 0x60) >> 5`, sends the switch message and advances the pointer by two
bytes; for `d = 0x27` the fields are 0x38 and 1. -/
theorem programChange_fields (mem : List Nat) (pos s d : Nat) (g : Globals)
    (hs : mem[pos]? = some s) (hc : s &&& 0xf0 = 0xC0) (hd : mem[pos + 1]? = some d)
    (hlen : g.midiSws.length = 3) :
    parseEvent mem pos g = some (pos + 2, programChange d g) ∧
      (programChange d g).midiSws.getD 0 0 &&& 0xF8 = (d &&& 0x1F) <<< 3 ∧
      (programChange d g).midiSws.getD 1 0 &&& 0x03 = (d &&& 0x60) >>> 5 ∧
      (programChange d g).out = g.out ++ [midiSwMsg (programChange d g)] ∧
      ((0x27 : Nat) &&& 0x1F) <<< 3 = 0x38 ∧ ((0x27 : Nat) &&& 0x60) >>> 5 = 1 := by
  have hne : s ≠ 0xff := by
    intro h
    rw [h] at hc
    exact absurd hc (by decide)
  have hne2 : s &&& 0xf0 ≠ 0xE0 := by
    rw [hc]
    decide
  refine ⟨?_, ?_, ?_, rfl, by decide, by decide⟩
  · rw [parseEvent, hs]
    simp only [hne, if_false, hne2, hc, if_true, hd]
    rw [if_neg (by decide)]
  · unfold programChange
    simp only
    rw [getD_set_nat _ _ _ _ (by rw [List.length_set]; omega), if_neg (by decide),
      getD_set_nat _ _ _ _ (by omega), if_pos rfl]
    exact voice_field _ d
  · unfold programChange
    simp only
    rw [getD_set_nat _ _ _ _ (by rw [List.length_set]; omega), if_pos rfl]
    exact secondary_field _ d

/-- C7 witness: the event `C3 27` on the initial state. -/
theorem programChange_fields_witness :
    ([0xC3, 0x27] : List Nat)[0]? = some 0xC3 ∧ (0xC3 : Nat) &&& 0xf0 = 0xC0 ∧
      ([0xC3, 0x27] : List Nat)[0 + 1]? = some 0x27 ∧ initGlobals.midiSws.length = 3 ∧
      (programChange 0x27 initGlobals).midiSws.getD 0 0 &&& 0xF8 = (0x27 &&& 0x1F) <<< 3 :=
  ⟨rfl, by decide, rfl, rfl,
    (programChange_fields [0xC3, 0x27] 0 0xC3 0x27 initGlobals rfl (by decide) rfl rfl).2.1⟩

/-! ## C8: the value a render shifts out -/

/-- C8 (counterexample): while recording with the octave markers switched
off (`ledMask = 0xf000`, `recMask = 0x0fff`), a refresh shifts out the low 15
bits of 0x0FFF, whereas `(pattern XOR record_mask) AND mask` is 0; the wire
sequences of the two values differ. -/
theorem ledRefresh_counterexample :
    recordStart (setOctaveLEDs { initGlobals with octaveLED := 0 }) = recordingMarkersOff ∧
      srData (ledWord recordingMarkersOff) recordingMarkersOff = 0x0FFF ∧
      (((colour.getD recordingMarkersOff.rgb_led 0 <<< 12) ||| recordingMarkersOff.oct_led)
          ^^^ recordingMarkersOff.recMask) &&& recordingMarkersOff.ledMask = 0 ∧
      (ledRefresh recordingMarkersOff).gpio = recordingMarkersOff.gpio ++ srTrace 0x0FFF ∧
      srTrace 0x0FFF ≠ srTrace 0 := by
  decide

theorem xor_mod_left (x r : Nat) : ((x % 2 ^ 16) ^^^ r) % 2 ^ 16 = (x ^^^ r) % 2 ^ 16 := by
  apply Nat.eq_of_testBit_eq
  intro j
  simp only [Nat.testBit_mod_two_pow, Nat.testBit_xor]
  by_cases h : j < 16 <;> simp [h]

/-- C8 (amended): for every colour index, octave pattern, mask and record
mask, the 16-bit value whose low 15 bits a render shifts out is
`(pattern AND mask) XOR record_mask` with `pattern = (colour << 12) | oct_led`
and `mask = ledMask`: the mask is applied by the caller and the record mask
inside `srSend`; the record mask is 0x0FFF once a recording is started and 0
once it is stopped.  The refresh changes nothing but the GPIO trace and the
refresh counter. -/
theorem ledRefresh_value (g : Globals) :
    srData (ledWord g) g
        = ((((colour.getD g.rgb_led 0 <<< 12) ||| g.oct_led) &&& g.ledMask) ^^^ g.recMask)
            % 2 ^ 16 ∧
      ledRefresh g = { g with
        shiftreg_count := 0
        gpio := g.gpio ++
          srTrace ((((colour.getD g.rgb_led 0 <<< 12) ||| g.oct_led) &&& g.ledMask)
            ^^^ g.recMask) } ∧
      (recordStart g).recMask = 0x0FFF ∧ (recordStop g).recMask = 0 := by
  refine ⟨?_, ?_, rfl, rfl⟩
  · unfold srData ledWord
    exact xor_mod_left _ _
  · unfold ledRefresh
    rw [srSend_eq]
    rfl

/-! ## C9: the wire sequence of `srSend` -/

theorem srBits_length (d : Nat) : ∀ n, (srBits d n).length = 3 * n := by
  intro n
  induction n with
  | zero => rfl
  | succ n ih =>
    rw [srBits, List.length_append, ih]
    simp only [List.length_cons, List.length_nil]
    omega

theorem srBits_getD (d : Nat) : ∀ n i, i < n →
    (srBits d n).getD (3 * i) (0, 0) = (if d.testBit (n - 1 - i) then pinLow SER else pinHigh SER) ∧
      (srBits d n).getD (3 * i + 1) (0, 0) = pinLow SRCLK ∧
      (srBits d n).getD (3 * i + 2) (0, 0) = pinHigh SRCLK := by
  intro n
  induction n with
  | zero => intro i hi; omega
  | succ n ih =>
    intro i hi
    rw [srBits]
    cases i with
    | zero =>
      refine ⟨?_, rfl, rfl⟩
      simp only [Nat.mul_zero, List.cons_append, List.nil_append, List.getD_cons_zero,
        Nat.add_sub_cancel, Nat.sub_zero]
    | succ k =>
      obtain ⟨h1, h2, h3⟩ := ih k (by omega)
      have e0 : 3 * (k + 1) = 3 * k + 1 + 1 + 1 := by omega
      have e1 : 3 * (k + 1) + 1 = (3 * k + 1) + 1 + 1 + 1 := by omega
      have e2 : 3 * (k + 1) + 2 = (3 * k + 2) + 1 + 1 + 1 := by omega
      have eb : n + 1 - 1 - (k + 1) = n - 1 - k := by omega
      refine ⟨?_, ?_, ?_⟩
      · rw [e0, eb]
        simp only [List.cons_append, List.nil_append, List.getD_cons_succ]
        exact h1
      · rw [e1]
        simp only [List.cons_append, List.nil_append, List.getD_cons_succ]
        exact h2
      · rw [e2]
        simp only [List.cons_append, List.nil_append, List.getD_cons_succ]
        exact h3

theorem srBits_countP (d : Nat) : ∀ n,
    (srBits d n).countP (fun w => decide (w = pinLow SER ∨ w = pinHigh SER)) = n := by
  intro n
  induction n with
  | zero => rfl
  | succ n ih =>
    have hlo : decide (pinLow SRCLK = pinLow SER ∨ pinLow SRCLK = pinHigh SER) = false := by
      decide
    have hhi : decide (pinHigh SRCLK = pinLow SER ∨ pinHigh SRCLK = pinHigh SER) = false := by
      decide
    rw [srBits, List.countP_append, ih]
    by_cases hb : d.testBit n = true
    · simp only [hb, if_true, List.countP_cons, List.countP_nil, hlo, hhi]
      simp
      omega
    · simp only [hb, if_false, List.countP_cons, List.countP_nil, hlo, hhi]
      simp
      omega

/-- C9: for every argument and every `recMask`, `srSend` appends to the GPIO
trace exactly 47 writes, 15 of them to the data line: for `i = 0..14` a write
of the data line, high iff bit `14 - i` of `data XOR recMask` is 0, followed
by the shift clock driven low and then high, and at the end the latch clock
driven low and then high.  Nothing else of the program state changes, bit 15
(and above) of the argument does not matter, and a second call with the same
argument appends the same sequence again. -/
theorem srSend_trace (data : Nat) (g : Globals) :
    srSend data g = { g with gpio := g.gpio ++ srTrace (data ^^^ g.recMask) } ∧
      (srTrace (data ^^^ g.recMask)).length = 47 ∧
      (srTrace (data ^^^ g.recMask)).countP
          (fun w => decide (w = pinLow SER ∨ w = pinHigh SER)) = 15 ∧
      (∀ i, i < 15 →
        (srTrace (data ^^^ g.recMask)).getD (3 * i) (0, 0)
            = (if (data ^^^ g.recMask).testBit (14 - i) then pinLow SER else pinHigh SER) ∧
          (srTrace (data ^^^ g.recMask)).getD (3 * i + 1) (0, 0) = pinLow SRCLK ∧
          (srTrace (data ^^^ g.recMask)).getD (3 * i + 2) (0, 0) = pinHigh SRCLK) ∧
      (srTrace (data ^^^ g.recMask)).getD 45 (0, 0) = pinLow RCLK ∧
      (srTrace (data ^^^ g.recMask)).getD 46 (0, 0) = pinHigh RCLK ∧
      pinLow SER ≠ pinHigh SER ∧
      srSend (data % 2 ^ 15) g = srSend data g ∧
      (srSend data (srSend data g)).gpio
        = g.gpio ++ srTrace (data ^^^ g.recMask) ++ srTrace (data ^^^ g.recMask) := by
  have hlen : (srBits (data ^^^ g.recMask) 15).length = 45 := srBits_length _ 15
  refine ⟨srSend_eq data g, ?_, ?_, ?_, ?_, ?_, by decide, ?_, ?_⟩
  · rw [srTrace, List.length_append, hlen]
    rfl
  · rw [srTrace, List.countP_append, srBits_countP]
    rfl
  · intro i hi
    obtain ⟨h1, h2, h3⟩ := srBits_getD (data ^^^ g.recMask) 15 i hi
    unfold srTrace
    rw [List.getD_append _ _ _ _ (by omega), List.getD_append _ _ _ _ (by omega),
      List.getD_append _ _ _ _ (by omega)]
    exact ⟨h1, h2, h3⟩
  · unfold srTrace
    rw [List.getD_append_right _ _ _ _ (by omega), hlen]
    rfl
  · unfold srTrace
    rw [List.getD_append_right _ _ _ _ (by omega), hlen]
    rfl
  · rw [srSend_eq, srSend_eq]
    unfold srTrace
    rw [srBits_congr (data % 2 ^ 15 ^^^ g.recMask) (data ^^^ g.recMask) 15]
    intro j hj
    rw [Nat.testBit_xor, Nat.testBit_xor, Nat.testBit_mod_two_pow]
    simp [hj]
  · rw [srSend_eq, srSend_eq]

/-! ## C10: the domain of `octaveShift` -/

theorem octDownPress_shift (g : Globals) :
    (octDownPress g).octaveShift
      = if g.octaveShift > -24 then g.octaveShift - 12 else g.octaveShift := by
  unfold octDownPress
  simp only [srSend_eq]
  split_ifs <;> rfl

theorem octUpPress_shift (g : Globals) :
    (octUpPress g).octaveShift
      = if g.octaveShift < 12 then g.octaveShift + 12 else g.octaveShift := by
  unfold octUpPress
  simp only [srSend_eq]
  split_ifs <;> rfl

theorem octaveButtons_domain (s2 : Nat) (g : Globals) (h : OctDomain g.octaveShift) :
    OctDomain (octaveButtons s2 g).octaveShift ∧
      ((octaveButtons s2 g).octaveShift - g.octaveShift = 0 ∨
        (octaveButtons s2 g).octaveShift - g.octaveShift = 12 ∨
        (octaveButtons s2 g).octaveShift - g.octaveShift = -12) := by
  unfold octaveButtons
  simp only
  split_ifs <;> (try simp only [octUpPress_shift, octDownPress_shift]) <;>
    generalize g.octaveShift = s at h ⊢ <;> unfold OctDomain at h ⊢ <;>
    rcases h with h | h | h | h <;> subst h <;> decide

theorem gpioWrite_octaveShift (pin level : Nat) (g : Globals) :
    (gpioWrite pin level g).octaveShift = g.octaveShift := by
  unfold gpioWrite
  split_ifs <;> rfl

theorem scanBanks_octaveShift (rd : Nat → Nat) : ∀ (n : Nat) (sw : List Nat) (c : Nat)
    (g : Globals), (scanBanks rd n (sw, c, g)).2.2.octaveShift = g.octaveShift := by
  intro n
  induction n with
  | zero => intro sw c g; rfl
  | succ n ih =>
    intro sw c g
    rw [scanBanks]
    split_ifs
    · rw [ih, gpioWrite_octaveShift]
      exact gpioWrite_octaveShift _ _ g
    · rw [ih, gpioWrite_octaveShift, gpioWrite_octaveShift]

theorem switchCycle_domain (rd : Nat → Nat) (g : Globals) (h : OctDomain g.octaveShift) :
    OctDomain (switchCycle rd g).octaveShift ∧
      ((switchCycle rd g).octaveShift - g.octaveShift = 0 ∨
        (switchCycle rd g).octaveShift - g.octaveShift = 12 ∨
        (switchCycle rd g).octaveShift - g.octaveShift = -12) := by
  have hscan := scanBanks_octaveShift rd 3 [0, 0, 0] 0 g
  unfold switchCycle
  generalize scanBanks rd 3 ([0, 0, 0], 0, g) = r at hscan
  obtain ⟨sw, c, g1⟩ := r
  simp only at hscan ⊢
  rw [← hscan] at h ⊢
  by_cases hc : c ≠ 0
  · rw [if_pos hc]
    exact octaveButtons_domain _ _ h
  · rw [if_neg hc]
    exact ⟨h, Or.inl (sub_self _)⟩

/-- C10: `octaveShift` stays in {-24, -12, 0, 12}: it is there after every
sequence of switch cycles from the initial state, every switch cycle started
in the domain ends in it and moves the value by 0 or by exactly 12 either
way, and for a value of the domain the down handler subtracts exactly 12
except at -24, which it keeps, while the up handler adds exactly 12 except at
12, which it keeps. -/
theorem octaveShift_domain :
    (∀ rds : List (Nat → Nat), OctDomain (runSwitchCycles rds initGlobals).octaveShift) ∧
      (∀ (rd : Nat → Nat) (g : Globals), OctDomain g.octaveShift →
        OctDomain (switchCycle rd g).octaveShift ∧
          ((switchCycle rd g).octaveShift - g.octaveShift = 0 ∨
            (switchCycle rd g).octaveShift - g.octaveShift = 12 ∨
            (switchCycle rd g).octaveShift - g.octaveShift = -12)) ∧
      (∀ g : Globals, OctDomain g.octaveShift →
        (octDownPress g).octaveShift
            = (if g.octaveShift = -24 then -24 else g.octaveShift - 12) ∧
          (octUpPress g).octaveShift
            = (if g.octaveShift = 12 then 12 else g.octaveShift + 12)) := by
  refine ⟨?_, switchCycle_domain, ?_⟩
  · have hgen : ∀ (rds : List (Nat → Nat)) (g : Globals), OctDomain g.octaveShift →
        OctDomain (runSwitchCycles rds g).octaveShift := by
      intro rds
      induction rds with
      | nil => intro g h; exact h
      | cons rd rds ih =>
        intro g h
        rw [runSwitchCycles]
        exact ih _ (switchCycle_domain rd g h).1
    intro rds
    exact hgen rds initGlobals (by decide)
  · intro g h
    rw [octDownPress_shift, octUpPress_shift]
    unfold OctDomain at h
    rcases h with h | h | h | h <;> rw [h] <;> decide

/-! ## The switch cycle in closed form -/

theorem scanBanks_three (rd : Nat → Nat) (g : Globals) (p0 p1 p2 : Nat)
    (hp : g.prevSws = [p0, p1, p2]) :
    scanBanks rd 3 ([0, 0, 0], 0, g)
      = ([invBank rd 0, invBank rd 1, invBank rd 2],
         (if invBank rd 0 ≠ p0 ∨ invBank rd 1 ≠ p1 ∨ invBank rd 2 ≠ p2 then 1 else 0),
         { g with prevSws := [invBank rd 0, invBank rd 1, invBank rd 2],
                  gpio := g.gpio ++ swTrace }) := by
  obtain ⟨a, b, c, d, e⟩ := g
  simp only at hp
  subst hp
  by_cases h0 : invBank rd 0 = p0 <;> by_cases h1 : invBank rd 1 = p1 <;>
    by_cases h2 : invBank rd 2 = p2 <;>
    simp [scanBanks, gpioWrite, swGpio, swTrace, invBank, h0, h1, h2] at * <;>
    simp [*]

theorem switchCycle_eq (rd : Nat → Nat) (g : Globals) (p0 p1 p2 : Nat)
    (hp : g.prevSws = [p0, p1, p2]) :
    switchCycle rd g =
      if invBank rd 0 ≠ p0 ∨ invBank rd 1 ≠ p1 ∨ invBank rd 2 ≠ p2 then
        octaveButtons (invBank rd 2)
          { g with
            prevSws := [invBank rd 0, invBank rd 1, invBank rd 2]
            gpio := g.gpio ++ swTrace
            out := g.out ++ [Msg.sw
              (Int.ofNat (if invBank rd 0 &&& 4 ≠ 0 then invBank rd 0 ||| 248 else invBank rd 0))
              (Int.ofNat (if invBank rd 0 &&& 4 ≠ 0 then invBank rd 1 ||| 1 else invBank rd 1))
              (Int.ofNat (invBank rd 2 &&& 63))] }
      else
        { g with prevSws := [invBank rd 0, invBank rd 1, invBank rd 2],
                 gpio := g.gpio ++ swTrace } := by
  unfold switchCycle
  rw [scanBanks_three rd g p0 p1 p2 hp]
  by_cases hc : invBank rd 0 ≠ p0 ∨ invBank rd 1 ≠ p1 ∨ invBank rd 2 ≠ p2
  · simp only [if_pos hc, ne_eq, one_ne_zero, not_false_eq_true, if_true, List.getD_cons_zero,
      List.getD_cons_succ]
  · simp only [if_neg hc, ne_eq, not_true_eq_false, if_false]

/-- The down handler in closed form. -/
theorem octDownPress_eq (g : Globals) :
    octDownPress g = { g with
      octaveShift := downStep g.octaveShift
      octDnPressed := 1
      out := g.out ++ [Msg.oct (downStep g.octaveShift)]
      oct_led := octLedPattern (downStep g.octaveShift)
      shiftreg_count := 0
      gpio := (octDownPress g).gpio } := by
  unfold octDownPress downStep
  simp only [srSend_eq]
  split_ifs <;> rfl

/-- The up handler in closed form. -/
theorem octUpPress_eq (g : Globals) :
    octUpPress g = { g with
      octaveShift := upStep g.octaveShift
      octUpPressed := 1
      out := g.out ++ [Msg.oct (upStep g.octaveShift)]
      oct_led := octLedPattern (upStep g.octaveShift)
      shiftreg_count := 0
      gpio := (octUpPress g).gpio } := by
  unfold octUpPress upStep
  simp only [srSend_eq]
  split_ifs <;> rfl

@[simp] theorem octDownPress_octaveShift (g : Globals) :
    (octDownPress g).octaveShift = downStep g.octaveShift := by
  rw [octDownPress_eq]

@[simp] theorem octDownPress_octDnPressed (g : Globals) : (octDownPress g).octDnPressed = 1 := by
  rw [octDownPress_eq]

@[simp] theorem octDownPress_octUpPressed (g : Globals) : (octDownPress g).octUpPressed = g.octUpPressed := by
  rw [octDownPress_eq]

@[simp] theorem octDownPress_prevSws (g : Globals) : (octDownPress g).prevSws = g.prevSws := by
  rw [octDownPress_eq]

@[simp] theorem octDownPress_out (g : Globals) :
    (octDownPress g).out = g.out ++ [Msg.oct (downStep g.octaveShift)] := by
  rw [octDownPress_eq]

@[simp] theorem octDownPress_oct_led (g : Globals) :
    (octDownPress g).oct_led = octLedPattern (downStep g.octaveShift) := by
  rw [octDownPress_eq]

@[simp] theorem octUpPress_octaveShift (g : Globals) :
    (octUpPress g).octaveShift = upStep g.octaveShift := by
  rw [octUpPress_eq]

@[simp] theorem octUpPress_octUpPressed (g : Globals) : (octUpPress g).octUpPressed = 1 := by
  rw [octUpPress_eq]

@[simp] theorem octUpPress_octDnPressed (g : Globals) : (octUpPress g).octDnPressed = g.octDnPressed := by
  rw [octUpPress_eq]

@[simp] theorem octUpPress_prevSws (g : Globals) : (octUpPress g).prevSws = g.prevSws := by
  rw [octUpPress_eq]

@[simp] theorem octUpPress_out (g : Globals) :
    (octUpPress g).out = g.out ++ [Msg.oct (upStep g.octaveShift)] := by
  rw [octUpPress_eq]

@[simp] theorem octUpPress_oct_led (g : Globals) :
    (octUpPress g).oct_led = octLedPattern (upStep g.octaveShift) := by
  rw [octUpPress_eq]

/-- What the button block does to the switch memory, the shift, the press
flags, the message trace and the marker pattern. -/
theorem octaveButtons_props (s2 : Nat) (g : Globals) :
    (octaveButtons s2 g).prevSws = g.prevSws ∧
      (octaveButtons s2 g).octaveShift
        = (if s2 &&& 128 ≠ 0 ∧ g.octUpPressed = 0 then upStep else id)
            ((if s2 &&& 64 ≠ 0 ∧ g.octDnPressed = 0 then downStep else id) g.octaveShift) ∧
      ((octaveButtons s2 g).octDnPressed = 0 ↔ s2 &&& 64 = 0) ∧
      ((octaveButtons s2 g).octUpPressed = 0 ↔ s2 &&& 128 = 0) ∧
      (∃ octs, (octaveButtons s2 g).out = g.out ++ octs ∧ ∀ m ∈ octs, ∃ v, m = Msg.oct v) ∧
      ((octaveButtons s2 g).oct_led = g.oct_led ∧
          (octaveButtons s2 g).octaveShift = g.octaveShift ∨
        (octaveButtons s2 g).oct_led = octLedPattern (octaveButtons s2 g).octaveShift) := by
  unfold octaveButtons
  by_cases h64 : s2 &&& 64 = 0 <;> by_cases hd : g.octDnPressed = 0 <;>
    by_cases h128 : s2 &&& 128 = 0 <;> by_cases hu : g.octUpPressed = 0 <;>
    simp [h64, hd, h128, hu]

/-! ## C11: the octave buttons are edge triggered -/

theorem length_three (l : List Nat) (h : l.length = 3) : ∃ a b c, l = [a, b, c] := by
  match l, h with
  | [a, b, c], _ => exact ⟨a, b, c, rfl⟩

/-- One switch cycle from a state whose press flags agree with `prevSws`: the
agreement is kept, `prevSws` holds the inverted readings, and the shift takes
a down step exactly on a rising edge of bit 6 and an up step exactly on a
rising edge of bit 7 of bank 2. -/
theorem switchCycle_step (rd : Nat → Nat) (g : Globals) (h : SwInv g) :
    SwInv (switchCycle rd g) ∧
      (switchCycle rd g).prevSws = [invBank rd 0, invBank rd 1, invBank rd 2] ∧
      (switchCycle rd g).octaveShift
        = (if invBank rd 2 &&& 128 ≠ 0 ∧ g.prevSws.getD 2 0 &&& 128 = 0 then upStep else id)
            ((if invBank rd 2 &&& 64 ≠ 0 ∧ g.prevSws.getD 2 0 &&& 64 = 0 then downStep else id)
              g.octaveShift) := by
  obtain ⟨hlen, hdn, hup⟩ := h
  obtain ⟨p0, p1, p2, hp⟩ := length_three _ hlen
  rw [switchCycle_eq rd g p0 p1 p2 hp]
  rw [hp] at hdn hup
  simp only [List.getD_cons_zero, List.getD_cons_succ] at hdn hup
  rw [hp]
  simp only [List.getD_cons_zero, List.getD_cons_succ]
  by_cases hc : invBank rd 0 ≠ p0 ∨ invBank rd 1 ≠ p1 ∨ invBank rd 2 ≠ p2
  · rw [if_pos hc]
    obtain ⟨q1, q2, q3, q4, _, _⟩ := octaveButtons_props (invBank rd 2)
      { g with
        prevSws := [invBank rd 0, invBank rd 1, invBank rd 2]
        gpio := g.gpio ++ swTrace
        out := g.out ++ [Msg.sw
          (Int.ofNat (if invBank rd 0 &&& 4 ≠ 0 then invBank rd 0 ||| 248 else invBank rd 0))
          (Int.ofNat (if invBank rd 0 &&& 4 ≠ 0 then invBank rd 1 ||| 1 else invBank rd 1))
          (Int.ofNat (invBank rd 2 &&& 63))] }
    simp only at q1 q2 q3 q4
    refine ⟨⟨?_, ?_, ?_⟩, q1, ?_⟩
    · rw [q1]; rfl
    · rw [q1]; exact q3
    · rw [q1]; exact q4
    · rw [q2]
      simp only [hdn, hup]
  · rw [if_neg hc]
    have he : invBank rd 2 = p2 := by
      by_contra hne
      exact hc (Or.inr (Or.inr hne))
    refine ⟨⟨rfl, ?_, ?_⟩, rfl, ?_⟩
    · simp only [List.getD_cons_zero, List.getD_cons_succ, he]; exact hdn
    · simp only [List.getD_cons_zero, List.getD_cons_succ, he]; exact hup
    · rw [he]
      have e1 : ¬ (p2 &&& 128 ≠ 0 ∧ p2 &&& 128 = 0) := fun hh => hh.1 hh.2
      have e2 : ¬ (p2 &&& 64 ≠ 0 ∧ p2 &&& 64 = 0) := fun hh => hh.1 hh.2
      rw [if_neg e1, if_neg e2]
      rfl

/-- While the down button stays pressed and the up button stays released,
further switch cycles leave the shift alone. -/
theorem held_down_no_change : ∀ (rds : List (Nat → Nat)) (g : Globals), SwInv g →
    g.prevSws.getD 2 0 &&& 64 ≠ 0 →
    (∀ r ∈ rds, invBank r 2 &&& 64 ≠ 0 ∧ invBank r 2 &&& 128 = 0) →
    (runSwitchCycles rds g).octaveShift = g.octaveShift := by
  intro rds
  induction rds with
  | nil => intro g _ _ _; rfl
  | cons rd rds ih =>
    intro g hinv hprev hall
    obtain ⟨h1, h2, h3⟩ := switchCycle_step rd g hinv
    obtain ⟨hr64, hr128⟩ := hall rd (List.mem_cons_self _ _)
    rw [runSwitchCycles, ih (switchCycle rd g) h1
      (by rw [h2]; simpa using hr64)
      (fun r hr => hall r (List.mem_cons_of_mem _ hr)), h3,
      if_neg (fun hh => hh.1 hr128), if_neg (fun hh => hprev hh.2)]
    rfl

/-- The same with the two buttons exchanged. -/
theorem held_up_no_change : ∀ (rds : List (Nat → Nat)) (g : Globals), SwInv g →
    g.prevSws.getD 2 0 &&& 128 ≠ 0 →
    (∀ r ∈ rds, invBank r 2 &&& 128 ≠ 0 ∧ invBank r 2 &&& 64 = 0) →
    (runSwitchCycles rds g).octaveShift = g.octaveShift := by
  intro rds
  induction rds with
  | nil => intro g _ _ _; rfl
  | cons rd rds ih =>
    intro g hinv hprev hall
    obtain ⟨h1, h2, h3⟩ := switchCycle_step rd g hinv
    obtain ⟨hr128, hr64⟩ := hall rd (List.mem_cons_self _ _)
    rw [runSwitchCycles, ih (switchCycle rd g) h1
      (by rw [h2]; simpa using hr128)
      (fun r hr => hall r (List.mem_cons_of_mem _ hr)), h3,
      if_neg (fun hh => hprev hh.2), if_neg (fun hh => hh.1 hr64)]
    rfl

theorem runSwitchCycles_inv : ∀ (rds : List (Nat → Nat)) (g : Globals), SwInv g →
    SwInv (runSwitchCycles rds g) := by
  intro rds
  induction rds with
  | nil => intro g h; exact h
  | cons rd rds ih =>
    intro g h
    rw [runSwitchCycles]
    exact ih _ (switchCycle_step rd g h).1

/-- C11: across switch cycles from the initial state the press flags always
agree with the octave-button bits of the previous reading; in a cycle the
shift takes its down step exactly when bit 6 of inverted bank 2 is set in this
reading and was clear in the previous one, and its up step exactly when the
same holds for bit 7, so it is not touched otherwise; a button that is
released, then held pressed over any positive number of cycles (the other
octave button released, every other switch free to change) adjusts the shift
exactly once. -/
theorem octave_edge_triggered :
    (∀ rds : List (Nat → Nat), SwInv (runSwitchCycles rds initGlobals)) ∧
      (∀ (rd : Nat → Nat) (g : Globals), SwInv g →
        SwInv (switchCycle rd g) ∧
          (switchCycle rd g).prevSws = [invBank rd 0, invBank rd 1, invBank rd 2] ∧
          (switchCycle rd g).octaveShift
            = (if invBank rd 2 &&& 128 ≠ 0 ∧ g.prevSws.getD 2 0 &&& 128 = 0
                then upStep else id)
                ((if invBank rd 2 &&& 64 ≠ 0 ∧ g.prevSws.getD 2 0 &&& 64 = 0
                  then downStep else id) g.octaveShift)) ∧
      (∀ (g : Globals) (rd : Nat → Nat) (rds : List (Nat → Nat)), SwInv g →
        g.prevSws.getD 2 0 &&& 64 = 0 →
        (∀ r ∈ rd :: rds, invBank r 2 &&& 64 ≠ 0 ∧ invBank r 2 &&& 128 = 0) →
        (runSwitchCycles (rd :: rds) g).octaveShift = downStep g.octaveShift) ∧
      (∀ (g : Globals) (rd : Nat → Nat) (rds : List (Nat → Nat)), SwInv g →
        g.prevSws.getD 2 0 &&& 128 = 0 →
        (∀ r ∈ rd :: rds, invBank r 2 &&& 128 ≠ 0 ∧ invBank r 2 &&& 64 = 0) →
        (runSwitchCycles (rd :: rds) g).octaveShift = upStep g.octaveShift) := by
  refine ⟨fun rds => runSwitchCycles_inv rds initGlobals (by decide), switchCycle_step, ?_, ?_⟩
  · intro g rd rds hinv hprev hall
    obtain ⟨h1, h2, h3⟩ := switchCycle_step rd g hinv
    obtain ⟨hr64, hr128⟩ := hall rd (List.mem_cons_self _ _)
    rw [runSwitchCycles, held_down_no_change rds (switchCycle rd g) h1
      (by rw [h2]; simpa using hr64)
      (fun r hr => hall r (List.mem_cons_of_mem _ hr)), h3,
      if_neg (fun hh => hh.1 hr128), if_pos ⟨hr64, hprev⟩]
    rfl
  · intro g rd rds hinv hprev hall
    obtain ⟨h1, h2, h3⟩ := switchCycle_step rd g hinv
    obtain ⟨hr128, hr64⟩ := hall rd (List.mem_cons_self _ _)
    rw [runSwitchCycles, held_up_no_change rds (switchCycle rd g) h1
      (by rw [h2]; simpa using hr128)
      (fun r hr => hall r (List.mem_cons_of_mem _ hr)), h3,
      if_pos ⟨hr128, hprev⟩, if_neg (fun hh => hh.1 hr64)]
    rfl

/-! ## C12: the marker pattern follows the shift -/

theorem runPresses_led : ∀ (bs : List Bool) (b : Bool) (g : Globals),
    (runPresses (b :: bs) g).oct_led = octLedPattern (runPresses (b :: bs) g).octaveShift := by
  intro bs
  induction bs with
  | nil =>
    intro b g
    cases b <;> simp [runPresses, press]
  | cons b' bs ih =>
    intro b g
    rw [runPresses]
    exact ih b' (press b g)

theorem switchCycle_led (rd : Nat → Nat) (g : Globals) (hlen : g.prevSws.length = 3)
    (h : g.oct_led = octLedPattern g.octaveShift) :
    (switchCycle rd g).oct_led = octLedPattern (switchCycle rd g).octaveShift := by
  obtain ⟨p0, p1, p2, hp⟩ := length_three _ hlen
  rw [switchCycle_eq rd g p0 p1 p2 hp]
  by_cases hc : invBank rd 0 ≠ p0 ∨ invBank rd 1 ≠ p1 ∨ invBank rd 2 ≠ p2
  · rw [if_pos hc]
    obtain ⟨_, _, _, _, _, q6⟩ := octaveButtons_props (invBank rd 2)
      { g with
        prevSws := [invBank rd 0, invBank rd 1, invBank rd 2]
        gpio := g.gpio ++ swTrace
        out := g.out ++ [Msg.sw
          (Int.ofNat (if invBank rd 0 &&& 4 ≠ 0 then invBank rd 0 ||| 248 else invBank rd 0))
          (Int.ofNat (if invBank rd 0 &&& 4 ≠ 0 then invBank rd 1 ||| 1 else invBank rd 1))
          (Int.ofNat (invBank rd 2 &&& 63))] }
    rcases q6 with ⟨q1, q2⟩ | q
    · rw [q1, q2]; exact h
    · exact q
  · rw [if_neg hc]
    exact h

theorem runSwitchCycles_led : ∀ (rds : List (Nat → Nat)) (g : Globals), SwInv g →
    g.oct_led = octLedPattern g.octaveShift →
    (runSwitchCycles rds g).oct_led = octLedPattern (runSwitchCycles rds g).octaveShift := by
  intro rds
  induction rds with
  | nil => intro g _ h; exact h
  | cons rd rds ih =>
    intro g hinv h
    rw [runSwitchCycles]
    exact ih _ (switchCycle_step rd g hinv).1 (switchCycle_led rd g hinv.1 h)

/-- C12: after any non-empty sequence of octave-button presses `oct_led` is
the pattern of the resulting shift, so it depends on that shift only; from
the initial state (shift 0, pattern 0x0565) a sequence that brings the shift
back to 0 restores 0x0565.  The same relation holds after every sequence of
switch cycles from the initial state. -/
theorem octLed_restored :
    (∀ (b : Bool) (bs : List Bool) (g : Globals),
        (runPresses (b :: bs) g).oct_led
          = octLedPattern (runPresses (b :: bs) g).octaveShift) ∧
      initGlobals.octaveShift = 0 ∧ initGlobals.oct_led = 0x0565 ∧
      (∀ (b : Bool) (bs : List Bool),
        (runPresses (b :: bs) initGlobals).octaveShift = 0 →
        (runPresses (b :: bs) initGlobals).oct_led = 0x0565) ∧
      (∀ rds : List (Nat → Nat),
        (runSwitchCycles rds initGlobals).oct_led
          = octLedPattern (runSwitchCycles rds initGlobals).octaveShift) := by
  refine ⟨fun b bs g => runPresses_led bs b g, rfl, rfl, ?_, ?_⟩
  · intro b bs h0
    rw [runPresses_led bs b initGlobals, h0]
    decide
  · intro rds
    exact runSwitchCycles_led rds initGlobals (by decide) (by decide)

/-! ## C19: the switch message -/

/-- C19: in a switch cycle with inverted readings `(b0, b1, b2)`, nothing is
sent when every bank equals its previous value; otherwise the trace grows by
exactly one switch message `(e0, e1, b2 & 0x3F)`, followed at most by octave
messages, where `e0 = b0 | 0xF8` and `e1 = b1 | 0x01` if bit 2 of `b0` is set
and `e0 = b0`, `e1 = b1` otherwise; the bank-2 field is below 64 and
`prevSws` afterwards holds the unforced readings. -/
theorem switchCycle_message (rd : Nat → Nat) (g : Globals) (hlen : g.prevSws.length = 3) :
    ([invBank rd 0, invBank rd 1, invBank rd 2] = g.prevSws →
        (switchCycle rd g).out = g.out) ∧
      ([invBank rd 0, invBank rd 1, invBank rd 2] ≠ g.prevSws →
        ∃ octs, (switchCycle rd g).out
            = g.out ++ [Msg.sw
                (Int.ofNat (if invBank rd 0 &&& 4 ≠ 0 then invBank rd 0 ||| 0xF8
                  else invBank rd 0))
                (Int.ofNat (if invBank rd 0 &&& 4 ≠ 0 then invBank rd 1 ||| 0x01
                  else invBank rd 1))
                (Int.ofNat (invBank rd 2 &&& 0x3F))] ++ octs ∧
          ∀ m ∈ octs, ∃ v, m = Msg.oct v) ∧
      invBank rd 2 &&& 0x3F < 64 ∧
      (switchCycle rd g).prevSws = [invBank rd 0, invBank rd 1, invBank rd 2] := by
  obtain ⟨p0, p1, p2, hp⟩ := length_three _ hlen
  rw [switchCycle_eq rd g p0 p1 p2 hp, hp]
  have hiff : ([invBank rd 0, invBank rd 1, invBank rd 2] = [p0, p1, p2]) ↔
      ¬ (invBank rd 0 ≠ p0 ∨ invBank rd 1 ≠ p1 ∨ invBank rd 2 ≠ p2) := by
    simp only [List.cons.injEq, and_true, ne_eq, not_or, not_not]
  obtain ⟨q1, _, _, _, ⟨octs, q5, q5'⟩, _⟩ := octaveButtons_props (invBank rd 2)
    { g with
      prevSws := [invBank rd 0, invBank rd 1, invBank rd 2]
      gpio := g.gpio ++ swTrace
      out := g.out ++ [Msg.sw
        (Int.ofNat (if invBank rd 0 &&& 4 ≠ 0 then invBank rd 0 ||| 248 else invBank rd 0))
        (Int.ofNat (if invBank rd 0 &&& 4 ≠ 0 then invBank rd 1 ||| 1 else invBank rd 1))
        (Int.ofNat (invBank rd 2 &&& 63))] }
  refine ⟨?_, ?_, Nat.lt_succ_of_le Nat.and_le_right, ?_⟩
  · intro he
    rw [if_neg (hiff.mp he)]
  · intro hne
    rw [if_pos (by by_contra hc; exact hne (hiff.mpr hc))]
    exact ⟨octs, q5, q5'⟩
  · by_cases hc : invBank rd 0 ≠ p0 ∨ invBank rd 1 ≠ p1 ∨ invBank rd 2 ≠ p2
    · rw [if_pos hc]; exact q1
    · rw [if_neg hc]

/-- C19 witness: the first cycle from the initial state with every bank read
as 0xFB (only switch 2 of each bank on) sends `(252, 5, 4)`. -/
theorem switchCycle_message_witness :
    initGlobals.prevSws.length = 3 ∧
      invBank (fun _ => 0xFB) 2 &&& 0x3F < 64 ∧
      (switchCycle (fun _ => 0xFB) initGlobals).prevSws
        = [invBank (fun _ => 0xFB) 0, invBank (fun _ => 0xFB) 1, invBank (fun _ => 0xFB) 2] :=
  ⟨rfl, (switchCycle_message (fun _ => 0xFB) initGlobals rfl).2.2.1,
    (switchCycle_message (fun _ => 0xFB) initGlobals rfl).2.2.2⟩

/-! ## C13: the key message after a key event -/

/-- What the keyboard read sends for a note-on or note-off packet, in terms
of the key state after the event: the release message when no key is held
and bit 3 of `switches[1]` is set, nothing when no key is held and the bit is
clear, and the note-on message of the lowest held key, which also becomes
`lastKey`, whenever a key is held. -/
theorem keyboardRead_spec (pkt : List Nat) (s1 : Nat) (g : Globals)
    (hp : pkt.getD 0 0 = 144 ∨ pkt.getD 0 0 = 128) :
    (lowestKey (keyboardRead pkt s1 g).keyBits = 255 → s1 &&& 8 ≠ 0 →
        (keyboardRead pkt s1 g).out = g.out ++ [Msg.key (g.lastKey - 36) 0]) ∧
      (lowestKey (keyboardRead pkt s1 g).keyBits = 255 → s1 &&& 8 = 0 →
        (keyboardRead pkt s1 g).out = g.out) ∧
      (lowestKey (keyboardRead pkt s1 g).keyBits ≠ 255 →
        (keyboardRead pkt s1 g).out
            = g.out ++ [Msg.key (Int.ofNat (lowestKey (keyboardRead pkt s1 g).keyBits) - 36) 1] ∧
          (keyboardRead pkt s1 g).lastKey
            = Int.ofNat (lowestKey (keyboardRead pkt s1 g).keyBits)) := by
  unfold keyboardRead
  simp only [hp, if_true]
  by_cases h144 : pkt.getD 0 0 = 144
  · simp only [h144, if_true]
    split_ifs with h1 h2
    · exact ⟨fun _ _ => rfl, fun _ h8 => absurd h8 h1.2, fun hne => absurd h1.1 hne⟩
    · refine ⟨fun h255 _ => absurd h255 h2, fun h255 _ => absurd h255 h2, fun _ => ⟨rfl, rfl⟩⟩
    · have h255 : lowestKey (g.keyBits.set (pkt.getD 1 0 / 8)
          ((g.keyBits.getD (pkt.getD 1 0 / 8) 0 ||| 1 <<< (pkt.getD 1 0 % 8)) % 256)) = 255 := by
        by_contra hc
        exact h2 hc
      refine ⟨fun _ h8 => absurd ⟨h255, h8⟩ h1, fun _ _ => rfl, fun hne => absurd h255 hne⟩
  · simp only [h144, if_false]
    split_ifs with h1 h2
    · exact ⟨fun _ _ => rfl, fun _ h8 => absurd h8 h1.2, fun hne => absurd h1.1 hne⟩
    · refine ⟨fun h255 _ => absurd h255 h2, fun h255 _ => absurd h255 h2, fun _ => ⟨rfl, rfl⟩⟩
    · have h255 : lowestKey (g.keyBits.set (pkt.getD 1 0 / 8)
          ((g.keyBits.getD (pkt.getD 1 0 / 8) 0 &&& (255 - 1 <<< (pkt.getD 1 0 % 8))) % 256))
            = 255 := by
        by_contra hc
        exact h2 hc
      refine ⟨fun _ h8 => absurd ⟨h255, h8⟩ h1, fun _ _ => rfl, fun hne => absurd h255 hne⟩

set_option maxRecDepth 100000 in
/-- C13 (the code at the failing input): with key 60 held and sounding, a
note-on for key 64 leaves 60 the lowest held key, equal to the previously
sounding note, and the keyboard read sends the note-on message `(24, 1)` a
second time. -/
theorem keyboardRead_resends :
    (keyboardRead [144, 60, 100, 0] 0 initGlobals).out = [Msg.key 24 1] ∧
      (keyboardRead [144, 60, 100, 0] 0 initGlobals).lastKey = 60 ∧
      lowestKey (keyboardRead [144, 64, 100, 0] 0
        (keyboardRead [144, 60, 100, 0] 0 initGlobals)).keyBits = 60 ∧
      (keyboardRead [144, 64, 100, 0] 0 (keyboardRead [144, 60, 100, 0] 0 initGlobals)).out
        = [Msg.key 24 1, Msg.key 24 1] := by
  decide

/-! ## C14: files without the markers -/

/-- An occurrence lies wholly inside the mapping. -/
theorem occursAt_le (mem needle : List Nat) (i : Nat) (hn : 0 < needle.length)
    (h : occursAt mem needle i) :
    i + needle.length ≤ mem.length := by
  unfold occursAt at h
  have hl := congrArg List.length h
  simp only [List.length_take, List.length_drop] at hl
  omega

theorem memmemFrom_null_iff (mem needle : List Nat) : ∀ (c p : Nat),
    memmemFrom mem needle c p = some none ↔
      ∀ i, p ≤ i → i < p + c → i + needle.length ≤ mem.length ∧ ¬ occursAt mem needle i := by
  intro c
  induction c with
  | zero =>
    intro p
    simp only [memmemFrom, true_iff]
    intro i h1 h2
    omega
  | succ c ih =>
    intro p
    rw [memmemFrom]
    by_cases hb : mem.length < p + needle.length
    · rw [if_pos hb]
      simp only [reduceCtorEq, false_iff, not_forall]
      exact ⟨p, le_refl p, by omega, fun hn => by omega⟩
    · rw [if_neg hb]
      by_cases hocc : (mem.drop p).take needle.length = needle
      · rw [if_pos hocc]
        simp only [Option.some.injEq, reduceCtorEq, false_iff, not_forall]
        exact ⟨p, le_refl p, by omega, fun hn => hn.2 hocc⟩
      · rw [if_neg hocc, ih (p + 1)]
        constructor
        · intro h i h1 h2
          by_cases hip : i = p
          · rw [hip]; exact ⟨by omega, hocc⟩
          · exact h i (by omega) (by omega)
        · intro h i h1 h2
          exact h i (by omega) (by omega)

theorem memmemFrom_found_iff (mem needle : List Nat) (hn : 0 < needle.length) :
    ∀ (c p h : Nat),
    memmemFrom mem needle c p = some (some h) ↔
      p ≤ h ∧ h < p + c ∧ occursAt mem needle h ∧
        ∀ i, p ≤ i → i < h → ¬ occursAt mem needle i := by
  intro c
  induction c with
  | zero =>
    intro p h
    simp only [memmemFrom, Option.some.injEq, reduceCtorEq, false_iff]
    intro hh
    omega
  | succ c ih =>
    intro p h
    rw [memmemFrom]
    by_cases hb : mem.length < p + needle.length
    · rw [if_pos hb]
      simp only [reduceCtorEq, false_iff]
      intro hh
      have := occursAt_le mem needle h hn hh.2.2.1
      omega
    · rw [if_neg hb]
      by_cases hocc : (mem.drop p).take needle.length = needle
      · rw [if_pos hocc]
        simp only [Option.some.injEq]
        constructor
        · intro e
          rw [← e]
          exact ⟨le_refl p, by omega, hocc, fun i h1 h2 => by omega⟩
        · intro hh
          by_contra hne
          exact hh.2.2.2 p (le_refl p) (by omega) hocc
      · rw [if_neg hocc, ih (p + 1)]
        constructor
        · intro hh
          refine ⟨by omega, by omega, hh.2.2.1, fun i h1 h2 => ?_⟩
          by_cases hip : i = p
          · rw [hip]; exact hocc
          · exact hh.2.2.2 i (by omega) h2
        · intro hh
          have hne : h ≠ p := fun e => hocc (e ▸ hh.2.2.1)
          exact ⟨by omega, by omega, hh.2.2.1, fun i h1 h2 => hh.2.2.2 i (by omega) h2⟩

/-- `memmem` returns `NULL` exactly when the window is shorter than the
needle, or lies inside the mapping and the needle stands nowhere wholly
inside it. -/
theorem memmem_null_iff (mem needle : List Nat) (start len : Nat) :
    memmem mem start len needle = some none ↔
      len < needle.length ∨
        (start + len ≤ mem.length ∧
          ∀ i, start ≤ i → i + needle.length ≤ start + len → ¬ occursAt mem needle i) := by
  unfold memmem
  by_cases hl : len < needle.length
  · rw [if_pos hl]
    simp only [true_iff]
    exact Or.inl hl
  · rw [if_neg hl, memmemFrom_null_iff]
    constructor
    · intro h
      refine Or.inr ⟨?_, fun i h1 h2 => (h i h1 (by omega)).2⟩
      have := (h (start + len - needle.length) (by omega) (by omega)).1
      omega
    · intro h i h1 h2
      rcases h with h | h
      · exact absurd h hl
      · exact ⟨by omega, h.2 i h1 (by omega)⟩

/-- `memmem` returns the first offset at which the needle stands wholly
inside the window. -/
theorem memmem_found_iff (mem needle : List Nat) (hn : 0 < needle.length)
    (start len h : Nat) :
    memmem mem start len needle = some (some h) ↔
      start ≤ h ∧ h + needle.length ≤ start + len ∧ occursAt mem needle h ∧
        ∀ i, start ≤ i → i < h → ¬ occursAt mem needle i := by
  unfold memmem
  by_cases hl : len < needle.length
  · rw [if_pos hl]
    simp only [Option.some.injEq, reduceCtorEq, false_iff]
    intro hh
    omega
  · rw [if_neg hl, memmemFrom_found_iff mem needle hn]
    constructor
    · intro hh
      exact ⟨hh.1, by omega, hh.2.2⟩
    · intro hh
      exact ⟨hh.1, by omega, hh.2.2⟩

/-- A search whose window leaves the mapping and that meets no occurrence
reads outside the mapping. -/
theorem memmem_overrun (mem needle : List Nat) (hn : 0 < needle.length) (start len : Nat)
    (hl : needle.length ≤ len) (ho : mem.length < start + len)
    (hno : ∀ i, start ≤ i → ¬ occursAt mem needle i) :
    memmem mem start len needle = none := by
  cases hm : memmem mem start len needle with
  | none => rfl
  | some r =>
    cases r with
    | none =>
      rcases (memmem_null_iff mem needle start len).mp hm with h | h
      · omega
      · omega
    | some h =>
      have hh := (memmem_found_iff mem needle hn start len h).mp hm
      exact absurd hh.2.2.1 (hno h hh.1)

theorem trackWindow_eq (fileSize : Nat) (h1 : 20 ≤ fileSize) (h2 : fileSize < 2 ^ 32) :
    trackWindow fileSize = fileSize - 20 := by
  unfold trackWindow ofInt32
  have h3 : ((fileSize : Int) - 20) % 2 ^ 32 = (fileSize : Int) - 20 :=
    Int.emod_eq_of_lt (by omega) (by omega)
  rw [h3]
  omega

theorem findTrack_eq_none_iff (mem : List Nat) (fileSize from_ : Nat) :
    findTrack mem fileSize from_ = none ↔
      trackWindow fileSize < 4 ∨
        (from_ + trackWindow fileSize ≤ mem.length ∧
          ∀ i, from_ ≤ i → i + 4 ≤ from_ + trackWindow fileSize → ¬ occursAt mem MTrk i) := by
  have hl : MTrk.length = 4 := rfl
  rw [← hl, ← memmem_null_iff]
  unfold findTrack
  cases memmem mem from_ (trackWindow fileSize) MTrk with
  | none => simp
  | some a =>
    cases a with
    | none => simp
    | some at_ =>
      simp only [Option.some.injEq, reduceCtorEq, iff_false]
      split_ifs <;> simp

theorem playMidiFile_of_setup_none (mem : List Nat) (fileSize now : Nat) (w0 : Int)
    (g g' : Globals) (h : playSetup mem fileSize now w0 g = Outcome.done (none, g')) (fuel : Nat) :
    playMidiFile mem fileSize now w0 fuel g = Outcome.done (some (-1), g', []) := by
  rw [playMidiFile, h]

theorem header_reads (mem : List Nat) (h : Nat) (hh : h + 13 < mem.length) :
    ∃ a b hi lo, mem[h + 9]? = some a ∧ mem[h + 11]? = some b ∧ mem[h + 12]? = some hi ∧
      mem[h + 13]? = some lo :=
  ⟨_, _, _, _, List.getElem?_eq_getElem (by omega), List.getElem?_eq_getElem (by omega),
    List.getElem?_eq_getElem (by omega), List.getElem?_eq_getElem hh⟩

set_option maxRecDepth 100000 in
/-- The same 46-byte file in a mapping that ends with the file: the window of
the second search, the 26 bytes from offset 23, runs 3 bytes past the mapping,
no marker stands before its end, and the search reads outside the mapping. -/
theorem playMidiFile_overrun_example :
    (exHeader ++ exTrackA ++ List.replicate 20 0).length = 46 ∧
      findTrack (exHeader ++ exTrackA ++ List.replicate 20 0) 46 0 = some (some (0, 23)) ∧
      memmem (exHeader ++ exTrackA ++ List.replicate 20 0) 23 (trackWindow 46) MTrk = none ∧
      findTrack (exHeader ++ exTrackA ++ List.replicate 20 0) 46 23 = some none ∧
      playMidiFile (exHeader ++ exTrackA ++ List.replicate 20 0) 46 0 0 5 initGlobals
        = Outcome.fault := by
  refine ⟨by decide, by decide, by decide, by decide, by decide⟩

/-! ## C15: note-on and note-off events -/

theorem status_ne_ff (s x : Nat) (hc : s &&& 0xf0 = x) (hx : x ≠ 0xf0) : s ≠ 0xff := by
  intro h
  rw [h] at hc
  exact hx (by rw [← hc]; decide)

theorem playSetup_octaveOffset (mem : List Nat) (fileSize now : Nat) (w0 : Int)
    (g0 : Globals) (p : Player) (gs : Globals)
    (h : playSetup mem fileSize now w0 g0 = Outcome.done (some p, gs)) :
    p.g.octaveOffset = 36 + g0.octaveShift ∧ p.g.octaveShift = g0.octaveShift ∧
      p.g.qtrMicros = 500000 ∧ p.g.out = g0.out := by
  unfold playSetup at h
  simp only at h
  repeat' (split at h)
  all_goals (try simp only [Outcome.done.injEq, Prod.mk.injEq, reduceCtorEq, false_and] at h)
  obtain ⟨hp, _⟩ := h
  simp only [Option.some.injEq] at hp
  rw [← hp]
  exact ⟨rfl, rfl, rfl, rfl⟩

/-- C15: a note-on event (status 0x9_) with note byte `n` sends the key
message `((n & 0x7F) - octaveOffset, 1)`; a note-off event (status 0x8_)
sends `((n & 0x7F) - octaveOffset, 0)` if `claquement` is non-zero and
nothing if it is zero; in each case nothing else changes and the pointer
advances by 3 bytes.  `octaveOffset` is `36 + octaveShift` on entry to the
scheduling loop. -/
theorem parseEvent_note (mem : List Nat) (pos s n : Nat) (g : Globals)
    (hs : mem[pos]? = some s) (hn : mem[pos + 1]? = some n) :
    (s &&& 0xf0 = 0x90 →
        parseEvent mem pos g = some (pos + 3,
          { g with out := g.out ++ [Msg.key (Int.ofNat (n &&& 0x7F) - g.octaveOffset) 1] })) ∧
      (s &&& 0xf0 = 0x80 → g.claquement ≠ 0 →
        parseEvent mem pos g = some (pos + 3,
          { g with out := g.out ++ [Msg.key (Int.ofNat (n &&& 0x7F) - g.octaveOffset) 0] })) ∧
      (s &&& 0xf0 = 0x80 → g.claquement = 0 → parseEvent mem pos g = some (pos + 3, g)) ∧
      (∀ (fileSize now : Nat) (w0 : Int) (g0 : Globals) (p : Player) (gs : Globals),
        playSetup mem fileSize now w0 g0 = Outcome.done (some p, gs) →
        p.g.octaveOffset = 36 + g0.octaveShift) := by
  refine ⟨?_, ?_, ?_, ?_⟩
  · intro hc
    have hne := status_ne_ff s _ hc (by decide)
    rw [parseEvent, hs]
    simp [hne, hc, hn]
  · intro hc hcl
    have hne := status_ne_ff s _ hc (by decide)
    rw [parseEvent, hs]
    simp [hne, hc, hn, hcl]
  · intro hc hcl
    have hne := status_ne_ff s _ hc (by decide)
    rw [parseEvent, hs]
    simp [hne, hc, hcl]
  · intro fileSize now w0 g0 p gs h
    exact (playSetup_octaveOffset mem fileSize now w0 g0 p gs h).1

/-- C15 witness: the note-on `90 3C 64` with `octaveOffset = 36` sends
`(24, 1)`. -/
theorem parseEvent_note_witness :
    ([0x90, 0x3C, 0x64] : List Nat)[0]? = some 0x90 ∧
      ([0x90, 0x3C, 0x64] : List Nat)[0 + 1]? = some 0x3C ∧
      (0x90 &&& 0xf0 = 0x90 →
        parseEvent [0x90, 0x3C, 0x64] 0 { initGlobals with octaveOffset := 36 } = some (0 + 3,
          { { initGlobals with octaveOffset := 36 } with
            out := ({ initGlobals with octaveOffset := 36 } : Globals).out ++
              [Msg.key (Int.ofNat (0x3C &&& 0x7F)
                - ({ initGlobals with octaveOffset := 36 } : Globals).octaveOffset) 1] })) :=
  ⟨rfl, rfl,
    (parseEvent_note [0x90, 0x3C, 0x64] 0 0x90 0x3C { initGlobals with octaveOffset := 36 }
      rfl rfl).1⟩

/-! ## C16: the tempo -/

theorem shl8_or (a b : Nat) (hb : b < 256) : (a <<< 8) ||| b = a * 256 + b := by
  have h := Nat.mul_add_lt_is_or (show b < 2 ^ 8 by norm_num; exact hb) a
  rw [Nat.shiftLeft_eq, Nat.mul_comm a (2 ^ 8)]
  rw [← h]

theorem tempoValue_eq (aa bb cc : Nat) (ha : aa < 256) (hb : bb < 256) (hc : cc < 256) :
    tempoValue aa bb cc = aa * 65536 + bb * 256 + cc := by
  unfold tempoValue
  simp only [Nat.zero_shiftLeft, Nat.zero_mod, Nat.zero_or]
  have h1 : (aa <<< 8) % 2 ^ 32 = aa <<< 8 := by
    rw [Nat.shiftLeft_eq]; exact Nat.mod_eq_of_lt (by omega)
  rw [h1, shl8_or aa bb hb]
  have h2 : ((aa * 256 + bb) <<< 8) % 2 ^ 32 = (aa * 256 + bb) <<< 8 := by
    rw [Nat.shiftLeft_eq]; exact Nat.mod_eq_of_lt (by omega)
  rw [h2, shl8_or _ cc hc]
  ring

theorem controlChange_frame (mem : List Nat) (pos ctl : Nat) (g g1 : Globals)
    (h : controlChange mem pos ctl g = some g1) :
    g1.qtrMicros = g.qtrMicros ∧ g1.octaveOffset = g.octaveOffset ∧
      g1.octaveShift = g.octaveShift ∧ g1.eoTrk = g.eoTrk := by
  unfold controlChange at h
  split_ifs at h <;> (try split at h) <;>
    first
      | (simp only [Option.some.injEq] at h; rw [← h]; exact ⟨rfl, rfl, rfl, rfl⟩)
      | simp at h

/-- `parseEvent` changes `qtrMicros` at a set-tempo event only, and never
`octaveOffset` or `octaveShift`. -/
theorem parseEvent_frame (mem : List Nat) (pos pos1 : Nat) (g g1 : Globals)
    (h : parseEvent mem pos g = some (pos1, g1)) :
    (¬ (mem[pos]? = some 0xff ∧ mem[pos + 1]? = some 0x51) → g1.qtrMicros = g.qtrMicros) ∧
      g1.octaveOffset = g.octaveOffset ∧ g1.octaveShift = g.octaveShift := by
  unfold parseEvent at h
  split at h
  · simp at h
  · rename_i b0 hb0
    repeat' (split at h)
    all_goals (try simp only [Option.some.injEq, Prod.mk.injEq, reduceCtorEq] at h)
    all_goals first
      | (obtain ⟨_, rfl⟩ := h; exact ⟨fun _ => rfl, rfl, rfl⟩)
      | (obtain ⟨_, rfl⟩ := h
         refine ⟨fun hne => ?_, rfl, rfl⟩
         exfalso
         apply hne
         subst_vars
         exact ⟨hb0, by assumption⟩)
      | (obtain ⟨_, rfl⟩ := h
         have hf := controlChange_frame _ _ _ _ _ (by assumption)
         exact ⟨fun _ => hf.1, hf.2.1, hf.2.2.1⟩)

theorem playSetup_qtrMicros (mem : List Nat) (fileSize now : Nat) (w0 : Int) (g : Globals)
    (r : Option Player) (g1 : Globals)
    (h : playSetup mem fileSize now w0 g = Outcome.done (r, g1)) :
    g1.qtrMicros = 500000 ∧ ∀ p, r = some p → p.g.qtrMicros = 500000 := by
  unfold playSetup at h
  simp only at h
  repeat' (split at h)
  all_goals (try simp only [Outcome.done.injEq, Prod.mk.injEq, reduceCtorEq] at h)
  all_goals
    (obtain ⟨rfl, rfl⟩ := h
     refine ⟨rfl, fun p hp => ?_⟩
     cases hp <;> rfl)

/-- C16: every playback starts with `qtrMicros = 500000`; a set-tempo meta
event `FF 51 len aa bb cc` (with `len = 03` in a well-formed file) sets it to
`aa * 65536 + bb * 256 + cc`, the three bytes after the length byte read
big-endian, and advances the pointer by 6 bytes; an event that does not start
with `FF 51` leaves `qtrMicros` as it is. -/
theorem qtrMicros_tempo_only (mem : List Nat) (pos : Nat) (g : Globals) :
    (∀ len aa bb cc, mem[pos]? = some 0xFF → mem[pos + 1]? = some 0x51 →
        mem[pos + 2]? = some len → mem[pos + 3]? = some aa → mem[pos + 4]? = some bb →
        mem[pos + 5]? = some cc → aa < 256 → bb < 256 → cc < 256 →
        parseEvent mem pos g
          = some (pos + 6, { g with qtrMicros := aa * 65536 + bb * 256 + cc })) ∧
      (∀ pos1 g1, parseEvent mem pos g = some (pos1, g1) →
        ¬ (mem[pos]? = some 0xFF ∧ mem[pos + 1]? = some 0x51) →
        g1.qtrMicros = g.qtrMicros) ∧
      (∀ (fileSize now : Nat) (w0 : Int) (r : Option Player) (g1 : Globals),
        playSetup mem fileSize now w0 g = Outcome.done (r, g1) →
        g1.qtrMicros = 500000 ∧ ∀ p, r = some p → p.g.qtrMicros = 500000) := by
  refine ⟨?_, ?_, ?_⟩
  · intro len aa bb cc h0 h1 _ h3 h4 h5 ha hb hc
    rw [parseEvent, h0]
    simp [h1, h3, h4, h5, tempoValue_eq aa bb cc ha hb hc]
  · intro pos1 g1 h hne
    exact (parseEvent_frame mem pos pos1 g g1 h).1 hne
  · intro fileSize now w0 r g1 h
    exact playSetup_qtrMicros mem fileSize now w0 g r g1 h

/-! ## C17: the expression controller -/

set_option maxRecDepth 100000 in
/-- C17 (counterexample): the control change `B0 0B 7F` (expression, value
127) sets analogue channel 6 to 328, not to 992. -/
theorem expression_counterexample :
    (parseEvent [0xB0, 0x0B, 0x7F] 0 initGlobals).map (fun r => r.2.analogueVal.getD 6 0)
        = some 328 ∧
      (parseEvent [0xB0, 0x0B, 0x7F] 0 initGlobals).map (fun r => r.2.analogueVal.getD 6 0)
        ≠ some 992 := by
  decide

theorem and_7f_of_le (v : Nat) (hv : v ≤ 127) : v &&& 0x7f = v := by
  have h : ∀ x : Fin 128, x.val &&& 0x7f = x.val := by decide
  exact h ⟨v, by omega⟩

/-- C17 (amended): a control change with controller 0x0B and value `v` in
0..127 sets analogue channel 6 to `v * 992 / 383` (integer division), which is
0 for `v = 0`, 328 for `v = 127` and monotone non-decreasing in `v`; one
analogue snapshot message with the new values is then sent and the pointer
advances by 3 bytes. -/
theorem parseEvent_expression (mem : List Nat) (pos s v : Nat) (g : Globals)
    (hs : mem[pos]? = some s) (hc : s &&& 0xf0 = 0xB0) (h1 : mem[pos + 1]? = some 0x0B)
    (h2 : mem[pos + 2]? = some v) (hv : v ≤ 127) (hlen : g.analogueVal.length = 8) :
    parseEvent mem pos g = some (pos + 3,
        { g with
          analogueVal := g.analogueVal.set 6 (Int.ofNat (v * 992 / 383))
          out := g.out ++ [Msg.anlg (g.analogueVal.set 6 (Int.ofNat (v * 992 / 383)))] }) ∧
      (g.analogueVal.set 6 (Int.ofNat (v * 992 / 383))).getD 6 0 = Int.ofNat (v * 992 / 383) ∧
      (∀ w, v ≤ w → v * 992 / 383 ≤ w * 992 / 383) ∧
      v * 992 / 383 ≤ 328 ∧ 0 * 992 / 383 = 0 ∧ 127 * 992 / 383 = 328 := by
  have hne := status_ne_ff s _ hc (by decide)
  refine ⟨?_, ?_, ?_, by omega, by decide, by decide⟩
  · rw [parseEvent, hs]
    simp [hne, hc, h1, controlChange, h2, and_7f_of_le v hv]
  · rw [getD_set_int _ _ _ _ (by omega), if_pos rfl]
  · intro w hw
    exact Nat.div_le_div_right (Nat.mul_le_mul_right 992 hw)

/-- C17 witness: the event `B0 0B 40` on the initial state. -/
theorem parseEvent_expression_witness :
    ([0xB0, 0x0B, 0x40] : List Nat)[0]? = some 0xB0 ∧ (0xB0 : Nat) &&& 0xf0 = 0xB0 ∧
      ([0xB0, 0x0B, 0x40] : List Nat)[0 + 1]? = some 0x0B ∧
      ([0xB0, 0x0B, 0x40] : List Nat)[0 + 2]? = some 0x40 ∧ (0x40 : Nat) ≤ 127 ∧
      initGlobals.analogueVal.length = 8 ∧
      (initGlobals.analogueVal.set 6 (Int.ofNat (0x40 * 992 / 383))).getD 6 0
        = Int.ofNat (0x40 * 992 / 383) :=
  ⟨rfl, by decide, rfl, rfl, by decide, rfl,
    (parseEvent_expression [0xB0, 0x0B, 0x40] 0 0xB0 0x40 initGlobals rfl (by decide) rfl rfl
      (by decide) rfl).2.1⟩

/-! ## C18: pitch change -/

set_option maxRecDepth 100000 in
/-- C18 (counterexample): in keyboard mode the centred pitch change
`E0 00 40` (value 8192) sends the vibrato value -1, not 0. -/
theorem pitch_counterexample :
    initGlobals.ruban = 0 ∧
      ((0x40 &&& 0x7F) <<< 7 ||| (0x00 &&& 0x7F) : Nat) = 8192 ∧
      (parseEvent [0xE0, 0x00, 0x40] 0 initGlobals).map (fun r => r.2.out)
        = some [Msg.vib (-1)] ∧
      (parseEvent [0xE0, 0x00, 0x40] 0 initGlobals).map (fun r => r.2.out)
        ≠ some [Msg.vib 0] := by
  decide

/-- C18 (amended): a pitch-change event (status 0xE_) with data bytes
`(lsb, msb)` uses the value `((msb & 0x7F) << 7) | (lsb & 0x7F)`, which lies in
0..16383; in keyboard mode (`ruban = 0`) it sends the vibrato value
`value - 8193`, so the centred value 8192 sends -1 (what the accelerometer
gives at rest); in ruban mode it sends the ribbon message of the value; the
pointer advances by 3 bytes. -/
theorem parseEvent_pitch (mem : List Nat) (pos s lsb msb : Nat) (g : Globals)
    (hs : mem[pos]? = some s) (hc : s &&& 0xf0 = 0xE0) (h1 : mem[pos + 1]? = some lsb)
    (h2 : mem[pos + 2]? = some msb) :
    ((msb &&& 0x7F) <<< 7 ||| (lsb &&& 0x7F)) ≤ 16383 ∧
      (g.ruban = 0 →
        parseEvent mem pos g = some (pos + 3,
          { g with out := g.out ++
              [Msg.vib (Int.ofNat ((msb &&& 0x7F) <<< 7 ||| (lsb &&& 0x7F)) - 8193)] })) ∧
      (g.ruban ≠ 0 →
        parseEvent mem pos g = some (pos + 3,
          { g with out := g.out ++
              [Msg.midiRbn (Int.ofNat ((msb &&& 0x7F) <<< 7 ||| (lsb &&& 0x7F)))
                g.octaveShift] })) ∧
      (Int.ofNat 8192 - 8193 : Int) = -1 := by
  have hne := status_ne_ff s _ hc (by decide)
  refine ⟨?_, ?_, ?_, by decide⟩
  · have hm : msb &&& 0x7F ≤ 0x7F := Nat.and_le_right
    have hl : lsb &&& 0x7F ≤ 0x7F := Nat.and_le_right
    have h14 : (msb &&& 0x7F) <<< 7 ||| (lsb &&& 0x7F) < 2 ^ 14 := by
      apply Nat.or_lt_two_pow
      · rw [Nat.shiftLeft_eq]; omega
      · omega
    omega
  · intro hr
    rw [parseEvent, hs]
    simp [hne, hc, h1, h2, hr]
  · intro hr
    rw [parseEvent, hs]
    simp [hne, hc, h1, h2, hr]

/-- C18 witness: the event `E0 00 40` on the initial state. -/
theorem parseEvent_pitch_witness :
    ([0xE0, 0x00, 0x40] : List Nat)[0]? = some 0xE0 ∧ (0xE0 : Nat) &&& 0xf0 = 0xE0 ∧
      ([0xE0, 0x00, 0x40] : List Nat)[0 + 1]? = some 0x00 ∧
      ([0xE0, 0x00, 0x40] : List Nat)[0 + 2]? = some 0x40 ∧
      ((0x40 &&& 0x7F) <<< 7 ||| (0x00 &&& 0x7F) : Nat) ≤ 16383 :=
  ⟨rfl, by decide, rfl, rfl,
    (parseEvent_pitch [0xE0, 0x00, 0x40] 0 0xE0 0x00 0x40 initGlobals rfl (by decide) rfl rfl).1⟩

/-! ## C20: the ADC transaction -/

theorem and3_low (r1 r1' : Nat) (h : r1' &&& 3 = r1 &&& 3) (h1 : r1 < 256) (h1' : r1' < 256) :
    (r1' % 256) &&& 3 = (r1 % 256) &&& 3 := by
  rw [Nat.mod_eq_of_lt h1, Nat.mod_eq_of_lt h1', h]

/-- C20: for every channel `c` in 0..7 `read_mcp3008` transmits the frame
`{0x01, 0x80 | (c << 4), 0x00}`, and for every reply of three bytes it returns
`((r[1] & 3) << 8) | r[2]`, a value in 0..1023 that does not depend on reply
byte 0 nor on the upper six bits of reply byte 1. -/
theorem read_mcp3008_frame_value (c r0 r1 r2 : Nat) (hc : c < 8) (h1 : r1 < 256)
    (h2 : r2 < 256) :
    (mcp3008Transfer c (some [r0, r1, r2])).1 = [0x01, 0x80 ||| (c <<< 4), 0x00] ∧
      (mcp3008Transfer c none).1 = [0x01, 0x80 ||| (c <<< 4), 0x00] ∧
      (mcp3008Transfer c (some [r0, r1, r2])).2 = Int.ofNat (((r1 &&& 3) <<< 8) ||| r2) ∧
      ((r1 &&& 3) <<< 8) ||| r2 ≤ 1023 ∧
      (∀ r0' r1', r1' < 256 → r1' &&& 3 = r1 &&& 3 →
        (mcp3008Transfer c (some [r0', r1', r2])).2
          = (mcp3008Transfer c (some [r0, r1, r2])).2) := by
  have hframe : mcp3008Request c = [0x01, 0x80 ||| (c <<< 4), 0x00] := by
    unfold mcp3008Request
    interval_cases c <;> decide
  have h3 : r1 &&& 3 ≤ 3 := Nat.and_le_right
  have hval : read_mcp3008 [r0, r1, r2] = Int.ofNat (((r1 &&& 3) <<< 8) ||| r2) := by
    unfold read_mcp3008
    simp only [List.getD_cons_zero, List.getD_cons_succ]
    rw [Nat.mod_eq_of_lt h1, Nat.mod_eq_of_lt h2, shl8_or _ r2 h2, Nat.shiftLeft_eq]
    rfl
  refine ⟨hframe, hframe, hval, ?_, ?_⟩
  · rw [shl8_or _ r2 h2]
    omega
  · intro r0' r1' h1' he
    show read_mcp3008 [r0', r1', r2] = read_mcp3008 [r0, r1, r2]
    unfold read_mcp3008
    simp only [List.getD_cons_zero, List.getD_cons_succ]
    rw [and3_low r1 r1' he h1 h1']

/-- C20 witness: channel 5 with the reply `00 02 9A` gives 0x29A = 666. -/
theorem read_mcp3008_frame_value_witness :
    (5 : Nat) < 8 ∧ (0x02 : Nat) < 256 ∧ (0x9A : Nat) < 256 ∧
      (mcp3008Transfer 5 (some [0x00, 0x02, 0x9A])).1 = [0x01, 0x80 ||| (5 <<< 4), 0x00] ∧
      (mcp3008Transfer 5 (some [0x00, 0x02, 0x9A])).2
        = Int.ofNat (((0x02 &&& 3) <<< 8) ||| 0x9A) :=
  ⟨by decide, by decide, by decide,
    (read_mcp3008_frame_value 5 0x00 0x02 0x9A (by decide) (by decide) (by decide)).1,
    (read_mcp3008_frame_value 5 0x00 0x02 0x9A (by decide) (by decide) (by decide)).2.2.1⟩

/-! ## C21: the control byte of the port expander -/

set_option maxRecDepth 100000 in
theorem hw_field (hw : Nat) (h : hw < 256) :
    (((hw % 256) <<< 1) &&& 0xE) % 256 = (hw <<< 1) &&& 0x0E ∧ (hw <<< 1) &&& 0x0E < 15 := by
  have key : ∀ x : Fin 256,
      (((x.val % 256) <<< 1) &&& 0xE) % 256 = (x.val <<< 1) &&& 0x0E ∧
        (x.val <<< 1) &&& 0x0E < 15 := by decide
  exact key ⟨hw, h⟩

set_option maxRecDepth 100000 in
theorem rw_field (rw : Nat) (h : rw < 256) :
    (rw % 256) &&& 1 = rw &&& 1 ∧ rw &&& 1 < 2 := by
  have key : ∀ x : Fin 256, (x.val % 256) &&& 1 = x.val &&& 1 ∧ x.val &&& 1 < 2 := by decide
  exact key ⟨rw, h⟩

theorem control_fields (a b : Nat) (ha : a < 15) (hb : b < 2) :
    (0x40 ||| a ||| b) % 256 = 0x40 ||| a ||| b ∧ 0x40 ≤ (0x40 ||| a ||| b) ∧
      (0x40 ||| a ||| b) ≤ 0x4F ∧ ((0x40 ||| a ||| b) &&& 1 = 1 ↔ (a ||| b) &&& 1 = 1) := by
  have key : ∀ x : Fin 15, ∀ y : Fin 2,
      (0x40 ||| x.val ||| y.val) % 256 = 0x40 ||| x.val ||| y.val ∧
        0x40 ≤ (0x40 ||| x.val ||| y.val) ∧ (0x40 ||| x.val ||| y.val) ≤ 0x4F ∧
        ((0x40 ||| x.val ||| y.val) &&& 1 = 1 ↔ (x.val ||| y.val) &&& 1 = 1) := by decide
  exact key ⟨a, ha⟩ ⟨b, hb⟩

theorem get_spi_control_byte_eq (rw hw : Nat) (hrw : rw < 256) (hhw : hw < 256) :
    get_spi_control_byte rw hw = 0x40 ||| ((hw <<< 1) &&& 0x0E) ||| (rw &&& 1) := by
  unfold get_spi_control_byte
  simp only
  rw [(hw_field hw hhw).1, (rw_field rw hrw).1]
  exact (control_fields _ _ (hw_field hw hhw).2 (rw_field rw hrw).2).1

set_option maxRecDepth 100000 in
theorem control_byte_rw_bit (hw : Nat) (hhw : hw < 256) :
    get_spi_control_byte READ_CMD hw &&& 1 = 1 ∧ get_spi_control_byte WRITE_CMD hw &&& 1 = 0 := by
  have key : ∀ x : Fin 256,
      get_spi_control_byte READ_CMD x.val &&& 1 = 1 ∧
        get_spi_control_byte WRITE_CMD x.val &&& 1 = 0 := by decide
  exact key ⟨hw, hhw⟩

/-- C21: for bytes `rw` and `hw`, `get_spi_control_byte` returns
`0x40 | ((hw << 1) & 0x0E) | (rw & 1)`, a value in `0x40 .. 0x4F`; the frame
of a register read is `{control, register, 0}` with the read/write bit of the
control byte 1, the frame of a register write is `{control, register, data}`
with that bit 0. -/
theorem get_spi_control_byte_spec (rw hw reg data : Nat) (reply : Option (List Nat))
    (hrw : rw < 256) (hhw : hw < 256) (hreg : reg < 256) (hdata : data < 256) :
    get_spi_control_byte rw hw = 0x40 ||| ((hw <<< 1) &&& 0x0E) ||| (rw &&& 1) ∧
      0x40 ≤ get_spi_control_byte rw hw ∧ get_spi_control_byte rw hw ≤ 0x4F ∧
      (mcp23s08_read_reg reg hw reply).1 = [get_spi_control_byte READ_CMD hw, reg, 0] ∧
      get_spi_control_byte READ_CMD hw &&& 1 = 1 ∧
      mcp23s08_write_reg data reg hw = [get_spi_control_byte WRITE_CMD hw, reg, data] ∧
      get_spi_control_byte WRITE_CMD hw &&& 1 = 0 := by
  have h := control_fields _ _ (hw_field hw hhw).2 (rw_field rw hrw).2
  refine ⟨get_spi_control_byte_eq rw hw hrw hhw, ?_, ?_, ?_, (control_byte_rw_bit hw hhw).1, ?_,
    (control_byte_rw_bit hw hhw).2⟩
  · rw [get_spi_control_byte_eq rw hw hrw hhw]; exact h.2.1
  · rw [get_spi_control_byte_eq rw hw hrw hhw]; exact h.2.2.1
  · cases reply <;> simp [mcp23s08_read_reg, Nat.mod_eq_of_lt hreg]
  · simp [mcp23s08_write_reg, Nat.mod_eq_of_lt hreg, Nat.mod_eq_of_lt hdata]

/-- C21 witness: reading the port register of the device at hardware address
0 sends `{0x41, 0x09, 0}`; writing 0xFF to it sends `{0x40, 0x09, 0xFF}`. -/
theorem get_spi_control_byte_spec_witness :
    get_spi_control_byte 1 0 = 0x41 ∧
      (mcp23s08_read_reg GPIO 0 none).1 = [0x41, 0x09, 0] ∧
      mcp23s08_write_reg 0xFF GPIO 0 = [0x40, 0x09, 0xFF] := by
  have h := get_spi_control_byte_spec 1 0 GPIO 0xFF none (by decide) (by decide) (by decide)
    (by decide)
  exact ⟨h.1, h.2.2.2.1, h.2.2.2.2.2.1⟩

/-! ## C22: a failed read of the port expander -/

theorem switchCycle_out (rd : Nat → Nat) (g : Globals) (hlen : g.prevSws.length = 3) :
    ((switchCycle rd g).out = g.out ↔
        [invBank rd 0, invBank rd 1, invBank rd 2] = g.prevSws) ∧
      (switchCycle rd g).prevSws = [invBank rd 0, invBank rd 1, invBank rd 2] := by
  obtain ⟨p0, p1, p2, hp⟩ := length_three _ hlen
  rw [switchCycle_eq rd g p0 p1 p2 hp, hp]
  have hiff : ([invBank rd 0, invBank rd 1, invBank rd 2] = [p0, p1, p2]) ↔
      ¬ (invBank rd 0 ≠ p0 ∨ invBank rd 1 ≠ p1 ∨ invBank rd 2 ≠ p2) := by
    simp only [List.cons.injEq, and_true, ne_eq, not_or, not_not]
  obtain ⟨q1, _, _, _, ⟨octs, q5, _⟩, _⟩ := octaveButtons_props (invBank rd 2)
    { g with
      prevSws := [invBank rd 0, invBank rd 1, invBank rd 2]
      gpio := g.gpio ++ swTrace
      out := g.out ++ [Msg.sw
        (Int.ofNat (if invBank rd 0 &&& 4 ≠ 0 then invBank rd 0 ||| 248 else invBank rd 0))
        (Int.ofNat (if invBank rd 0 &&& 4 ≠ 0 then invBank rd 1 ||| 1 else invBank rd 1))
        (Int.ofNat (invBank rd 2 &&& 63))] }
  by_cases hc : invBank rd 0 ≠ p0 ∨ invBank rd 1 ≠ p1 ∨ invBank rd 2 ≠ p2
  · rw [if_pos hc]
    refine ⟨⟨fun h => ?_, fun h => absurd hc (hiff.mp h)⟩, q1⟩
    rw [q5] at h
    have hl := congrArg List.length h
    simp only [List.length_append, List.length_cons, List.length_nil] at hl
    omega
  · rw [if_neg hc]
    exact ⟨⟨fun _ => hiff.mpr hc, fun _ => rfl⟩, rfl⟩

/-- C22 (as the code has it): when the transaction of bank `i` fails,
`mcp23s08_read_reg` returns 0xFF, the value of `return -1` in `uint8_t`, and
the switch cycle sees the bank as 0x00 after the inversion: all its switches
read as off.  With the other two banks read as before, the cycle sends no
switch message exactly when the previous value of bank `i` was 0x00. -/
theorem failed_read_all_off (replies : Nat → Option (List Nat)) (g : Globals) (i : Nat)
    (hlen : g.prevSws.length = 3) (hi : i < 3) (hfail : replies i = none)
    (hother : ∀ j, j < 3 → j ≠ i → invBank (bankReads replies) j = g.prevSws.getD j 0) :
    (mcp23s08_read_reg GPIO 0 (replies i)).2 = 0xFF ∧
      invBank (bankReads replies) i = 0 ∧
      (switchCycle (bankReads replies) g).prevSws.getD i 0 = 0 ∧
      ((switchCycle (bankReads replies) g).out = g.out ↔ g.prevSws.getD i 0 = 0) := by
  have hrd : (mcp23s08_read_reg GPIO 0 (replies i)).2 = 0xFF := by
    rw [hfail]; rfl
  have hinv : invBank (bankReads replies) i = 0 := by
    unfold invBank bankReads
    rw [hrd]
  obtain ⟨hout, hprev⟩ := switchCycle_out (bankReads replies) g hlen
  obtain ⟨p0, p1, p2, hp⟩ := length_three _ hlen
  refine ⟨hrd, hinv, ?_, ?_⟩
  · rw [hprev]
    interval_cases i <;> simpa using hinv
  · rw [hout, hp]
    rw [hp] at hother
    have h0 := hother 0 (by omega)
    have h1 := hother 1 (by omega)
    have h2 := hother 2 (by omega)
    interval_cases i
    · rw [hinv, h1 (by omega), h2 (by omega)]; simp [eq_comm]
    · rw [hinv, h0 (by omega), h2 (by omega)]; simp [eq_comm]
    · rw [hinv, h0 (by omega), h1 (by omega)]; simp [eq_comm]

/-- C22 witness: bank 0 fails in the initial state, banks 1 and 2 read 0xFF. -/
theorem failed_read_all_off_witness :
    (mcp23s08_read_reg GPIO 0 none).2 = 0xFF ∧
      (switchCycle (bankReads (fun j => if j = 0 then none else some [0, 0, 0xFF]))
        initGlobals).out = initGlobals.out := by
  have h := failed_read_all_off (fun j => if j = 0 then none else some [0, 0, 0xFF])
    initGlobals 0 rfl (by decide) rfl
    (by intro j hj hne; interval_cases j <;> first | exact absurd rfl hne | rfl)
  exact ⟨h.1, h.2.2.2.mpr rfl⟩

/-- C22 counterexample: bank 0 was 0x10 (one switch on; the byte last read
was 0xEF); the next read of bank 0 fails and banks 1 and 2 read as before.
The value returned is 0xFF and not 0xEF, the bank is seen as 0x00, and the
cycle sends the switch message `(0, 0, 0)`. -/
theorem failed_read_counterexample :
    (mcp23s08_read_reg GPIO 0 none).2 = 0xFF ∧
      (switchCycle (bankReads (fun j => if j = 0 then none else some [0, 0, 0xFF]))
        { initGlobals with prevSws := [0x10, 0, 0] }).prevSws = [0, 0, 0] ∧
      (switchCycle (bankReads (fun j => if j = 0 then none else some [0, 0, 0xFF]))
        { initGlobals with prevSws := [0x10, 0, 0] }).out = [Msg.sw 0 0 0] := by
  decide

/-! ## C24: the first busy-wait -/

/-- The busy-wait test fails at once while the clock is still before
`lastEventMicros`: the unsigned difference wraps round to a large number. -/
theorem busyWait_future (t : Nat) (p : Player) (ht : t < p.lastEventMicros)
    (hl : p.lastEventMicros < 2 ^ 32) (hd0 : 0 ≤ p.diffMicros)
    (hd : p.diffMicros + (p.lastEventMicros - t : Nat) ≤ 2 ^ 32) :
    busyWaitContinues t p = false := by
  unfold busyWaitContinues ofInt32
  rw [decide_eq_false_iff_not, not_lt]
  have h1 : t % 2 ^ 32 = t := Nat.mod_eq_of_lt (by omega)
  have h2 : p.lastEventMicros % 2 ^ 32 = p.lastEventMicros := Nat.mod_eq_of_lt hl
  rw [h1, h2]
  have h3 : (t + 2 ^ 32 - p.lastEventMicros) % 2 ^ 32 = t + 2 ^ 32 - p.lastEventMicros :=
    Nat.mod_eq_of_lt (by omega)
  rw [h3]
  have h4 : p.diffMicros % 2 ^ 32 = p.diffMicros := Int.emod_eq_of_lt hd0 (by omega)
  rw [h4]
  omega

set_option maxRecDepth 100000 in
/-- C24 (the code at the failing input): `restFile` starts with a rest of 48
ticks on both tracks.  The clock reads 1000000 at the start of the playback
and the first wait computed before the loop is 250000, so `nextEventMicros`
is 1250000 on entry to the loop.  The first pass dispatches nothing, copies
1250000 to `lastEventMicros` and computes the wait 250000 again; the test of
the busy-wait is false for the clock values 1000000 and 1249999, so the wait
ends with less than 250000 microseconds elapsed since the start. -/
theorem first_wait_skipped :
    ∃ P0 G0 P1, playSetup restMem restFile.length 1000000 250000 initGlobals
        = Outcome.done (some P0, G0) ∧
      P0.g.delta = [48, 48] ∧ P0.nextEventMicros = 1250000 ∧
      drainBoth restMem 2 P0 = Outcome.done P1 ∧ P1.g.out = [] ∧
      (scheduleNext P1).lastEventMicros = 1250000 ∧
      (scheduleNext P1).diffMicros = 250000 ∧
      busyWaitContinues 1000000 (scheduleNext P1) = false ∧
      busyWaitContinues 1249999 (scheduleNext P1) = false ∧
      busyWaitContinues 1250000 (scheduleNext P1) = true ∧
      busyWaitContinues 1499999 (scheduleNext P1) = true ∧
      busyWaitContinues 1500000 (scheduleNext P1) = false := by
  refine ⟨_, _, _, rfl, by decide, by decide, rfl, by decide, by decide, by decide, by decide,
    by decide, by decide, by decide, by decide⟩

/-! ## C25: the cursor after an event -/

/-- A leading byte that is neither 0xFF nor has one of the high nibbles 8, 9,
B, C, E matches no branch of `parseEvent`: nothing changes, and the cursor
stays on that byte. -/
theorem parseEvent_unhandled (mem : List Nat) (pos b0 : Nat) (g : Globals)
    (hb : mem[pos]? = some b0) (hff : b0 ≠ 0xff)
    (hE : b0 &&& 0xf0 ≠ 0xE0) (hC : b0 &&& 0xf0 ≠ 0xC0) (hB : b0 &&& 0xf0 ≠ 0xB0)
    (h9 : b0 &&& 0xf0 ≠ 0x90) (h8 : b0 &&& 0xf0 ≠ 0x80) :
    parseEvent mem pos g = some (pos, g) := by
  rw [parseEvent, hb]
  simp only [if_neg hff, if_neg hE, if_neg hC, if_neg hB, if_neg h9, if_neg h8]

/-- The cursor after an event that `parseEvent` handles: three bytes on for
note off, note on, control change and pitch bend, two for a program change,
six for a set-tempo event, and for any other meta event the two leading
bytes, the length field and, except for end of track, the length. -/
theorem parseEvent_advance (mem : List Nat) (pos pos1 b0 : Nat) (g g1 : Globals)
    (hb : mem[pos]? = some b0) (h : parseEvent mem pos g = some (pos1, g1)) :
    (b0 ≠ 0xff → (b0 &&& 0xf0 = 0x80 ∨ b0 &&& 0xf0 = 0x90 ∨ b0 &&& 0xf0 = 0xB0 ∨
        b0 &&& 0xf0 = 0xE0) → pos1 = pos + 3) ∧
      (b0 ≠ 0xff → b0 &&& 0xf0 = 0xC0 → pos1 = pos + 2) ∧
      (b0 = 0xff → mem[pos + 1]? = some 0x51 → pos1 = pos + 6) ∧
      (b0 = 0xff → mem[pos + 1]? = some 0x2f →
        ∃ len p2, readVarLen mem (pos + 2) = some (len, p2) ∧ pos1 = p2) ∧
      (b0 = 0xff → mem[pos + 1]? ≠ some 0x51 → mem[pos + 1]? ≠ some 0x2f →
        ∃ len p2, readVarLen mem (pos + 2) = some (len, p2) ∧ (pos1 : Int) = p2 + len) := by
  rw [parseEvent, hb] at h
  simp only at h
  refine ⟨?_, ?_, ?_, ?_, ?_⟩
  · intro hff hn
    rw [if_neg hff] at h
    rcases hn with hn | hn | hn | hn
    · rw [if_neg (by rw [hn]; decide), if_neg (by rw [hn]; decide),
        if_neg (by rw [hn]; decide), if_neg (by rw [hn]; decide), if_pos hn] at h
      repeat' (split at h)
      all_goals first
        | (simp only [Option.some.injEq, Prod.mk.injEq, reduceCtorEq] at h; exact h.1.symm)
        | exact absurd h (by simp)
    · rw [if_neg (by rw [hn]; decide), if_neg (by rw [hn]; decide),
        if_neg (by rw [hn]; decide), if_pos hn] at h
      repeat' (split at h)
      all_goals first
        | (simp only [Option.some.injEq, Prod.mk.injEq, reduceCtorEq] at h; exact h.1.symm)
        | exact absurd h (by simp)
    · rw [if_neg (by rw [hn]; decide), if_neg (by rw [hn]; decide), if_pos hn] at h
      repeat' (split at h)
      all_goals first
        | (simp only [Option.some.injEq, Prod.mk.injEq, reduceCtorEq] at h; exact h.1.symm)
        | exact absurd h (by simp)
    · rw [if_pos hn] at h
      repeat' (split at h)
      all_goals first
        | (simp only [Option.some.injEq, Prod.mk.injEq, reduceCtorEq] at h; exact h.1.symm)
        | exact absurd h (by simp)
  · intro hff hn
    rw [if_neg hff, if_neg (by rw [hn]; decide), if_pos hn] at h
    repeat' (split at h)
    all_goals first
      | (simp only [Option.some.injEq, Prod.mk.injEq, reduceCtorEq] at h; exact h.1.symm)
      | exact absurd h (by simp)
  · intro hff h51
    rw [if_pos hff, h51] at h
    simp only [if_neg (by decide : ¬ (0x51 : Nat) = 0x2f), if_true] at h
    repeat' (split at h)
    all_goals first
      | (simp only [Option.some.injEq, Prod.mk.injEq, reduceCtorEq] at h; exact h.1.symm)
      | exact absurd h (by simp)
  · intro hff h2f
    rw [if_pos hff, h2f] at h
    simp only [if_true] at h
    split at h
    · exact absurd h (by simp)
    · rename_i len p2 hr
      simp only [Option.some.injEq, Prod.mk.injEq] at h
      exact ⟨len, p2, hr, h.1.symm⟩
  · intro hff h51 h2f
    rw [if_pos hff] at h
    split at h
    · exact absurd h (by simp)
    · rename_i b1 hb1
      have n51 : b1 ≠ 0x51 := fun e => h51 (by rw [hb1, e])
      have n2f : b1 ≠ 0x2f := fun e => h2f (by rw [hb1, e])
      rw [if_neg n2f, if_neg n51] at h
      split at h
      · exact absurd h (by simp)
      · rename_i len p2 hr
        split at h
        · rename_i hnn
          simp only [Option.some.injEq, Prod.mk.injEq] at h
          refine ⟨len, p2, hr, ?_⟩
          rw [← h.1]
          exact Int.toNat_of_nonneg hnn
        · exact absurd h (by simp)

set_option maxRecDepth 100000 in
/-- C25 (the code at the failing inputs): for a polyphonic key pressure event
`A0 3C 40`, a channel pressure event `D0 40`, a system exclusive event
`F0 01 F7` and a leading data byte `3C` (running status), `parseEvent`
returns with the cursor where it was: the advance is 0.  The drain loop then
reads the status byte as a delta time: `A0 3C` is read as 4156. -/
theorem parseEvent_no_advance :
    parseEvent [0xA0, 0x3C, 0x40, 0x00] 0 initGlobals = some (0, initGlobals) ∧
      parseEvent [0xD0, 0x40, 0x00] 0 initGlobals = some (0, initGlobals) ∧
      parseEvent [0xF0, 0x01, 0xF7, 0x00] 0 initGlobals = some (0, initGlobals) ∧
      parseEvent [0x3C, 0x40, 0x00] 0 initGlobals = some (0, initGlobals) ∧
      readVarLen [0xA0, 0x3C, 0x40, 0x00] 0 = some (4156, 2) ∧
      parseEvent [0x90, 0x3C, 0x40, 0x00] 0 initGlobals
        = some (3, { initGlobals with out := [Msg.key 60 1] }) := by
  refine ⟨by decide, by decide, by decide, by decide, by decide, by decide⟩

/-! ## C27: the fields of `ledMask` -/

/-- The four modes of `setOctaveLEDs` leave the top four bits of `ledMask`
as they were. -/
theorem setOctaveLEDs_top (g : Globals) :
    (setOctaveLEDs g).ledMask &&& 0xf000 = g.ledMask &&& 0xf000 := by
  have e : ∀ x : Nat, x % 2 ^ 16 = x &&& 0xffff := fun x => by
    rw [show (0xffff : Nat) = 2 ^ 16 - 1 from rfl, Nat.and_pow_two_sub_one_eq_mod]
  unfold setOctaveLEDs
  split_ifs <;> (try simp only [e, Nat.and_assoc, Nat.and_distrib_right]) <;>
    first
      | rfl
      | exact (Nat.or_zero _).trans rfl

set_option maxRecDepth 100000 in
/-- C27 (the code at the failing inputs): with every mask bit set, switching
the touche LED off gives `ledMask = 0x03ff`, which clears bits 10 and 11 of
the twelve octave-marker bits; switching it on again gives 0x3fff and not
0xffff; and with the markers off (`ledMask = 0xf000`) switching the touche
LED on gives 0xfc00, which sets marker bits 10 and 11. -/
theorem setToucheLED_overlap :
    (setToucheLED { initGlobals with toucheLED := 0 }).ledMask = 0x03ff ∧
      (setToucheLED { initGlobals with toucheLED := 0 }).ledMask &&& 0x0fff
        ≠ initGlobals.ledMask &&& 0x0fff ∧
      (setToucheLED { setToucheLED { initGlobals with toucheLED := 0 }
        with toucheLED := 1 }).ledMask = 0x3fff ∧
      initGlobals.ledMask = 0xffff ∧
      (setToucheLED { initGlobals with ledMask := 0xf000, toucheLED := 1 }).ledMask = 0xfc00 ∧
      (setOctaveLEDs { initGlobals with octaveLED := 0 }).ledMask = 0xf000 := by
  refine ⟨by decide, by decide, by decide, by decide, by decide, by decide⟩

/-! ## C28: the indices of `analogueVal` -/

/-- A control change whose controller has an entry in `controllerIndex`
writes that cell of `analogueVal` and sends the eight values. -/
theorem controlChange_index (mem : List Nat) (pos ctl k : Nat) (g g1 : Globals)
    (hk : controllerIndex ctl = some k) (h : controlChange mem pos ctl g = some g1) :
    ∃ x, g1.analogueVal = g.analogueVal.set k x ∧
      g1.out = g.out ++ [Msg.anlg g1.analogueVal] := by
  unfold controllerIndex at hk
  unfold controlChange at h
  split_ifs at hk h <;> (try split at h) <;>
    first
      | omega
      | (simp only [Option.some.injEq] at h hk; rw [← h, ← hk]; exact ⟨_, rfl, rfl⟩)
      | simp at h

set_option maxRecDepth 100000 in
/-- C28 (the code at the failing inputs): the array is declared with 7
elements; the control change `B0 53 40` writes `analogueVal[7]`, one past its
end, and the snapshot it sends has 8 fields; an analogue cycle in which
channel `i` reads `i` stores the value of channel 7 in `analogueVal[7]`. -/
theorem analogueVal_index_seven :
    analogueValDeclLen = 7 ∧ controllerIndex 0x53 = some 7 ∧ ¬ (7 < analogueValDeclLen) ∧
      parseEvent [0xB0, 0x53, 0x40, 0x00] 0 initGlobals
        = some (3, { initGlobals with
            analogueVal := [0, 0, 0, 0, 0, 0, 0, 512]
            out := [Msg.anlg [0, 0, 0, 0, 0, 0, 0, 512]] }) ∧
      (analogCycle (fun i => [0, 0, i]) 0 initGlobals).analogueVal
        = [820, 1, 2, 3, 4, 5, 6, 7] := by
  refine ⟨rfl, by decide, by decide, by decide, by decide⟩

/-! ## C23: the playback flags and their bits in `midiSws[1]` -/

/-- A program change keeps bits 2 and 3 of `midiSws[1]`. -/
theorem bits_program (m d : Nat) :
    (((m &&& 0xfc) ||| ((d &&& 0x60) >>> 5)) % 256).testBit 2 = m.testBit 2 ∧
      (((m &&& 0xfc) ||| ((d &&& 0x60) >>> 5)) % 256).testBit 3 = m.testBit 3 := by
  rw [show (256 : Nat) = 2 ^ 8 from rfl, Nat.testBit_mod_two_pow, Nat.testBit_mod_two_pow]
  simp [Nat.testBit_or, Nat.testBit_and, Nat.testBit_shiftRight,
    (by decide : Nat.testBit 252 2 = true), (by decide : Nat.testBit 252 3 = true),
    (by decide : Nat.testBit 96 7 = false), (by decide : Nat.testBit 96 8 = false)]

/-- Controller 0x50 keeps bits 2 and 3 of `midiSws[1]`. -/
theorem bits_voice (m v : Nat) :
    (((m &&& 0x0f) ||| ((v &&& 0x7f) <<< 4)) % 256).testBit 2 = m.testBit 2 ∧
      (((m &&& 0x0f) ||| ((v &&& 0x7f) <<< 4)) % 256).testBit 3 = m.testBit 3 := by
  rw [show (256 : Nat) = 2 ^ 8 from rfl, Nat.testBit_mod_two_pow, Nat.testBit_mod_two_pow]
  simp [Nat.testBit_or, Nat.testBit_and, Nat.testBit_shiftLeft,
    (by decide : Nat.testBit 15 2 = true), (by decide : Nat.testBit 15 3 = true)]

/-- Controller 0x51 writes bit 2 of `midiSws[1]` and keeps the other bits. -/
theorem bits_ruban (m : Nat) :
    ((m &&& 0xfb) ||| 4).testBit 2 = true ∧ (m &&& 0xfb).testBit 2 = false ∧
      ((m &&& 0xfb) ||| 4).testBit 3 = m.testBit 3 ∧ (m &&& 0xfb).testBit 3 = m.testBit 3 ∧
      ((m &&& 0xfb) ||| 4) &&& 0xfb = m &&& 0xfb ∧ (m &&& 0xfb) &&& 0xfb = m &&& 0xfb := by
  refine ⟨?_, ?_, ?_, ?_, ?_, ?_⟩
  · simp [Nat.testBit_or, Nat.testBit_and, (by decide : Nat.testBit 4 2 = true)]
  · simp [Nat.testBit_and, (by decide : Nat.testBit 251 2 = false)]
  · simp [Nat.testBit_or, Nat.testBit_and, (by decide : Nat.testBit 251 3 = true),
      (by decide : Nat.testBit 4 3 = false)]
  · simp [Nat.testBit_and, (by decide : Nat.testBit 251 3 = true)]
  · rw [Nat.and_distrib_right, Nat.and_assoc]
    exact (Nat.or_zero _).trans rfl
  · rw [Nat.and_assoc]; rfl

/-- Controller 0x52 writes bit 3 of `midiSws[1]` and keeps the other bits. -/
theorem bits_claquement (m : Nat) :
    ((m &&& 0xf7) ||| 8).testBit 3 = true ∧ (m &&& 0xf7).testBit 3 = false ∧
      ((m &&& 0xf7) ||| 8).testBit 2 = m.testBit 2 ∧ (m &&& 0xf7).testBit 2 = m.testBit 2 ∧
      ((m &&& 0xf7) ||| 8) &&& 0xf7 = m &&& 0xf7 ∧ (m &&& 0xf7) &&& 0xf7 = m &&& 0xf7 := by
  refine ⟨?_, ?_, ?_, ?_, ?_, ?_⟩
  · simp [Nat.testBit_or, Nat.testBit_and, (by decide : Nat.testBit 8 3 = true)]
  · simp [Nat.testBit_and, (by decide : Nat.testBit 247 3 = false)]
  · simp [Nat.testBit_or, Nat.testBit_and, (by decide : Nat.testBit 247 2 = true),
      (by decide : Nat.testBit 8 2 = false)]
  · simp [Nat.testBit_and, (by decide : Nat.testBit 247 2 = true)]
  · rw [Nat.and_distrib_right, Nat.and_assoc]
    exact (Nat.or_zero _).trans rfl
  · rw [Nat.and_assoc]; rfl

theorem getD_one_set_one (l : List Nat) (x : Nat) (h : l.length = 3) :
    (l.set 1 x).getD 1 0 = x ∧ (l.set 1 x).getD 0 0 = l.getD 0 0 ∧
      (l.set 1 x).getD 2 0 = l.getD 2 0 ∧ (l.set 1 x).length = 3 := by
  obtain ⟨a, b, c, rfl⟩ := length_three l h
  exact ⟨rfl, rfl, rfl, rfl⟩

theorem programChange_mirror (d : Nat) (g : Globals) (hl : g.midiSws.length = 3) :
    (programChange d g).midiSws.length = 3 ∧
      (RubanMirror g → RubanMirror (programChange d g)) ∧
      (ClaquementMirror g → ClaquementMirror (programChange d g)) := by
  obtain ⟨a, b, c, habc⟩ := length_three _ hl
  unfold programChange RubanMirror ClaquementMirror
  simp only [habc, List.set_cons_zero, List.set_cons_succ, List.getD_cons_zero,
    List.getD_cons_succ, List.length_cons, List.length_nil]
  refine ⟨trivial, fun h => ?_, fun h => ?_⟩
  · rw [(bits_program b d).1]; exact h
  · rw [(bits_program b d).2]; exact h

theorem controlChange_mirror (mem : List Nat) (pos ctl : Nat) (g g1 : Globals)
    (h : controlChange mem pos ctl g = some g1) (hl : g.midiSws.length = 3) :
    g1.midiSws.length = 3 ∧ (RubanMirror g → RubanMirror g1) ∧
      (ClaquementMirror g → ClaquementMirror g1) := by
  obtain ⟨a, b, c, habc⟩ := length_three _ hl
  unfold controlChange at h
  split_ifs at h with h1 h2 h3 h4 h5 h6
  · split at h
    · simp at h
    · simp only [Option.some.injEq] at h; rw [← h]; exact ⟨hl, id, id⟩
  · split at h
    · simp at h
    · simp only [Option.some.injEq] at h; rw [← h]; exact ⟨hl, id, id⟩
  · split at h
    · simp at h
    · rename_i v _
      simp only [Option.some.injEq] at h
      rw [← h]
      unfold RubanMirror ClaquementMirror
      simp only [habc, List.set_cons_zero, List.set_cons_succ, List.getD_cons_zero,
        List.getD_cons_succ, List.length_cons, List.length_nil]
      refine ⟨trivial, fun h => ?_, fun h => ?_⟩
      · rw [(bits_voice b v).1]; exact h
      · rw [(bits_voice b v).2]; exact h
  · split at h
    · simp at h
    · rename_i v _
      simp only [Option.some.injEq] at h
      rw [← h]
      unfold RubanMirror ClaquementMirror
      simp only [habc, List.set_cons_zero, List.set_cons_succ, List.getD_cons_zero,
        List.getD_cons_succ, List.length_cons, List.length_nil]
      refine ⟨trivial, fun _ => ?_, fun h => ?_⟩
      · by_cases hv : v &&& 0x7f < 64
        · simp [hv, (bits_ruban b).2.1]
        · simp [hv, (bits_ruban b).1]
      · by_cases hv : v &&& 0x7f < 64
        · simp only [hv, if_true, ne_eq, not_true_eq_false, if_false, (bits_ruban b).2.2.2.1]
          exact h
        · simp only [hv, if_false, ne_eq, one_ne_zero, not_false_eq_true, if_true,
            (bits_ruban b).2.2.1]
          exact h
  · split at h
    · simp at h
    · rename_i v _
      simp only [Option.some.injEq] at h
      rw [← h]
      unfold RubanMirror ClaquementMirror
      simp only [habc, List.set_cons_zero, List.set_cons_succ, List.getD_cons_zero,
        List.getD_cons_succ, List.length_cons, List.length_nil]
      refine ⟨trivial, fun h => ?_, fun _ => ?_⟩
      · by_cases hv : v &&& 0x7f < 64
        · simp only [hv, if_true, ne_eq, not_true_eq_false, if_false, (bits_claquement b).2.2.2.1]
          exact h
        · simp only [hv, if_false, ne_eq, one_ne_zero, not_false_eq_true, if_true,
            (bits_claquement b).2.2.1]
          exact h
      · by_cases hv : v &&& 0x7f < 64
        · simp [hv, (bits_claquement b).2.1]
        · simp [hv, (bits_claquement b).1]
  · split at h
    · simp at h
    · simp only [Option.some.injEq] at h; rw [← h]; exact ⟨hl, id, id⟩
  · simp only [Option.some.injEq] at h; rw [← h]; exact ⟨hl, id, id⟩

/-- Every event keeps the agreement of `ruban` with bit 2 and of `claquement`
with bit 3 of `midiSws[1]`, once it holds. -/
theorem parseEvent_mirror (mem : List Nat) (pos pos1 : Nat) (g g1 : Globals)
    (h : parseEvent mem pos g = some (pos1, g1)) (hl : g.midiSws.length = 3) :
    g1.midiSws.length = 3 ∧ (RubanMirror g → RubanMirror g1) ∧
      (ClaquementMirror g → ClaquementMirror g1) := by
  unfold parseEvent at h
  split at h
  · simp at h
  · repeat' (split at h)
    all_goals (try simp only [Option.some.injEq, Prod.mk.injEq, reduceCtorEq] at h)
    all_goals first
      | (obtain ⟨_, rfl⟩ := h; exact ⟨hl, id, id⟩)
      | (obtain ⟨_, rfl⟩ := h; exact programChange_mirror _ _ hl)
      | (obtain ⟨_, rfl⟩ := h
         exact controlChange_mirror _ _ _ _ _ (by assumption) hl)

theorem control_status (b0 : Nat) (hst : b0 &&& 0xf0 = 0xB0) :
    b0 ≠ 0xff ∧ b0 &&& 0xf0 ≠ 0xE0 ∧ b0 &&& 0xf0 ≠ 0xC0 := by
  refine ⟨fun e => ?_, by rw [hst]; decide, by rw [hst]; decide⟩
  rw [e] at hst
  revert hst
  decide

/-- A control change with controller 0x51 and value `v`. -/
theorem parseEvent_ruban (mem : List Nat) (pos b0 v : Nat) (g : Globals)
    (hl : g.midiSws.length = 3) (hb0 : mem[pos]? = some b0) (hst : b0 &&& 0xf0 = 0xB0)
    (hc : mem[pos + 1]? = some 0x51) (hv : mem[pos + 2]? = some v) :
    ∃ g1, parseEvent mem pos g = some (pos + 3, g1) ∧
      g1.ruban = (if 64 ≤ v &&& 0x7F then 1 else 0) ∧ RubanMirror g1 ∧
      g1.claquement = g.claquement ∧
      g1.midiSws.getD 0 0 = g.midiSws.getD 0 0 ∧ g1.midiSws.getD 2 0 = g.midiSws.getD 2 0 ∧
      g1.midiSws.getD 1 0 &&& 0xfb = g.midiSws.getD 1 0 &&& 0xfb ∧ g1.midiSws.length = 3 := by
  obtain ⟨hff, hE, hC⟩ := control_status b0 hst
  obtain ⟨a, b, c, habc⟩ := length_three _ hl
  rw [parseEvent, hb0]
  simp only
  rw [if_neg hff, if_neg hE, if_neg hC, if_pos hst, hc]
  simp only
  rw [controlChange, if_neg (by decide), if_neg (by decide), if_neg (by decide), if_pos rfl, hv]
  refine ⟨_, rfl, ?_⟩
  unfold RubanMirror
  simp only [habc, List.set_cons_zero, List.set_cons_succ, List.getD_cons_zero,
    List.getD_cons_succ, List.length_cons, List.length_nil]
  by_cases hlt : v &&& 0x7f < 64
  · have hge : ¬ 64 ≤ v &&& 0x7f := by omega
    simp only [hlt, hge, if_true, if_false, ne_eq, not_true_eq_false, (bits_ruban b).2.1,
      (bits_ruban b).2.2.2.2.2]
    exact ⟨trivial, rfl, trivial, trivial, trivial, trivial, trivial⟩
  · have hge : 64 ≤ v &&& 0x7f := by omega
    simp only [hlt, hge, if_true, if_false, ne_eq, one_ne_zero, not_false_eq_true,
      (bits_ruban b).1, (bits_ruban b).2.2.2.2.1]
    exact ⟨trivial, rfl, trivial, trivial, trivial, trivial, trivial⟩

/-- A control change with controller 0x52 and value `v`. -/
theorem parseEvent_claquement (mem : List Nat) (pos b0 v : Nat) (g : Globals)
    (hl : g.midiSws.length = 3) (hb0 : mem[pos]? = some b0) (hst : b0 &&& 0xf0 = 0xB0)
    (hc : mem[pos + 1]? = some 0x52) (hv : mem[pos + 2]? = some v) :
    ∃ g1, parseEvent mem pos g = some (pos + 3, g1) ∧
      g1.claquement = (if 64 ≤ v &&& 0x7F then 1 else 0) ∧ ClaquementMirror g1 ∧
      g1.ruban = g.ruban ∧
      g1.midiSws.getD 0 0 = g.midiSws.getD 0 0 ∧ g1.midiSws.getD 2 0 = g.midiSws.getD 2 0 ∧
      g1.midiSws.getD 1 0 &&& 0xf7 = g.midiSws.getD 1 0 &&& 0xf7 ∧ g1.midiSws.length = 3 := by
  obtain ⟨hff, hE, hC⟩ := control_status b0 hst
  obtain ⟨a, b, c, habc⟩ := length_three _ hl
  rw [parseEvent, hb0]
  simp only
  rw [if_neg hff, if_neg hE, if_neg hC, if_pos hst, hc]
  simp only
  rw [controlChange, if_neg (by decide), if_neg (by decide), if_neg (by decide),
    if_neg (by decide), if_pos rfl, hv]
  refine ⟨_, rfl, ?_⟩
  unfold ClaquementMirror
  simp only [habc, List.set_cons_zero, List.set_cons_succ, List.getD_cons_zero,
    List.getD_cons_succ, List.length_cons, List.length_nil]
  by_cases hlt : v &&& 0x7f < 64
  · have hge : ¬ 64 ≤ v &&& 0x7f := by omega
    simp only [hlt, hge, if_true, if_false, ne_eq, not_true_eq_false, (bits_claquement b).2.1,
      (bits_claquement b).2.2.2.2.2]
    exact ⟨trivial, rfl, trivial, trivial, trivial, trivial, trivial⟩
  · have hge : 64 ≤ v &&& 0x7f := by omega
    simp only [hlt, hge, if_true, if_false, ne_eq, one_ne_zero, not_false_eq_true,
      (bits_claquement b).1, (bits_claquement b).2.2.2.2.1]
    exact ⟨trivial, rfl, trivial, trivial, trivial, trivial, trivial⟩

theorem drainTrack_mirror (mem : List Nat) : ∀ (fuel : Nat) (p r : Player),
    drainTrack mem fuel p = Outcome.done r → p.g.midiSws.length = 3 →
      r.g.midiSws.length = 3 ∧ (RubanMirror p.g → RubanMirror r.g) ∧
        (ClaquementMirror p.g → ClaquementMirror r.g) := by
  intro fuel
  induction fuel with
  | zero => intro p r h; simp [drainTrack] at h
  | succ f ih =>
    intro p r h hl
    rw [drainTrack] at h
    split_ifs at h with hc
    · cases hpe : parseEvent mem (p.trk_p.getD p.g.track 0) p.g with
      | none => rw [hpe] at h; simp at h
      | some res =>
        obtain ⟨pos1, g1⟩ := res
        rw [hpe] at h
        simp only at h
        cases hrv : readVarLen mem pos1 with
        | none => rw [hrv] at h; simp at h
        | some res2 =>
          obtain ⟨d, pos2⟩ := res2
          rw [hrv] at h
          simp only at h
          obtain ⟨m1, m2, m3⟩ := parseEvent_mirror _ _ _ _ _ hpe hl
          obtain ⟨n1, n2, n3⟩ := ih _ _ h (by exact m1)
          exact ⟨n1, fun hr => n2 (by exact m2 hr), fun hr => n3 (by exact m3 hr)⟩
    · simp only [Outcome.done.injEq] at h
      rw [← h]; exact ⟨hl, id, id⟩

theorem drainBoth_mirror (mem : List Nat) (fuel : Nat) (p r : Player)
    (h : drainBoth mem fuel p = Outcome.done r) (hl : p.g.midiSws.length = 3) :
    r.g.midiSws.length = 3 ∧ (RubanMirror p.g → RubanMirror r.g) ∧
      (ClaquementMirror p.g → ClaquementMirror r.g) := by
  unfold drainBoth at h
  split at h
  · rename_i p1 h1
    split at h
    · rename_i p2 h2
      simp only [Outcome.done.injEq] at h
      rw [← h]
      obtain ⟨m1, m2, m3⟩ := drainTrack_mirror mem fuel _ p1 h1 (by exact hl)
      obtain ⟨n1, n2, n3⟩ := drainTrack_mirror mem fuel _ p2 h2 (by exact m1)
      exact ⟨n1, fun hr => n2 (by exact m2 (by exact hr)),
        fun hr => n3 (by exact m3 (by exact hr))⟩
    · simp at h
    · simp at h
  · simp at h
  · simp at h

theorem playLoop_mirror (mem : List Nat) (inner : Nat) : ∀ (fuel : Nat) (p r : Player),
    playLoop mem inner fuel p = Outcome.done r → p.g.midiSws.length = 3 →
      r.g.midiSws.length = 3 ∧ (RubanMirror p.g → RubanMirror r.g) ∧
        (ClaquementMirror p.g → ClaquementMirror r.g) := by
  intro fuel
  induction fuel with
  | zero => intro p r h; simp [playLoop] at h
  | succ f ih =>
    intro p r h hl
    rw [playLoop] at h
    split_ifs at h with hc
    · cases hdb : drainBoth mem inner p with
      | done p1 =>
        rw [hdb] at h
        simp only at h
        obtain ⟨m1, m2, m3⟩ := drainBoth_mirror mem inner p p1 hdb hl
        split_ifs at h with h1 h2
        · simp only [Outcome.done.injEq] at h
          rw [← h]; exact ⟨m1, m2, m3⟩
        · obtain ⟨n1, n2, n3⟩ := ih _ _ h (by exact m1)
          exact ⟨n1, fun hr => n2 (by exact m2 hr), fun hr => n3 (by exact m3 hr)⟩
      | fault => rw [hdb] at h; simp at h
      | outOfFuel => rw [hdb] at h; simp at h
    · simp only [Outcome.done.injEq] at h
      rw [← h]; exact ⟨hl, id, id⟩

/-- The statements before the scheduling loop copy `prevSws` to `midiSws` and
leave `ruban` and `claquement` as they are. -/
theorem playSetup_flags (mem : List Nat) (fileSize now : Nat) (w0 : Int) (g : Globals)
    (p : Player) (gs : Globals)
    (h : playSetup mem fileSize now w0 g = Outcome.done (some p, gs)) :
    p.g.ruban = g.ruban ∧ p.g.claquement = g.claquement ∧
      p.g.midiSws = [g.prevSws.getD 0 0, g.prevSws.getD 1 0, g.prevSws.getD 2 0] := by
  unfold playSetup at h
  simp only at h
  repeat' (split at h)
  all_goals (try simp only [Outcome.done.injEq, Prod.mk.injEq, reduceCtorEq, false_and] at h)
  obtain ⟨hp, _⟩ := h
  simp only [Option.some.injEq] at hp
  rw [← hp]
  exact ⟨rfl, rfl, rfl⟩

theorem toInt32_range (n : Nat) : -2 ^ 31 ≤ toInt32 n ∧ toInt32 n < 2 ^ 31 := by
  unfold toInt32
  have := Nat.mod_lt n (show 0 < 2 ^ 32 by norm_num)
  split_ifs with h <;> omega

theorem readVarLen_range (mem : List Nat) (pos p2 : Nat) (d : Int)
    (h : readVarLen mem pos = some (d, p2)) :
    -2 ^ 31 ≤ d ∧ d < 2 ^ 31 ∧ pos < mem.length := by
  unfold readVarLen at h
  split at h
  · simp at h
  · rename_i x k hx
    simp only [Option.some.injEq, Prod.mk.injEq] at h
    obtain ⟨rfl, _⟩ := h
    refine ⟨(toInt32_range x).1, (toInt32_range x).2, ?_⟩
    by_contra hge
    rw [List.drop_eq_nil_of_le (by omega)] at hx
    simp [readVarLenLoop] at hx

theorem controlChange_delta (mem : List Nat) (pos ctl : Nat) (g g1 : Globals)
    (h : controlChange mem pos ctl g = some g1) :
    g1.delta = g.delta ∧ g1.track = g.track := by
  unfold controlChange at h
  split_ifs at h <;> (try split at h) <;>
    first
      | (simp only [Option.some.injEq] at h; rw [← h]; exact ⟨rfl, rfl⟩)
      | simp at h

/-- `parseEvent` changes neither `delta` nor `track`. -/
theorem parseEvent_delta (mem : List Nat) (pos pos1 : Nat) (g g1 : Globals)
    (h : parseEvent mem pos g = some (pos1, g1)) :
    g1.delta = g.delta ∧ g1.track = g.track := by
  unfold parseEvent at h
  split at h
  · simp at h
  · repeat' (split at h)
    all_goals (try simp only [Option.some.injEq, Prod.mk.injEq, reduceCtorEq] at h)
    all_goals first
      | (obtain ⟨_, rfl⟩ := h; exact ⟨rfl, rfl⟩)
      | (obtain ⟨_, rfl⟩ := h
         exact controlChange_delta _ _ _ _ _ (by assumption))

theorem delta_set_inv (l : List Int) (t : Nat) (d : Int) (hl : l.length = 2)
    (h0 : 0 ≤ l.getD 0 0 ∧ l.getD 0 0 < 2 ^ 31) (h1 : 0 ≤ l.getD 1 0 ∧ l.getD 1 0 < 2 ^ 31)
    (hd : 0 ≤ d ∧ d < 2 ^ 31) :
    (l.set t d).length = 2 ∧
      (0 ≤ (l.set t d).getD 0 0 ∧ (l.set t d).getD 0 0 < 2 ^ 31) ∧
      (0 ≤ (l.set t d).getD 1 0 ∧ (l.set t d).getD 1 0 < 2 ^ 31) := by
  match l, hl with
  | [a, b], _ =>
    match t with
    | 0 => exact ⟨rfl, hd, h1⟩
    | 1 => exact ⟨rfl, h0, hd⟩
    | n + 2 => exact ⟨rfl, h0, h1⟩

/-- The traced drain loop is the drain loop. -/
theorem drainTrackReads_fst (mem : List Nat) : ∀ (fuel : Nat) (p : Player),
    (drainTrackReads mem fuel p).1 = drainTrack mem fuel p := by
  intro fuel
  induction fuel with
  | zero => intro p; rfl
  | succ f ih =>
    intro p
    rw [drainTrackReads, drainTrack]
    split_ifs with hc
    · cases hpe : parseEvent mem (p.trk_p.getD p.g.track 0) p.g with
      | none => rfl
      | some res =>
        obtain ⟨pos1, g1⟩ := res
        simp only
        cases hrv : readVarLen mem pos1 with
        | none => rfl
        | some res2 =>
          obtain ⟨d, pos2⟩ := res2
          simp only
          exact ih _
    · rfl

/-- Every delta time in the trace of the drain loop is a value returned by
`readVarLen`. -/
theorem drainTrackReads_sound (mem : List Nat) : ∀ (fuel : Nat) (p : Player),
    ∀ d ∈ (drainTrackReads mem fuel p).2, ∃ pos q, readVarLen mem pos = some (d, q) := by
  intro fuel
  induction fuel with
  | zero => intro p d hd; simp [drainTrackReads] at hd
  | succ f ih =>
    intro p d hd
    rw [drainTrackReads] at hd
    split_ifs at hd with hc
    · cases hpe : parseEvent mem (p.trk_p.getD p.g.track 0) p.g with
      | none => rw [hpe] at hd; simp at hd
      | some res =>
        obtain ⟨pos1, g1⟩ := res
        rw [hpe] at hd
        simp only at hd
        cases hrv : readVarLen mem pos1 with
        | none => rw [hrv] at hd; simp at hd
        | some res2 =>
          obtain ⟨d1, pos2⟩ := res2
          rw [hrv] at hd
          simp only [List.mem_cons] at hd
          rcases hd with hd | hd
          · exact ⟨pos1, pos2, by rw [hrv, hd]⟩
          · exact ih _ d hd
    · simp at hd

theorem drainTrackReads_delta (mem : List Nat) : ∀ (fuel : Nat) (p r : Player),
    DeltaInv p → (∀ d ∈ (drainTrackReads mem fuel p).2, 0 ≤ d) →
      (drainTrackReads mem fuel p).1 = Outcome.done r → DeltaInv r := by
  intro fuel
  induction fuel with
  | zero => intro p r _ _ h; simp [drainTrackReads] at h
  | succ f ih =>
    intro p r hinv hnn h
    rw [drainTrackReads] at h hnn
    split_ifs at h hnn with hc
    · cases hpe : parseEvent mem (p.trk_p.getD p.g.track 0) p.g with
      | none => rw [hpe] at h; simp at h
      | some res =>
        obtain ⟨pos1, g1⟩ := res
        rw [hpe] at h hnn
        simp only at h hnn
        cases hrv : readVarLen mem pos1 with
        | none => rw [hrv] at h; simp at h
        | some res2 =>
          obtain ⟨d, pos2⟩ := res2
          rw [hrv] at h hnn
          simp only [List.mem_cons, forall_eq_or_imp] at h hnn
          refine ih _ _ ?_ hnn.2 h
          obtain ⟨hd, _⟩ := parseEvent_delta _ _ _ _ _ hpe
          obtain ⟨hl, a0, a1, b0, b1⟩ := hinv
          have hs := delta_set_inv g1.delta p.g.track d (by rw [hd]; exact hl)
            (by rw [hd]; exact ⟨a0, a1⟩) (by rw [hd]; exact ⟨b0, b1⟩)
            ⟨hnn.1, (readVarLen_range mem _ _ _ hrv).2.1⟩
          exact ⟨hs.1, hs.2.1.1, hs.2.1.2, hs.2.2.1, hs.2.2.2⟩
    · simp only [Outcome.done.injEq] at h
      rw [← h]; exact hinv

/-- The traced loop over the two tracks is `drainBoth`. -/
theorem drainBothReads_fst (mem : List Nat) (fuel : Nat) (p : Player) :
    (drainBothReads mem fuel p).1 = drainBoth mem fuel p := by
  unfold drainBothReads drainBoth
  rw [← drainTrackReads_fst]
  rcases h1 : drainTrackReads mem fuel { p with g := { p.g with track := 0 } } with ⟨o1, r1⟩
  cases o1 with
  | done p1 =>
    simp only
    rw [← drainTrackReads_fst]
    rcases h2 : drainTrackReads mem fuel { p1 with g := { p1.g with track := 1 } } with ⟨o2, r2⟩
    cases o2 <;> rfl
  | fault => rfl
  | outOfFuel => rfl

theorem drainBothReads_sound (mem : List Nat) (fuel : Nat) (p : Player) :
    ∀ d ∈ (drainBothReads mem fuel p).2, ∃ pos q, readVarLen mem pos = some (d, q) := by
  intro d hd
  unfold drainBothReads at hd
  have s1 := drainTrackReads_sound mem fuel { p with g := { p.g with track := 0 } }
  rcases h1 : drainTrackReads mem fuel { p with g := { p.g with track := 0 } } with ⟨o1, r1⟩
  rw [h1] at hd s1
  cases o1 with
  | done p1 =>
    simp only at hd
    have s2 := drainTrackReads_sound mem fuel { p1 with g := { p1.g with track := 1 } }
    rcases h2 : drainTrackReads mem fuel { p1 with g := { p1.g with track := 1 } } with ⟨o2, r2⟩
    rw [h2] at hd s2
    have hm : d ∈ r1 ++ r2 := by cases o2 <;> exact hd
    rcases List.mem_append.mp hm with hm | hm
    · exact s1 d hm
    · exact s2 d hm
  | fault => exact s1 d hd
  | outOfFuel => exact s1 d hd

theorem drainBothReads_delta (mem : List Nat) (fuel : Nat) (p r : Player)
    (hinv : DeltaInv p) (hnn : ∀ d ∈ (drainBothReads mem fuel p).2, 0 ≤ d)
    (h : (drainBothReads mem fuel p).1 = Outcome.done r) : DeltaInv r := by
  unfold drainBothReads at h hnn
  have t1 := drainTrackReads_delta mem fuel { p with g := { p.g with track := 0 } }
  rcases h1 : drainTrackReads mem fuel { p with g := { p.g with track := 0 } } with ⟨o1, r1⟩
  rw [h1] at h hnn t1
  cases o1 with
  | done p1 =>
    simp only at h hnn
    have t2 := drainTrackReads_delta mem fuel { p1 with g := { p1.g with track := 1 } }
    rcases h2 : drainTrackReads mem fuel { p1 with g := { p1.g with track := 1 } } with ⟨o2, r2⟩
    rw [h2] at h hnn t2
    cases o2 with
    | done p2 =>
      simp only [Outcome.done.injEq] at h hnn
      have i1 : DeltaInv p1 := t1 p1 (by exact hinv)
        (fun d hd => hnn d (List.mem_append.mpr (Or.inl hd))) rfl
      have i2 : DeltaInv p2 := t2 p2 (by exact i1)
        (fun d hd => hnn d (List.mem_append.mpr (Or.inr hd))) rfl
      rw [← h]
      exact i2
    | fault => simp at h
    | outOfFuel => simp at h
  | fault => simp at h
  | outOfFuel => simp at h

theorem scheduleNext_delta (p : Player) (hinv : DeltaInv p) : DeltaInv (scheduleNext p) := by
  obtain ⟨hl, a0, a1, b0, b1⟩ := hinv
  unfold scheduleNext DeltaInv
  simp only [List.length_cons, List.length_nil, List.getD_cons_zero, List.getD_cons_succ]
  by_cases hlt : p.g.delta.getD 0 0 < p.g.delta.getD 1 0
  · simp only [if_pos hlt]
    rw [toInt32_ofInt32 _ (by omega) (by omega), toInt32_ofInt32 _ (by omega) (by omega)]
    refine ⟨trivial, by omega, by omega, by omega, by omega⟩
  · simp only [if_neg hlt]
    rw [toInt32_ofInt32 _ (by omega) (by omega), toInt32_ofInt32 _ (by omega) (by omega)]
    refine ⟨trivial, by omega, by omega, by omega, by omega⟩

/-- The traced scheduling loop is `playLoop`. -/
theorem playLoopTrace_fst (mem : List Nat) (inner : Nat) : ∀ (fuel : Nat) (p : Player),
    (playLoopTrace mem inner fuel p).1 = playLoop mem inner fuel p := by
  intro fuel
  induction fuel with
  | zero => intro p; rfl
  | succ f ih =>
    intro p
    rw [playLoopTrace, playLoop, ← drainBothReads_fst]
    split_ifs with hc
    · rcases hdb : drainBothReads mem inner p with ⟨o, r⟩
      cases o with
      | done p1 =>
        simp only
        split_ifs with h1 h2
        · rfl
        · rfl
        · exact ih _
      | fault => rfl
      | outOfFuel => rfl
    · rfl

theorem playLoopTrace_sound (mem : List Nat) (inner : Nat) : ∀ (fuel : Nat) (p : Player),
    ∀ d ∈ (playLoopTrace mem inner fuel p).2.1, ∃ pos q, readVarLen mem pos = some (d, q) := by
  intro fuel
  induction fuel with
  | zero => intro p d hd; simp [playLoopTrace] at hd
  | succ f ih =>
    intro p d hd
    rw [playLoopTrace] at hd
    have s1 := drainBothReads_sound mem inner p
    split_ifs at hd with hc
    · rcases hdb : drainBothReads mem inner p with ⟨o, r⟩
      rw [hdb] at hd s1
      cases o with
      | done p1 =>
        simp only at hd
        split_ifs at hd with h1 h2
        · exact s1 d hd
        · exact s1 d hd
        · rcases List.mem_append.mp hd with hm | hm
          · exact s1 d hm
          · exact ih _ d hm
      | fault => exact s1 d hd
      | outOfFuel => exact s1 d hd
    · simp at hd

/-- With non-negative deltas on entry and every delta time read
non-negative, the deltas are non-negative at the head of every pass of the
scheduling loop and in the state in which it ends. -/
theorem playLoopTrace_delta (mem : List Nat) (inner : Nat) : ∀ (fuel : Nat) (p : Player),
    DeltaInv p → (∀ d ∈ (playLoopTrace mem inner fuel p).2.1, 0 ≤ d) →
      (∀ q ∈ (playLoopTrace mem inner fuel p).2.2, DeltaInv q) ∧
        ∀ r, (playLoopTrace mem inner fuel p).1 = Outcome.done r → DeltaInv r := by
  intro fuel
  induction fuel with
  | zero =>
    intro p hinv _
    refine ⟨fun q hq => ?_, fun r h => ?_⟩
    · simp only [playLoopTrace, List.mem_singleton] at hq
      rw [hq]; exact hinv
    · simp [playLoopTrace] at h
  | succ f ih =>
    intro p hinv hnn
    rw [playLoopTrace] at hnn ⊢
    have t1 := drainBothReads_delta mem inner p
    split_ifs at hnn ⊢ with hc
    · rcases hdb : drainBothReads mem inner p with ⟨o, r⟩
      rw [hdb] at hnn t1
      cases o with
      | done p1 =>
        simp only at hnn ⊢
        split_ifs at hnn ⊢ with h1 h2
        · refine ⟨fun q hq => ?_, fun r1 h => ?_⟩
          · simp only [List.mem_singleton] at hq
            rw [hq]; exact hinv
          · simp only [Outcome.done.injEq] at h
            rw [← h]
            exact t1 p1 hinv hnn rfl
        · refine ⟨fun q hq => ?_, fun r1 h => ?_⟩
          · simp only [List.mem_singleton] at hq
            rw [hq]; exact hinv
          · simp at h
        · have i1 : DeltaInv p1 :=
            t1 p1 hinv (fun d hd => hnn d (List.mem_append.mpr (Or.inl hd))) rfl
          obtain ⟨j1, j2⟩ := ih (scheduleNext p1) (scheduleNext_delta p1 i1)
            (fun d hd => hnn d (List.mem_append.mpr (Or.inr hd)))
          refine ⟨fun q hq => ?_, fun r1 h => j2 r1 h⟩
          simp only [List.mem_cons] at hq
          rcases hq with hq | hq
          · rw [hq]; exact hinv
          · exact j1 q hq
      | fault =>
        refine ⟨fun q hq => ?_, fun r1 h => ?_⟩
        · simp only [List.mem_singleton] at hq
          rw [hq]; exact hinv
        · simp at h
      | outOfFuel =>
        refine ⟨fun q hq => ?_, fun r1 h => ?_⟩
        · simp only [List.mem_singleton] at hq
          rw [hq]; exact hinv
        · simp at h
    · refine ⟨fun q hq => ?_, fun r1 h => ?_⟩
      · simp only [List.mem_singleton] at hq
        rw [hq]; exact hinv
      · simp only [Outcome.done.injEq] at h
        rw [← h]; exact hinv

/-- The scheduling loop ends only with both end-of-track flags set. -/
theorem playLoop_exit (mem : List Nat) (inner : Nat) :
    ∀ (fuel : Nat) (p r : Player), playLoop mem inner fuel p = Outcome.done r →
      r.g.eoTrk.getD 0 0 ≠ 0 ∧ r.g.eoTrk.getD 1 0 ≠ 0 := by
  intro fuel
  induction fuel with
  | zero => intro p r h; simp [playLoop] at h
  | succ f ih =>
    intro p r h
    rw [playLoop] at h
    split_ifs at h with hc
    · cases hdb : drainBoth mem inner p with
      | done p1 =>
        rw [hdb] at h
        simp only at h
        split_ifs at h with h1 h2
        · simp only [Outcome.done.injEq] at h
          rw [← h]; exact h1
        · exact ih _ _ h
      | fault => rw [hdb] at h; simp at h
      | outOfFuel => rw [hdb] at h; simp at h
    · simp only [Outcome.done.injEq] at h
      rw [← h]
      rw [not_or] at hc
      exact hc

theorem findTrack_read (mem : List Nat) (fileSize from_ p : Nat) (d : Int)
    (h : findTrack mem fileSize from_ = some (some (d, p))) :
    ∃ a, readVarLen mem a = some (d, p) := by
  unfold findTrack at h
  repeat' (split at h)
  all_goals first
    | (simp only [Option.some.injEq] at h; exact ⟨_, h⟩)
    | simp at h

/-- The deltas on entry to the scheduling loop are the two first delta times
that the set-up part reads. -/
theorem playSetup_delta (mem : List Nat) (fileSize now : Nat)
    (w0 : Int) (g : Globals) (p : Player) (gs : Globals)
    (h : playSetup mem fileSize now w0 g = Outcome.done (some p, gs)) :
    ∃ a0 a1 d0 d1 q0 q1, readVarLen mem a0 = some (d0, q0) ∧
      readVarLen mem a1 = some (d1, q1) ∧ p.g.delta = [d0, d1] ∧
      (0 ≤ d0 → 0 ≤ d1 → DeltaInv p) := by
  unfold playSetup at h
  simp only at h
  repeat' (split at h)
  all_goals (try simp only [Outcome.done.injEq, Prod.mk.injEq, reduceCtorEq, false_and] at h)
  rename_i d0 p0 hf0 _ d1 p1 hf1
  obtain ⟨a0, ha0⟩ := findTrack_read _ _ _ _ _ hf0
  obtain ⟨a1, ha1⟩ := findTrack_read _ _ _ _ _ hf1
  obtain ⟨hp, _⟩ := h
  simp only [Option.some.injEq] at hp
  rw [← hp]
  exact ⟨a0, a1, d0, d1, p0, p1, ha0, ha1, rfl, fun n0 n1 =>
    ⟨rfl, n0, (readVarLen_range mem _ _ _ ha0).2.1, n1, (readVarLen_range mem _ _ _ ha1).2.1⟩⟩

/-- C26: the deltas on entry to the scheduling loop are the two first delta
times read; `playLoopTrace` is the scheduling loop with the delta times that
it reads (each a value returned by `readVarLen`) and the states at its
iteration boundaries.  If the deltas on entry and every delta time read are
non-negative, then both deltas are non-negative at every iteration boundary,
that is at the head of every pass, before the drain step and after the
tick count has been subtracted from both, and in the state in which the loop
ends; and the loop ends only in a state where both end-of-track flags are
set. -/
theorem delta_nonneg (mem : List Nat) :
    (∀ fileSize now w0 g p gs,
        playSetup mem fileSize now w0 g = Outcome.done (some p, gs) →
        ∃ a0 a1 d0 d1 q0 q1, readVarLen mem a0 = some (d0, q0) ∧
          readVarLen mem a1 = some (d1, q1) ∧ p.g.delta = [d0, d1] ∧
          (0 ≤ d0 → 0 ≤ d1 → DeltaInv p)) ∧
      (∀ inner fuel p, (playLoopTrace mem inner fuel p).1 = playLoop mem inner fuel p) ∧
      (∀ inner fuel p, ∀ d ∈ (playLoopTrace mem inner fuel p).2.1,
        ∃ pos q, readVarLen mem pos = some (d, q)) ∧
      (∀ inner fuel p, DeltaInv p →
        (∀ d ∈ (playLoopTrace mem inner fuel p).2.1, 0 ≤ d) →
        (∀ q ∈ (playLoopTrace mem inner fuel p).2.2, DeltaInv q) ∧
          ∀ r, playLoop mem inner fuel p = Outcome.done r → DeltaInv r) ∧
      (∀ p, DeltaInv p → DeltaInv (scheduleNext p)) ∧
      (∀ inner fuel p r, playLoop mem inner fuel p = Outcome.done r →
        r.g.eoTrk.getD 0 0 ≠ 0 ∧ r.g.eoTrk.getD 1 0 ≠ 0) := by
  refine ⟨fun fileSize now w0 g p gs h => playSetup_delta mem fileSize now w0 g p gs h,
    fun inner fuel p => playLoopTrace_fst mem inner fuel p,
    fun inner fuel p => playLoopTrace_sound mem inner fuel p,
    fun inner fuel p hi hnn => ?_,
    fun p hi => scheduleNext_delta p hi,
    fun inner fuel p r h => playLoop_exit mem inner fuel p r h⟩
  obtain ⟨j1, j2⟩ := playLoopTrace_delta mem inner fuel p hi hnn
  refine ⟨j1, fun r h => j2 r ?_⟩
  rw [playLoopTrace_fst]; exact h

set_option maxRecDepth 100000 in
/-- C26 witness: `textFile` holds the text meta event `FF 01 05 E9 E9 E9 E9
41`, whose five text bytes at offset 38 would be read as a negative number by
`readVarLen`; the player never reads a delta time there.  The delta times it
reads are 0 and 0 on entry and 77, 0, 10, 0, 0 in the loop; the deltas are
`[0, 0]` and `[67, 0]` at the heads of the two passes and `[67, 0]` in the
final state, where both end-of-track flags are set. -/
theorem delta_nonneg_witness :
    readVarLen textMem 38 = some (-1657113407, 43) ∧
      ∃ P G P1, playSetup textMem textFile.length 0 0 initGlobals
          = Outcome.done (some P, G) ∧
        P.g.delta = [0, 0] ∧
        playLoop textMem 8 8 P = Outcome.done P1 ∧
        (playLoopTrace textMem 8 8 P).2.1 = [77, 0, 10, 0, 0] ∧
        ((playLoopTrace textMem 8 8 P).2.2.map fun q => q.g.delta) = [[0, 0], [67, 0]] ∧
        ((∀ q ∈ (playLoopTrace textMem 8 8 P).2.2, DeltaInv q) ∧
          ∀ r, playLoop textMem 8 8 P = Outcome.done r → DeltaInv r) ∧
        P1.g.delta = [67, 0] ∧ P1.g.eoTrk.getD 0 0 ≠ 0 ∧ P1.g.eoTrk.getD 1 0 ≠ 0 := by
  refine ⟨by decide, _, _, _, rfl, by decide, rfl, by decide, by decide, ?_, by decide,
    by decide, by decide⟩
  exact (delta_nonneg textMem).2.2.2.1 8 8 _ (by decide) (by decide)

end Ondes
